import Mathlib

/-!
Verification of the research-agent streaming backend
(`backend/app/services/subconscious.py`, `backend/app/routes/research.py`).

The Python source is shallowly embedded: Python values that flow through the
answer reconstructor are modelled by the inductive type `PyVal`; functions
that can raise a Python exception return `Except String _`; the worker-thread
stream driver `_run_sync_stream` is modelled as a pure function from an
environment (the behaviour of the external SDK on each attempt) to the list
of actions it performs (queue pushes and sleeps).  Wall-clock readings
(`time.time()` differences) are supplied by the environment as oracles where
they influence control flow and are elided where they only decorate events.
-/

set_option maxRecDepth 20000

namespace ResearchAgent

/-- Left brace character (written via its code point). -/
def lbrace : Char := Char.ofNat 123

/-- Right brace character (written via its code point). -/
def rbrace : Char := Char.ofNat 125

/-- Single-quote character (written via its code point). -/
def squote : Char := Char.ofNat 39

/-- The string consisting of a single left brace. -/
def lbraceS : String := String.singleton lbrace

/-- The string consisting of a single right brace. -/
def rbraceS : String := String.singleton rbrace

/-- The string consisting of a single quote character. -/
def squoteS : String := String.singleton squote

/-- Python `str.strip` whitespace set (ASCII): space, tab, newline, carriage
return, form feed, vertical tab. -/
def pyIsSpace (c : Char) : Bool :=
  c = ' ' || c = '\t' || c = '\n' || c = '\x0d' || c = '\x0c' || c = '\x0b'

/-- Drop leading characters satisfying `p`. -/
def dropWhileL (p : Char → Bool) : List Char → List Char
  | [] => []
  | c :: cs => if p c then dropWhileL p cs else c :: cs

/-- Python `str.strip()` on a character list. -/
def pyStripL (cs : List Char) : List Char :=
  (dropWhileL pyIsSpace ((dropWhileL pyIsSpace cs.reverse).reverse))

/-- Python `str.strip()`. -/
def pyStrip (s : String) : String :=
  ⟨pyStripL s.data⟩

/-- ASCII lower-casing of a character (Python `str.lower` restricted to ASCII,
which is all the source ever compares against). -/
def asciiLowerC (c : Char) : Char :=
  if 'A' ≤ c ∧ c ≤ 'Z' then Char.ofNat (c.toNat + 32) else c

/-- ASCII lower-casing of a string. -/
def asciiLower (s : String) : String :=
  ⟨s.data.map asciiLowerC⟩

/-- Whether `pat` occurs as a contiguous sublist starting at the head. -/
def startsWithL (pat : List Char) (cs : List Char) : Bool :=
  pat.isPrefixOf cs

/-- Python `needle in hay` substring test, on character lists. -/
def containsSubL (needle : List Char) : List Char → Bool
  | [] => needle.isEmpty
  | c :: cs => startsWithL needle (c :: cs) || containsSubL needle cs

/-- Python `needle in hay` substring test. -/
def strContains (hay needle : String) : Bool :=
  containsSubL needle.data hay.data

/-- Python `str.startswith`. -/
def pyStartsWith (s pat : String) : Bool :=
  startsWithL pat.data s.data

/-- A Python value as it flows through the service code: `None`, booleans,
integers, floats (modelled exactly as rationals), strings, lists, dicts
(insertion-ordered, unique keys) and SDK objects with named attributes. -/
inductive PyVal where
  | pnone
  | pbool (b : Bool)
  | pint (n : Int)
  | pfloat (q : ℚ)
  | pstr (s : String)
  | plist (xs : List PyVal)
  | pdict (kvs : List (String × PyVal))
  | pobj (attrs : List (String × PyVal))

namespace PyVal

/-- Python dict lookup (`d.get(k)` semantics, `none` when absent). -/
def dget (kvs : List (String × PyVal)) (k : String) : Option PyVal :=
  match kvs.find? (fun kv => kv.1 = k) with
  | some kv => some kv.2
  | none => none

/-- Python truthiness (`bool(v)`). -/
def pyTruthy : PyVal → Bool
  | pnone => false
  | pbool b => b
  | pint n => decide (n ≠ 0)
  | pfloat q => decide (q ≠ 0)
  | pstr s => decide (s ≠ "")
  | plist xs => !xs.isEmpty
  | pdict kvs => !kvs.isEmpty
  | pobj _ => true

/-- Attribute presence on an SDK object (`hasattr`); only `pobj` carries
attributes, mirroring that dicts/strings/numbers have none of the attribute
names the source probes for. -/
def pyHasAttr (v : PyVal) (a : String) : Bool :=
  match v with
  | pobj attrs => (dget attrs a).isSome
  | _ => false

/-- Attribute access with a default (`getattr(v, a, d)`). -/
def pyGetAttr (v : PyVal) (a : String) (d : PyVal) : PyVal :=
  match v with
  | pobj attrs => (dget attrs a).getD d
  | _ => d

/-- Escape a character the way Python `repr` escapes string contents
(backslash, quote, and the common control characters). -/
def reprEscapeChar (c : Char) : List Char :=
  if c = '\\' then ['\\', '\\']
  else if c = ResearchAgent.squote then ['\\', ResearchAgent.squote]
  else if c = '\n' then ['\\', 'n']
  else if c = '\t' then ['\\', 't']
  else if c = '\x0d' then ['\\', 'r']
  else c :: []

/-- Render a rational the way Python renders the floats that appear in the
service (integral values get a trailing `.0`; others are shown as a ratio;
only non-emptiness of this rendering is ever load-bearing). -/
def floatRepr (q : ℚ) : String :=
  if q.den = 1 then toString q.num ++ ".0"
  else toString q.num ++ "/" ++ toString q.den

/-- Python `repr` of a string (quotes plus escapes). -/
def strRepr (s : String) : String :=
  ResearchAgent.squoteS ++ String.mk (s.data.flatMap reprEscapeChar)
    ++ ResearchAgent.squoteS

mutual

/-- Python `str(v)`. -/
def pyStr : PyVal → String
  | pnone => "None"
  | pbool b => if b then "True" else "False"
  | pint n => toString n
  | pfloat q => floatRepr q
  | pstr s => s
  | plist xs => "[" ++ pyReprList xs ++ "]"
  | pdict kvs => ResearchAgent.lbraceS ++ pyReprDict kvs ++ ResearchAgent.rbraceS
  | pobj _ => "<object>"

/-- Python `repr(v)`. -/
def pyRepr : PyVal → String
  | pstr s => strRepr s
  | pnone => "None"
  | pbool b => if b then "True" else "False"
  | pint n => toString n
  | pfloat q => floatRepr q
  | plist xs => "[" ++ pyReprList xs ++ "]"
  | pdict kvs => ResearchAgent.lbraceS ++ pyReprDict kvs ++ ResearchAgent.rbraceS
  | pobj _ => "<object>"

/-- Comma-separated `repr` of list elements. -/
def pyReprList : List PyVal → String
  | [] => ""
  | [x] => pyRepr x
  | x :: y :: xs => pyRepr x ++ ", " ++ pyReprList (y :: xs)

/-- Comma-separated `repr` of dict entries. -/
def pyReprDict : List (String × PyVal) → String
  | [] => ""
  | [(k, v)] => strRepr k ++ ": " ++ pyRepr v
  | (k, v) :: kv :: kvs => strRepr k ++ ": " ++ pyRepr v ++ ", " ++ pyReprDict (kv :: kvs)

end

/-- Python iteration (`for x in v`): lists yield elements, strings yield
1-character strings, dicts yield their keys; every other value raises
`TypeError`. -/
def pyIter : PyVal → Except String (List PyVal)
  | plist xs => .ok xs
  | pstr s => .ok (s.data.map (fun c => pstr (String.singleton c)))
  | pdict kvs => .ok (kvs.map (fun kv => pstr kv.1))
  | _ => .error "TypeError: object is not iterable"

end PyVal

open PyVal

/-! ## A JSON parser modelling Python `json.loads`

Floats are represented exactly as rationals.  Duplicate object keys follow
Python semantics: the first occurrence keeps its position, the last value
wins.  Parsing fails (returns `none`, modelling `json.JSONDecodeError`) on
any input `json.loads` would reject. -/

/-- JSON whitespace. -/
def jsonWs (c : Char) : Bool :=
  c = ' ' || c = '\t' || c = '\n' || c = '\x0d'

/-- Skip JSON whitespace. -/
def skipWs : List Char → List Char
  | [] => []
  | c :: cs => if jsonWs c then skipWs cs else c :: cs

/-- Hexadecimal digit value. -/
def hexVal (c : Char) : Option Nat :=
  if '0' ≤ c ∧ c ≤ '9' then some (c.toNat - '0'.toNat)
  else if 'a' ≤ c ∧ c ≤ 'f' then some (c.toNat - 'a'.toNat + 10)
  else if 'A' ≤ c ∧ c ≤ 'F' then some (c.toNat - 'A'.toNat + 10)
  else none

/-- Decode a single-character JSON escape (everything except `\u`). -/
def escChar (e : Char) : Option Char :=
  if e = '"' then some '"'
  else if e = '\\' then some '\\'
  else if e = '/' then some '/'
  else if e = 'b' then some '\x08'
  else if e = 'f' then some '\x0c'
  else if e = 'n' then some '\n'
  else if e = 'r' then some '\x0d'
  else if e = 't' then some '\t'
  else none

/-- Parse the body of a JSON string after the opening quote; returns the
decoded characters and the rest after the closing quote. -/
def parseStringBody : List Char → Option (List Char × List Char)
  | [] => none
  | '"' :: cs => some ([], cs)
  | '\\' :: [] => none
  | '\\' :: e :: cs =>
    if e = 'u' then
      match cs with
      | h1 :: h2 :: h3 :: h4 :: cs' =>
        match hexVal h1, hexVal h2, hexVal h3, hexVal h4 with
        | some a, some b, some c3, some d4 =>
          (parseStringBody cs').map
            (fun p => (Char.ofNat (((a * 16 + b) * 16 + c3) * 16 + d4) :: p.1, p.2))
        | _, _, _, _ => none
      | _ => none
    else
      match escChar e with
      | some d => (parseStringBody cs).map (fun p => (d :: p.1, p.2))
      | none => none
  | c :: cs => (parseStringBody cs).map (fun p => (c :: p.1, p.2))

/-- Take a maximal run of decimal digits. -/
def takeDigits : List Char → (List Char × List Char)
  | [] => ([], [])
  | c :: cs =>
    if '0' ≤ c ∧ c ≤ '9' then
      let (ds, r) := takeDigits cs
      (c :: ds, r)
    else ([], c :: cs)

/-- Numeric value of a digit run. -/
def digitsToNat : List Char → Nat
  | [] => 0
  | c :: cs => digitsToNat cs + (c.toNat - '0'.toNat) * 10 ^ cs.length

/-- Parse a JSON number (grammar of RFC 8259, as `json.loads` accepts);
returns `pint` for pure integers and `pfloat` otherwise. -/
def parseNumber (cs : List Char) : Option (PyVal × List Char) :=
  let (neg, cs1) :=
    match cs with
    | '-' :: rest => (true, rest)
    | _ => (false, cs)
  match takeDigits cs1 with
  | ([], _) => none
  | (ds, cs2) =>
    -- leading zeros are rejected except for a lone zero
    if ds.length > 1 ∧ ds.head? = some '0' then none
    else
      let intPart : Nat := digitsToNat ds
      let (fracDigits, cs3, fracOk) :=
        match cs2 with
        | '.' :: rest =>
          match takeDigits rest with
          | ([], _) => ([], cs2, false)
          | (fs, r) => (fs, r, true)
        | _ => ([], cs2, true)
      if ¬ fracOk then none
      else
        let hasFrac := ¬ fracDigits.isEmpty
        let (expVal, cs4, hasExpo, expOk) :=
          match cs3 with
          | e :: rest =>
            if e = 'e' ∨ e = 'E' then
              let (eneg, rest1) :=
                match rest with
                | '-' :: r => (true, r)
                | '+' :: r => (false, r)
                | _ => (false, rest)
              match takeDigits rest1 with
              | ([], _) => ((0 : Int), cs3, true, false)
              | (es, r) =>
                (if eneg then -(digitsToNat es : Int) else (digitsToNat es : Int),
                 r, true, true)
            else ((0 : Int), cs3, false, true)
          | [] => ((0 : Int), cs3, false, true)
        if ¬ expOk then none
        else
          let mantissa : ℚ :=
            (intPart : ℚ) + (digitsToNat fracDigits : ℚ) / (10 ^ fracDigits.length : ℚ)
          let signed : ℚ := if neg then -mantissa else mantissa
          let value : ℚ :=
            if 0 ≤ expVal then signed * (10 : ℚ) ^ expVal.toNat
            else signed / (10 : ℚ) ^ (-expVal).toNat
          if hasFrac ∨ hasExpo then some (pfloat value, cs4)
          else some (pint (if neg then -(intPart : Int) else (intPart : Int)), cs4)

/-- Insert a key into a Python dict under construction: an existing key keeps
its position but its value is overwritten; a new key is appended. -/
def pyInsert (kvs : List (String × PyVal)) (k : String) (v : PyVal) :
    List (String × PyVal) :=
  match kvs with
  | [] => [(k, v)]
  | (k', v') :: rest =>
    if k' = k then (k', v) :: rest else (k', v') :: pyInsert rest k v

mutual

/-- Parse one JSON value (fuel-indexed recursion). -/
def parseValue (fuel : Nat) (cs : List Char) : Option (PyVal × List Char) :=
  match fuel with
  | 0 => none
  | fuel + 1 =>
    match cs with
    | [] => none
    | c :: rest =>
      if c = 'n' then
        match rest with
        | 'u' :: 'l' :: 'l' :: r => some (pnone, r)
        | _ => none
      else if c = 't' then
        match rest with
        | 'r' :: 'u' :: 'e' :: r => some (pbool true, r)
        | _ => none
      else if c = 'f' then
        match rest with
        | 'a' :: 'l' :: 's' :: 'e' :: r => some (pbool false, r)
        | _ => none
      else if c = '"' then
        match parseStringBody rest with
        | some (out, r) => some (pstr (String.mk out), r)
        | none => none
      else if c = '[' then
        match skipWs rest with
        | ']' :: r => some (plist [], r)
        | cs' => parseArrayItems fuel cs' []
      else if c = ResearchAgent.lbrace then
        match skipWs rest with
        | c' :: r =>
          if c' = ResearchAgent.rbrace then some (pdict [], r)
          else parseObjectItems fuel (c' :: r) []
        | [] => none
      else parseNumber (c :: rest)

/-- Parse array elements after the opening bracket (first element pending). -/
def parseArrayItems (fuel : Nat) (cs : List Char) (acc : List PyVal) :
    Option (PyVal × List Char) :=
  match fuel with
  | 0 => none
  | fuel + 1 =>
    match parseValue fuel (skipWs cs) with
    | none => none
    | some (v, r) =>
      match skipWs r with
      | ',' :: r' => parseArrayItems fuel r' (acc ++ [v])
      | ']' :: r' => some (plist (acc ++ [v]), r')
      | _ => none

/-- Parse object members after the opening brace (first member pending). -/
def parseObjectItems (fuel : Nat) (cs : List Char) (acc : List (String × PyVal)) :
    Option (PyVal × List Char) :=
  match fuel with
  | 0 => none
  | fuel + 1 =>
    match skipWs cs with
    | '"' :: r =>
      match parseStringBody r with
      | none => none
      | some (key, r1) =>
        match skipWs r1 with
        | ':' :: r2 =>
          match parseValue fuel (skipWs r2) with
          | none => none
          | some (v, r3) =>
            let acc' := pyInsert acc (String.mk key) v
            match skipWs r3 with
            | c :: r4 =>
              if c = ',' then parseObjectItems fuel r4 acc'
              else if c = ResearchAgent.rbrace then some (pdict acc', r4)
              else none
            | [] => none
        | _ => none
    | _ => none

end

/-- Python `json.loads`: parse a complete JSON document (surrounding
whitespace allowed, trailing data rejected). -/
def jsonParse (s : String) : Option PyVal :=
  match parseValue (s.data.length + 1) (skipWs s.data) with
  | some (v, r) =>
    match skipWs r with
    | [] => some v
    | _ => none
  | none => none

/-! ## The answer reconstructor (`SubconsciousService`, lines 269-541)

`_ensure_string`, `_serialize_tooluse`, `_serialize_task`,
`_serialize_reasoning`, `_collect_all_conclusions`,
`_synthesize_answer_from_reasoning`, `_extract_answer`,
`_salvage_truncated_json`. -/

/-- `_ensure_string` (line 269): convert any value to a string; `None`
becomes the empty string.  (`str()` cannot fail in the model, so the
`except: return repr(value)` arm is unreachable.) -/
def ensure_string (v : PyVal) : String :=
  match v with
  | pnone => ""
  | pstr s => s
  | _ => pyStr v

/-- `_serialize_tooluse` (line 328): a dict is returned unchanged; any other
value becomes a dict of its `tool_name`/`parameters`/`tool_result`
attributes, the value itself standing in for a missing `tool_name`. -/
def serialize_tooluse (t : PyVal) : PyVal :=
  match t with
  | pdict kvs => pdict kvs
  | _ =>
    pdict [("tool_name", pstr (ensure_string (pyGetAttr t "tool_name" t))),
           ("parameters", pyGetAttr t "parameters" pnone),
           ("tool_result", pyGetAttr t "tool_result" pnone)]

/-- Whether a value is Python `None`. -/
def isNone : PyVal → Bool
  | pnone => true
  | _ => false

/-- One scalar field copied from a dict task: present and non-`None`, it is
stringified; otherwise nothing. -/
def scalarEntryDict (kvs : List (String × PyVal)) (key : String) :
    List (String × PyVal) :=
  match dget kvs key with
  | some v => if isNone v then [] else [(key, pstr (ensure_string v))]
  | none => []

/-- Helper for `_serialize_task`: the scalar fields copied from a dict task
(`title`, `thought`, `conclusion`, `content`, in that loop order, present
and non-`None`). -/
def scalarFieldsOfDict (kvs : List (String × PyVal)) : List (String × PyVal) :=
  scalarEntryDict kvs "title" ++ scalarEntryDict kvs "thought" ++
    scalarEntryDict kvs "conclusion" ++ scalarEntryDict kvs "content"

/-- One scalar field copied from an object task: attribute present with a
non-`None` value. -/
def scalarEntryObj (t : PyVal) (key : String) : List (String × PyVal) :=
  if t.pyHasAttr key then
    if isNone (t.pyGetAttr key pnone) then []
    else [(key, pstr (ensure_string (t.pyGetAttr key pnone)))]
  else []

/-- Helper for `_serialize_task`: the scalar fields copied from an object
task, in loop order. -/
def scalarFieldsOfObj (t : PyVal) : List (String × PyVal) :=
  scalarEntryObj t "title" ++ scalarEntryObj t "thought" ++
    scalarEntryObj t "conclusion" ++ scalarEntryObj t "content"

/-- The scalar fields of a dict task together with its serialized truthy
`tooluse`, the state of `result` before the `subtasks` step. -/
def dictBaseFields (kvs : List (String × PyVal)) : List (String × PyVal) :=
  match dget kvs "tooluse" with
  | some tv =>
    if pyTruthy tv then scalarFieldsOfDict kvs ++ [("tooluse", serialize_tooluse tv)]
    else scalarFieldsOfDict kvs
  | none => scalarFieldsOfDict kvs

/-- The scalar fields of an object task together with its serialized truthy
`tooluse` attribute (a list is serialized element-wise). -/
def objBaseFields (t : PyVal) : List (String × PyVal) :=
  if t.pyHasAttr "tooluse" ∧ pyTruthy (t.pyGetAttr "tooluse" pnone) then
    match t.pyGetAttr "tooluse" pnone with
    | plist ts => scalarFieldsOfObj t ++ [("tooluse", plist (ts.map serialize_tooluse))]
    | tv => scalarFieldsOfObj t ++ [("tooluse", serialize_tooluse tv)]
  else scalarFieldsOfObj t

/-- Size bound for values found by dict lookup (termination support). -/
theorem sizeOf_dget {kvs : List (String × PyVal)} {k : String} {v : PyVal}
    (h : dget kvs k = some v) : sizeOf v < sizeOf kvs := by
  induction kvs with
  | nil => simp [dget] at h
  | cons kv rest ih =>
    simp only [dget, List.find?] at h
    by_cases hk : kv.1 = k
    · simp [hk] at h
      subst h
      cases kv with
      | mk a b => simp; omega
    · simp [hk] at h
      have := ih (by simpa [dget] using h)
      cases kv with
      | mk a b => simp; omega

/-- Size bound for attribute lookup on objects (termination support). -/
theorem sizeOf_attr_lt {task : PyVal} {a : String} (ha : task.pyHasAttr a = true) :
    sizeOf (task.pyGetAttr a pnone) < sizeOf task := by
  cases task <;> simp [pyHasAttr] at ha
  case pobj attrs =>
    cases hd : dget attrs a with
    | none => simp [hd] at ha
    | some v =>
      have := sizeOf_dget hd
      simp [pyGetAttr, hd]
      omega

mutual

/-- Serialize the value stored under `subtasks` by iterating it
(`[self._serialize_task(st) for st in v]`): lists recurse element-wise;
strings and dicts yield 1-character / key strings, each of which serializes
to the empty node (inlined as such); anything else raises `TypeError`. -/
def serialize_subtasks_val (sv : PyVal) : Except String (List PyVal) :=
  match sv with
  | plist xs => serialize_task_list xs
  | pstr s => .ok (s.data.map (fun _ => pdict []))
  | pdict kvs => .ok (kvs.map (fun _ => pdict []))
  | _ => .error "TypeError: object is not iterable"
termination_by (sizeOf sv, 0)
decreasing_by
simp [Prod.lex_def]

/-- The object arm of `_serialize_task` (lines 307-324): probe the scalar
attributes, a `tooluse` attribute (list or single), and `subtasks` with
`subtask` as a fallback spelling. -/
def serialize_task_obj (t : PyVal) : Except String PyVal :=
  let withTool := objBaseFields t
  if h1 : t.pyHasAttr "subtasks" = true ∧ pyTruthy (t.pyGetAttr "subtasks" pnone) then
    match serialize_subtasks_val (t.pyGetAttr "subtasks" pnone) with
    | .ok sts => .ok (pdict (withTool ++ [("subtasks", plist sts)]))
    | .error e => .error e
  else if h2 : t.pyHasAttr "subtask" = true ∧ pyTruthy (t.pyGetAttr "subtask" pnone) then
    match serialize_subtasks_val (t.pyGetAttr "subtask" pnone) with
    | .ok sts => .ok (pdict (withTool ++ [("subtasks", plist sts)]))
    | .error e => .error e
  else .ok (pdict withTool)
termination_by (sizeOf t, 1)
decreasing_by
· have := sizeOf_attr_lt h1.1
  simp_all [Prod.lex_def]
· have := sizeOf_attr_lt h2.1
  simp_all [Prod.lex_def]

/-- `_serialize_task` (line 293): serialize a single reasoning task.  Dict
tasks copy the known scalar fields, serialize a truthy `tooluse` and recurse
into a truthy `subtasks`; all other shapes go through the attribute-probing
object arm. -/
def serialize_task (task : PyVal) : Except String PyVal :=
  match task with
  | pdict kvs =>
    let withTool := dictBaseFields kvs
    match h : dget kvs "subtasks" with
    | some sv =>
      if pyTruthy sv then
        match serialize_subtasks_val sv with
        | .ok sts => .ok (pdict (withTool ++ [("subtasks", plist sts)]))
        | .error e => .error e
      else .ok (pdict withTool)
    | none => .ok (pdict withTool)
  | pnone => serialize_task_obj pnone
  | pbool b => serialize_task_obj (pbool b)
  | pint n => serialize_task_obj (pint n)
  | pfloat q => serialize_task_obj (pfloat q)
  | pstr s => serialize_task_obj (pstr s)
  | plist xs => serialize_task_obj (plist xs)
  | pobj attrs => serialize_task_obj (pobj attrs)
termination_by (sizeOf task, 2)
decreasing_by
all_goals first
| (have t := sizeOf_dget h; simp_all [Prod.lex_def] <;> omega)
| (simp_all [Prod.lex_def] <;> omega)

/-- Serialize each task of a list in order (the comprehension
`[self._serialize_task(st) for st in ...]`). -/
def serialize_task_list (tasks : List PyVal) : Except String (List PyVal) :=
  match tasks with
  | [] => .ok []
  | t :: ts =>
    match serialize_task t with
    | .ok v =>
      match serialize_task_list ts with
      | .ok vs => .ok (v :: vs)
      | .error e => .error e
    | .error e => .error e
termination_by (sizeOf tasks, 3)
decreasing_by
all_goals simp_all [Prod.lex_def] <;> omega

end

/-- `_serialize_reasoning` (line 280): a falsy value gives `[]`; a list is
serialized element-wise; a dict or SDK object (`__dict__`) is wrapped as a
one-element list; anything else degrades to a single `content` node. -/
def serialize_reasoning (r : PyVal) : Except String (List PyVal) :=
  if ¬ pyTruthy r then .ok []
  else
    match r with
    | plist xs => serialize_task_list xs
    | pdict kvs =>
      match serialize_task (pdict kvs) with
      | .ok v => .ok [v]
      | .error e => .error e
    | pobj attrs =>
      match serialize_task (pobj attrs) with
      | .ok v => .ok [v]
      | .error e => .error e
    | _ => .ok [pdict [("content", pstr (ensure_string r))]]

/-- Whether a key is one of the four scalar fields of a serialized node. -/
def isScalarKey (k : String) : Bool :=
  k = "title" || k = "thought" || k = "conclusion" || k = "content"

mutual

/-- Shape invariant of serialized reasoning nodes: a dict whose keys come
from `{title, thought, conclusion, content, tooluse, subtasks}`, with the
four scalars string-valued and `subtasks` a list of nodes of the same
shape (`tooluse` unconstrained). -/
def wfNode : PyVal → Bool
  | pdict kvs => wfEntries kvs
  | _ => false

/-- Entry-wise well-formedness of a serialized node's key-value list. -/
def wfEntries : List (String × PyVal) → Bool
  | [] => true
  | (k, v) :: rest => wfEntry k v && wfEntries rest

/-- Well-formedness of a single serialized-node entry: scalar keys take
strings, `tooluse` takes anything, `subtasks` takes a list of well-formed
nodes, and no other key is allowed. -/
def wfEntry : String → PyVal → Bool
  | k, pstr _ => isScalarKey k || k = "tooluse"
  | k, plist xs =>
    if k = "tooluse" then true
    else if k = "subtasks" then wfNodeList xs
    else false
  | k, _ => k = "tooluse"

/-- Well-formedness of a list of serialized nodes. -/
def wfNodeList : List PyVal → Bool
  | [] => true
  | x :: xs => wfNode x && wfNodeList xs

end

/-- Python `len(v)` (strings, lists and dicts have a length; anything else
raises `TypeError`). -/
def pyLen : PyVal → Except String Nat
  | pstr s => .ok s.length
  | plist xs => .ok xs.length
  | pdict kvs => .ok kvs.length
  | _ => .error "TypeError: object has no len"

mutual

/-- `_collect_all_conclusions` (line 338): walk the tree depth first,
keeping each dict node whose `conclusion` is truthy and longer than 20
characters once stripped, then descending into a truthy `subtasks`.
(The `depth` parameter of the source is never read and is dropped.)
A truthy non-string `conclusion` raises (`.strip()`), and a truthy
non-iterable `subtasks` raises (`for` over it). -/
def collect_all_conclusions (tasks : List PyVal) : Except String (List String) :=
  match tasks with
  | [] => .ok []
  | task :: rest =>
    match task with
    | pdict kvs =>
      let conclusion := (dget kvs "conclusion").getD (pstr "")
      let here : Except String (List String) :=
        if pyTruthy conclusion then
          match conclusion with
          | pstr s => if (pyStrip s).length > 20 then .ok [s] else .ok []
          | _ => .error "AttributeError: object has no attribute strip"
        else .ok []
      match here with
      | .error e => .error e
      | .ok hs =>
        let sub : Except String (List String) :=
          match h : dget kvs "subtasks" with
          | some (plist xs) =>
            if pyTruthy (plist xs) then collect_all_conclusions xs else .ok []
          | some (pstr _) => .ok []
          | some (pdict _) => .ok []
          | some sv => if pyTruthy sv then .error "TypeError: object is not iterable" else .ok []
          | none => .ok []
        match sub with
        | .error e => .error e
        | .ok ss =>
          match collect_all_conclusions rest with
          | .error e => .error e
          | .ok ts => .ok (hs ++ ss ++ ts)
    | _ =>
      collect_all_conclusions rest
termination_by (sizeOf tasks, 0)
decreasing_by
all_goals first
| (have t := sizeOf_dget h; simp_all [Prod.lex_def] <;> omega)
| (simp_all [Prod.lex_def] <;> omega)

end

/-- `score_task` (line 360, nested in `_synthesize_answer_from_reasoning`):
score a node's conclusion.  Scores are kept in exact half-units: the value
returned here is twice the Python float score (the only non-integral factor
is 1.5, and the base is an integer length, so twice the score is a natural
number and all comparisons agree).  The title is lower-cased before the
marker test; a falsy conclusion scores `(None, 0)`. -/
def score_task (kvs : List (String × PyVal)) (depth : Nat) :
    Except String (Option PyVal × Nat) :=
  let conclusion := (dget kvs "conclusion").getD (pstr "")
  match (dget kvs "title").getD (pstr "") with
  | pstr title0 =>
    let title := asciiLower title0
    if ¬ pyTruthy conclusion then .ok (none, 0)
    else
      match pyLen conclusion with
      | .error e => .error e
      | .ok len =>
        let score1 := 2 * len
        let score2 :=
          if (["final", "summary", "synthesis", "conclusion", "report"].any
              (fun m => strContains title m)) then score1 * 3 else score1
        let score3 := if depth = 0 then score2 * 3 / 2 else score2
        .ok (some conclusion, score3)
  | _ => .error "AttributeError: object has no attribute lower"

mutual

/-- `find_best_in_tree` (line 378, nested in
`_synthesize_answer_from_reasoning`): fold over the tree depth first,
keeping the first strictly-highest-scoring conclusion (scores in half-units,
see `score_task`). -/
def find_best_in_tree (tasks : List PyVal) (depth : Nat)
    (best : Option PyVal × Nat) : Except String (Option PyVal × Nat) :=
  match tasks with
  | [] => .ok best
  | task :: rest =>
    match task with
    | pdict kvs =>
      match score_task kvs depth with
      | .error e => .error e
      | .ok (conclusion, score) =>
        let best1 := if score > best.2 then (conclusion, score) else best
        let subStep : Except String (Option PyVal × Nat) :=
          match h : dget kvs "subtasks" with
          | some (plist xs) =>
            if pyTruthy (plist xs) then
              match find_best_in_tree xs (depth + 1) (none, 0) with
              | .error e => .error e
              | .ok subBest =>
                .ok (if subBest.2 > best1.2 then subBest else best1)
            else .ok best1
          | some (pstr _) => .ok best1
          | some (pdict _) => .ok best1
          | some sv => if pyTruthy sv then .error "TypeError: object is not iterable" else .ok best1
          | none => .ok best1
        match subStep with
        | .error e => .error e
        | .ok best2 => find_best_in_tree rest depth best2
    | _ => find_best_in_tree rest depth best
termination_by (sizeOf tasks, 0)
decreasing_by
all_goals first
| (have t := sizeOf_dget h; simp_all [Prod.lex_def] <;> omega)
| (simp_all [Prod.lex_def] <;> omega)

end

/-- Join strings with blank-line separators (`"\n\n".join(...)`). -/
def joinBlank : List String → String
  | [] => ""
  | [s] => s
  | s :: t :: rest => s ++ "\n\n" ++ joinBlank (t :: rest)

/-- Python `sorted(..., key=len, reverse=True)` as a stable merge sort by
descending length. -/
def pySortByLenDesc (xs : List String) : List String :=
  xs.mergeSort (fun a b => b.length ≤ a.length)

/-- `_synthesize_answer_from_reasoning` (line 353): cascade of best-scoring
conclusion (kept if over 200 characters), longest conclusion over 100
characters, first five conclusions joined, or a fixed fallback.  The result
is a `PyVal` because the best-in-tree branch returns whatever value the
winning `conclusion` field held (always a string on serializer output). -/
def synthesize_answer_from_reasoning (reasoning : List PyVal) :
    Except String PyVal :=
  match collect_all_conclusions reasoning with
  | .error e => .error e
  | .ok conclusions =>
    if conclusions.isEmpty then .ok (pstr "No analysis results available.")
    else
      match find_best_in_tree reasoning 0 (none, 0) with
      | .error e => .error e
      | .ok (bestOpt, _) =>
        let bestStep : Except String (Option PyVal) :=
          match bestOpt with
          | some bc =>
            if pyTruthy bc then
              match pyLen bc with
              | .error e => .error e
              | .ok len => if len > 200 then .ok (some bc) else .ok none
            else .ok none
          | none => .ok none
        match bestStep with
        | .error e => .error e
        | .ok (some bc) => .ok bc
        | .ok none =>
          let substantial := conclusions.filter (fun c => c.length > 100)
          if ¬ substantial.isEmpty then
            .ok (pstr ((pySortByLenDesc substantial).headD ""))
          else if ¬ conclusions.isEmpty then
            .ok (pstr (joinBlank (conclusions.take 5)))
          else
            .ok (pstr "Research completed but no summary available.")

/-! ## `_salvage_truncated_json` (line 503)

The two regular expressions of the source have the shape
`"FIELD"\s*:\s*"([^"]*(?:\\.[^"]*)*)"`.  The first branch `[^"]*` of the
capture group is greedy and `[^"]` also matches a backslash, so whenever a
closing quote exists the very first attempt succeeds and the alternation
`(?:\\.[^"]*)*` never engages: the capture runs to the first quote,
whether or not a backslash precedes it (so a capture may end in a bare
backslash but never spans an escaped quote).  `re.findall` scans left to
right and resumes after each (non-overlapping) match. -/

/-- Scan the capture group `[^"]*(?:\\.[^"]*)*` followed by the closing
quote: every character up to the first quote is captured (backslashes
included — the escape alternation of the pattern never participates in a
successful match), the quote closes the match, end of input fails it.
Returns the capture and the rest after the closing quote. -/
def scanCapture : List Char → Option (List Char × List Char)
  | [] => none
  | c :: r =>
    if c = '"' then some ([], r)
    else (scanCapture r).map (fun p => (c :: p.1, p.2))

/-- The capture scan succeeds exactly when a quote occurs, capturing the
characters before the first quote and returning the rest after it. -/
theorem scanCapture_eq : ∀ (cs cap r : List Char),
    scanCapture cs = some (cap, r) ↔ cs = cap ++ '"' :: r ∧ '"' ∉ cap := by
  intro cs
  induction cs with
  | nil =>
    intro cap r
    constructor
    · intro h
      simp [scanCapture] at h
    · intro h
      exact absurd h.1 (by simp)
  | cons c cs ih =>
    intro cap r
    simp only [scanCapture]
    by_cases hc : c = '"'
    · subst hc
      rw [if_pos rfl]
      constructor
      · intro h
        cases h
        simp
      · rintro ⟨h1, h2⟩
        cases cap with
        | nil =>
          injection h1 with _ h3
          rw [h3]
        | cons a cap2 =>
          injection h1 with ha _
          rw [← ha] at h2
          exact absurd (List.mem_cons_self _ _) h2
    · rw [if_neg hc]
      constructor
      · intro h
        cases hsc : scanCapture cs with
        | none =>
          rw [hsc] at h
          exact Option.noConfusion h
        | some p =>
          rw [hsc] at h
          injection h with h2
          obtain ⟨h3, h4⟩ := (ih p.1 p.2).mp (by rw [hsc])
          have hcap : cap = c :: p.1 := by
            have := congrArg Prod.fst h2
            simpa using this.symm
          have hr : r = p.2 := by
            have := congrArg Prod.snd h2
            simpa using this.symm
          subst hcap
          subst hr
          refine ⟨by rw [h3]; rfl, ?_⟩
          intro hm
          rcases List.mem_cons.mp hm with hm | hm
          · exact hc hm.symm
          · exact h4 hm
      · rintro ⟨h1, h2⟩
        cases cap with
        | nil =>
          injection h1 with ha _
          exact absurd ha hc
        | cons a cap2 =>
          injection h1 with ha hrest
          subst ha
          have h3 : ¬ '"' ∈ cap2 := fun hm => h2 (List.mem_cons_of_mem _ hm)
          rw [(ih cap2 r).mpr ⟨hrest, h3⟩]
          rfl

/-- The remainder of a successful `Option.map`-wrapped capture step is the
second component of the underlying result. -/
theorem scanCapture_map_inv (o : Option (List Char × List Char))
    (f : List Char × List Char → List Char × List Char) {cap r : List Char}
    (h : o.map f = some (cap, r))
    (hf : ∀ p, (f p).2 = p.2) : ∃ p, o = some p ∧ r = p.2 := by
  cases o with
  | none => simp at h
  | some p =>
    refine ⟨p, rfl, ?_⟩
    simp only [Option.map] at h
    have := congrArg (fun x => Option.map Prod.snd x) h
    simp [hf p] at this
    exact this.symm

/-- The remainder after a successful capture scan is strictly shorter. -/
theorem scanCapture_shrinks :
    ∀ cs cap r, scanCapture cs = some (cap, r) → r.length < cs.length := by
  intro cs
  induction cs with
  | nil =>
    intro cap r h
    simp [scanCapture] at h
  | cons c cs ih =>
    intro cap r h
    simp only [scanCapture] at h
    split at h
    · have hr : r = cs := by
        have h2 := congrArg (fun x => Option.map Prod.snd x) h
        simpa using h2.symm
      subst hr
      simp
    · obtain ⟨p, hp, hr⟩ := scanCapture_map_inv _ _ h (fun p => rfl)
      have := ih p.1 p.2 (by simpa using hp)
      subst hr
      simp only [List.length_cons]
      omega

/-- Length never increases when dropping leading characters. -/
theorem dropWhileL_length_le (p : Char → Bool) :
    ∀ cs, (dropWhileL p cs).length ≤ cs.length := by
  intro cs
  induction cs with
  | nil => simp [dropWhileL]
  | cons c cs ih =>
    simp only [dropWhileL]
    by_cases h : p c
    · simp [h]; omega
    · simp [h]

/-- Try to match one whole occurrence `"FIELD"\s*:\s*"(capture)"` at the
head of `cs`; `pat` is the quoted field literal `"FIELD"`. -/
def tryMatchField (pat : List Char) (cs : List Char) :
    Option (List Char × List Char) :=
  if pat.isPrefixOf cs then
    match dropWhileL pyIsSpace (cs.drop pat.length) with
    | ':' :: r3 =>
      match dropWhileL pyIsSpace r3 with
      | '"' :: r5 => scanCapture r5
      | _ => none
    | _ => none
  else none

/-- A successful field match consumes at least the colon and quotes. -/
theorem tryMatchField_shrinks {pat cs cap rest : List Char}
    (h : tryMatchField pat cs = some (cap, rest)) : rest.length < cs.length := by
  simp only [tryMatchField] at h
  by_cases hp : pat.isPrefixOf cs
  · simp only [hp, if_pos] at h
    cases h2 : dropWhileL pyIsSpace (cs.drop pat.length) with
    | nil => simp [h2] at h
    | cons c3 r3 =>
      by_cases hc : c3 = ':'
      · subst hc
        simp only [h2] at h
        cases h4 : dropWhileL pyIsSpace r3 with
        | nil => simp [h4] at h
        | cons c5 r5 =>
          by_cases hq : c5 = '"'
          · subst hq
            simp only [h4] at h
            have hs := scanCapture_shrinks r5 cap rest h
            have d1 : (dropWhileL pyIsSpace (cs.drop pat.length)).length ≤
                cs.length - pat.length := by
              have := dropWhileL_length_le pyIsSpace (cs.drop pat.length)
              simpa using this
            have d2 : (dropWhileL pyIsSpace r3).length ≤ r3.length :=
              dropWhileL_length_le pyIsSpace r3
            rw [h2] at d1
            rw [h4] at d2
            simp at d1 d2
            omega
          · simp [h4, hq] at h
      · simp [h2, hc] at h
  · simp [hp] at h

/-- `re.findall` for the field pattern, on fuel: scan left to right,
collect captures of non-overlapping matches, resuming after each match.
Every step strictly shortens the scanned list (`tryMatchField_shrinks`),
so fuel `cs.length + 1` never runs out. -/
def findallFieldF (fuel : Nat) (pat : List Char) (cs : List Char) :
    List String :=
  match fuel with
  | 0 => []
  | fuel + 1 =>
    match cs with
    | [] => []
    | c :: cs' =>
      match tryMatchField pat (c :: cs') with
      | some (cap, rest) => String.mk cap :: findallFieldF fuel pat rest
      | none => findallFieldF fuel pat cs'

/-- `re.findall` for the field pattern. -/
def findallField (pat : List Char) (cs : List Char) : List String :=
  findallFieldF (cs.length + 1) pat cs

/-- One pattern-replacement pass of Python `str.replace` (left to right,
non-overlapping) on fuel; the pattern is `p0 :: ps`.  Every step strictly
shortens the list, so fuel `cs.length + 1` never runs out. -/
def replaceLF (fuel : Nat) (p0 : Char) (ps : List Char) (rep : List Char)
    (cs : List Char) : List Char :=
  match fuel with
  | 0 => cs
  | fuel + 1 =>
    match cs with
    | [] => []
    | c :: cs =>
      if (p0 :: ps).isPrefixOf (c :: cs) then
        rep ++ replaceLF fuel p0 ps rep (cs.drop ps.length)
      else c :: replaceLF fuel p0 ps rep cs

/-- Python `s.replace(pat, rep)` for a non-empty pattern. -/
def pyReplace (s pat rep : String) : String :=
  match pat.data with
  | [] => s
  | p0 :: ps => ⟨replaceLF (s.data.length + 1) p0 ps rep.data s.data⟩

/-- The unescaping applied to salvaged fragments:
`.replace('\\"','"').replace('\\n','\n').replace('\\t','\t')`. -/
def unescapeJson (s : String) : String :=
  pyReplace (pyReplace (pyReplace s "\\\"" "\"") "\\n" "\n") "\\t" "\t"

/-- The quoted field literal `"FIELD"`. -/
def quoteField (f : String) : List Char :=
  '"' :: f.data ++ ['"']

/-- `_salvage_truncated_json` (line 503): regex-extract `conclusion` values
(kept when longer than 50 characters after unescaping) and
`final_answer`/`answer`/`summary`/`content`/`response` values (kept when
longer than 100 characters), returning the longest salvaged part, or `none`.
The `try/except` wrapper of the source is unreachable in the model (all
operations are total). -/
def salvage_truncated_json (content : String) : Option String :=
  let cs := content.data
  let conclusions := findallField (quoteField "conclusion") cs
  let parts1 := conclusions.foldl
    (fun acc c =>
      let u := unescapeJson c
      if u.length > 50 then acc ++ [u] else acc) []
  let parts := ["final_answer", "answer", "summary", "content", "response"].foldl
    (fun acc f =>
      (findallField (quoteField f) cs).foldl
        (fun acc2 m =>
          let u := unescapeJson m
          if u.length > 100 then acc2 ++ [u] else acc2) acc) parts1
  if parts.isEmpty then none
  else some ((pySortByLenDesc parts).headD "")

/-! ## `_extract_delta_content` (line 543) and `_extract_answer` (line 411) -/

/-- Python `a or b` on values (the truthy operand wins). -/
def pyOrV (a b : PyVal) : PyVal :=
  if pyTruthy a then a else b

/-- The payload attribute of a delta event: `content`, else `data`, else
`text`, probed with `hasattr` (first present attribute wins, even when its
value is empty), defaulting to `None`. -/
def resolvePayload (event : PyVal) : PyVal :=
  if event.pyHasAttr "content" then event.pyGetAttr "content" pnone
  else if event.pyHasAttr "data" then event.pyGetAttr "data" pnone
  else if event.pyHasAttr "text" then event.pyGetAttr "text" pnone
  else pnone

/-- `_extract_delta_content` (line 543): classify a delta payload.  Returns
`(content, content_type)`; the initial content type is `"delta"` and is
changed only on a successful JSON-object classification.  The single spot
where the body can raise — `.get` on a non-dict `tooluse` while computing
`params` — is caught by the surrounding `except Exception` and yields the
values assigned so far, exactly as the source does. -/
def extract_delta_content (event : PyVal) : PyVal × String :=
  let dc0 := resolvePayload event
  match dc0 with
  | pstr s =>
    if pyTruthy (pstr s) then
      match jsonParse s with
      | some (pdict parsed) =>
        if (dget parsed "tool").isSome ∨ (dget parsed "tool_name").isSome ∨
            (dget parsed "tooluse").isSome then
          let toolName0 := pyOrV ((dget parsed "tool").getD pnone)
            (pyOrV ((dget parsed "tool_name").getD pnone) (pstr "tool"))
          let toolName :=
            match (dget parsed "tooluse").getD pnone with
            | pdict tu => (dget tu "tool_name").getD toolName0
            | _ => toolName0
          let p1 := (dget parsed "parameters").getD pnone
          let params : Except Unit PyVal :=
            if pyTruthy p1 then .ok p1
            else
              match (dget parsed "tooluse").getD (pdict []) with
              | pdict tu => .ok ((dget tu "parameters").getD (pdict []))
              | _ => .error ()
          match params with
          | .error _ => (pstr s, "delta")
          | .ok ps =>
            match ps with
            | pdict psd =>
              if pyTruthy (pdict psd) then
                let query := (dget psd "query").getD (pstr "")
                if pyTruthy query then
                  (pstr ("Using " ++ pyStr toolName ++ ": " ++ pyStr query), "tool")
                else (pstr ("Using tool: " ++ pyStr toolName), "tool")
              else (pstr ("Using tool: " ++ pyStr toolName), "tool")
            | _ => (pstr ("Using tool: " ++ pyStr toolName), "tool")
        else if (dget parsed "thought").isSome then
          (pstr ("Thinking: " ++ pyStr ((dget parsed "thought").getD pnone)), "info")
        else if (dget parsed "title").isSome then
          let title := (dget parsed "title").getD pnone
          let thought := (dget parsed "thought").getD (pstr "")
          if pyTruthy thought then
            (pstr ("Task: " ++ pyStr title ++ "\n" ++ pyStr thought), "info")
          else (pstr ("Task: " ++ pyStr title), "info")
        else if (dget parsed "conclusion").isSome then
          (pstr ("Conclusion: " ++ pyStr ((dget parsed "conclusion").getD pnone)), "info")
        else if (dget parsed "message").isSome then
          ((dget parsed "message").getD pnone, "info")
        else (pstr s, "delta")
      | some _ => (pstr s, "delta")
      | none => (pstr s, "delta")
    else (dc0, "delta")
  | _ => (dc0, "delta")

/-- The answer-field search of `_extract_answer` (lines 438-449): the first
key of the priority list whose value is truthy, a string, and longer than
50 characters. -/
def firstAnswerField (parsed : List (String × PyVal)) : Option String :=
  ["final_answer", "answer", "response", "result", "content", "conclusion",
   "summary", "output"].findSome?
    (fun k =>
      match dget parsed k with
      | some (pstr v) => if v ≠ "" ∧ v.length > 50 then some v else none
      | _ => none)

/-- The reasoning value `_extract_answer` actually serializes: the
`reasoning` list embedded in a parsed JSON answer replaces the raw reasoning
argument (lines 433-435). -/
def effectiveReasoning (answer0 reasoning_raw0 : PyVal) : PyVal :=
  match answer0 with
  | pstr s =>
    if pyStartsWith (pyStrip s) lbraceS then
      match jsonParse s with
      | some (pdict parsed) =>
        match dget parsed "reasoning" with
        | some (plist xs) => plist xs
        | _ => reasoning_raw0
      | _ => reasoning_raw0
    else reasoning_raw0
  | _ => reasoning_raw0

/-- Phase one of `_extract_answer` (the JSON branch, lines 426-467): the
pre-serialization answer value.  `none` encodes Python `answer = None`
(awaiting synthesis). -/
def answerAfterJson (answer0 : PyVal) : PyVal :=
  match answer0 with
  | pstr s =>
    if pyStartsWith (pyStrip s) lbraceS then
      match jsonParse s with
      | some (pdict parsed) =>
        match firstAnswerField parsed with
        | some v => pstr v
        | none => pnone
      | some _ => pstr s
      | none =>
        if s.length > 500 then
          match salvage_truncated_json s with
          | some sal => pstr sal
          | none => pstr s
        else pstr s
    else pstr s
  | v => v

/-- `_extract_answer` (line 411): reconstruct `(answer, reasoning)` from the
raw run result.  Log statements of the source are elided (they evaluate
`len(...)` on values that are strings whenever serialization succeeded,
which is the only case in which this function returns `.ok`). -/
def extract_answer (answer0 reasoning_raw0 : PyVal) :
    Except String (String × List PyVal) :=
  let answer1 := answerAfterJson answer0
  let reasoning1 := effectiveReasoning answer0 reasoning_raw0
  match serialize_reasoning reasoning1 with
  | .error e => .error e
  | .ok processed =>
    let needsSyn : Bool :=
      isNone answer1 ||
        (match answer1 with
         | pstr s => pyStrip s = ""
         | _ => false)
    let blob : Bool :=
      match answer1 with
      | pstr s => pyStartsWith (pyStrip s) lbraceS && decide (s.length > 1000)
      | _ => false
    let afterBlob : Except String PyVal :=
      if blob then
        if ¬ processed.isEmpty then
          match synthesize_answer_from_reasoning processed with
          | .error e => .error e
          | .ok synthesized =>
            match pyLen synthesized with
            | .error e => .error e
            | .ok slen => if slen > 100 then .ok synthesized else .ok answer1
        else .ok answer1
      else .ok answer1
    match afterBlob with
    | .error e => .error e
    | .ok answer2 =>
      let final : Except String PyVal :=
        if needsSyn ∧ ¬ blob then
          if ¬ processed.isEmpty then synthesize_answer_from_reasoning processed
          else .ok (pstr "Research completed but no results available.")
        else .ok answer2
      match final with
      | .error e => .error e
      | .ok answerF => .ok (ensure_string answerF, processed)

/-! ## The retrying stream driver `_run_sync_stream` (line 606)

The worker thread is modelled as a pure function from an environment — the
behaviour of the external SDK on each attempt — to the list of actions it
performs: queue pushes and backoff sleeps.  Wall-clock readings are elided
(the `elapsed` decoration of activity events) or supplied as oracles (the
1.5-second heartbeat test per delta).  `RETRY_DELAY` is a float in the
configuration with default `10.0`; the embedding takes it as a natural
number of seconds, exact for every integral configuration, so that
`f"{delay:.0f}"` is plain decimal rendering. -/

/-- A wire event pushed to the handoff queue (the dicts of the source; the
`elapsed` field of activity events is elided as pure wall-clock
decoration). -/
inductive StreamEvent where
  | status (phase message : String) (details : Option (String × List PyVal))
  | activity (delta_count : Nat) (content : Option PyVal) (content_type : String)
  | done (run_id : String) (answer : String) (reasoning : List PyVal)
  | error (error : String)

/-- An item put on the handoff queue: an event or the `_STREAM_END`
sentinel. -/
inductive QItem where
  | ev (e : StreamEvent)
  | endMarker

/-- An observable action of the worker: a queue push or a backoff sleep. -/
inductive Action where
  | put (item : QItem)
  | sleep (seconds : Nat)

/-- An exception raised by the SDK: a `SubconsciousError` carrying a status
code and code string (`str(e)` is `msg`), or any other exception with its
type name and message. -/
inductive ExcKind where
  | platform (status : Int) (code msg : String)
  | other (name msg : String)

/-- The behaviour of `client.wait(run_id)`: it raises, or returns a run
result with a status, an `error` attribute value, and an optional result
payload `(answer, reasoning)`. -/
inductive WaitBehavior where
  | raises (msg : String)
  | returns (status : String) (errAttr : PyVal) (result : Option (PyVal × PyVal))

/-- A raw event yielded by the SDK stream iterator.  For deltas, `ev` is the
event object (attribute access per `resolvePayload`) and `heartbeat` is the
oracle for `time.time() - last_progress_time > 1.5`.  For error events the
`error` / `message` attributes and the `str(event)` rendering are given. -/
inductive RawEvent where
  | delta (ev : PyVal) (heartbeat : Bool)
  | done (run_id : String) (wait : WaitBehavior)
  | errorEv (errAttr msgAttr : Option String) (rendered : String)

/-- The behaviour of one attempt: `client.stream(...)` raises, or returns an
iterator that yields `events` and then either finishes (`ending = none`) or
raises (`ending = some e`). -/
inductive AttemptBehavior where
  | streamFails (e : ExcKind)
  | streamOk (events : List RawEvent) (ending : Option ExcKind)

/-- The outcome of one attempt body: a terminal return, or a retry
(`continue`) carrying the recorded `last_error`. -/
inductive AttemptOutcome where
  | terminal
  | retry (lastError : String)

/-- Python `a or b or c` over optional strings (`None` and `""` are
falsy). -/
def orStr (o : Option String) (d : String) : String :=
  match o with
  | some s => if s = "" then d else s
  | none => d

/-- The two `except` clauses of the attempt loop (lines 793-825):
`SubconsciousError` retries on status 503/502/429 with attempts remaining;
any other exception retries when its message contains a transient marker
and attempts remain; otherwise the error is terminal. -/
def handleExc (e : ExcKind) (attempt maxRetries : Nat) : List Action × AttemptOutcome :=
  match e with
  | .platform status code msg =>
    if (status = 503 ∨ status = 502 ∨ status = 429) ∧ attempt < maxRetries then
      ([.put (.ev (.status "retry" ("Service unavailable (" ++ code ++ "), will retry...") none))],
       .retry msg)
    else ([.put (.ev (.error msg)), .put .endMarker], .terminal)
  | .other name msg =>
    let errorMsg := name ++ ": " ++ msg
    if (["timeout", "connection", "terminated"].any
        (fun m => strContains (asciiLower msg) m)) ∧ attempt < maxRetries then
      ([.put (.ev (.status "retry" "Connection issue, will retry..." none))],
       .retry errorMsg)
    else ([.put (.ev (.error errorMsg)), .put .endMarker], .terminal)

/-- The `done`-event handler (lines 697-766): emit `finalizing`, wait for
the run, then emit the terminal event.  A failure status, a missing result,
a polling error, and an exception escaping `_extract_answer` are all
terminal errors; a result gives the `done` event. -/
def processWait (runId : String) (w : WaitBehavior) : List Action :=
  Action.put (.ev (.status "finalizing" "Fetching results..." none)) ::
  match w with
  | .raises msg =>
    if strContains (asciiLower msg) "timeout" || strContains (asciiLower msg) "max_attempts" then
      [.put (.ev (.error "Request timed out while waiting for results. Please try again.")),
       .put .endMarker]
    else
      [.put (.ev (.error ("Failed to fetch result: " ++ msg))), .put .endMarker]
  | .returns status errAttr result =>
    if status = "failed" ∨ status = "canceled" ∨ status = "timed_out" then
      let errorMsg := "Run " ++ status ++
        (if pyTruthy errAttr then ": " ++ pyStr errAttr else "")
      [.put (.ev (.error errorMsg)), .put .endMarker]
    else
      match result with
      | some (rawAnswer, rawReasoning) =>
        match extract_answer rawAnswer rawReasoning with
        | .ok (ans, rs) =>
          [.put (.ev (.done runId ans rs)), .put .endMarker]
        | .error emsg =>
          if strContains (asciiLower emsg) "timeout" ||
              strContains (asciiLower emsg) "max_attempts" then
            [.put (.ev (.error "Request timed out while waiting for results. Please try again.")),
             .put .endMarker]
          else
            [.put (.ev (.error ("Failed to fetch result: " ++ emsg))), .put .endMarker]
      | none =>
        [.put (.ev (.error "No result returned from API")), .put .endMarker]

/-- The activity push of one delta event (lines 680-695): emitted when the
extracted content is meaningful (truthy and longer than 5 characters once
rendered and stripped) or the heartbeat fired; trivial content downgrades
the content type to `progress`. -/
def deltaActions (ev : PyVal) (hb : Bool) (dc' : Nat) : List Action :=
  let ec := extract_delta_content ev
  let hasContent := pyTruthy ec.1 && decide ((pyStrip (pyStr ec.1)).length > 5)
  if hasContent || hb then
    [.put (.ev (.activity dc' (if pyTruthy ec.1 then some ec.1 else none)
      (if hasContent then ec.2 else "progress")))]
  else []

/-- The delta-loop body (lines 668-789): process each raw event; a delta may
emit an activity event (meaningful content or heartbeat), a done event is
terminal via `processWait`, an error event retries on "terminated" with
attempts remaining and is terminal otherwise, and iterator exhaustion is the
for-else fatal error. -/
def processEvents (events : List RawEvent) (ending : Option ExcKind)
    (dc : Nat) (attempt maxRetries : Nat) : List Action × AttemptOutcome :=
  match events with
  | [] =>
    match ending with
    | none =>
      ([.put (.ev (.error ("Stream ended unexpectedly (" ++ toString dc ++ " deltas received)"))),
        .put .endMarker], .terminal)
    | some e => handleExc e attempt maxRetries
  | .delta ev hb :: rest =>
    let rec2 := processEvents rest ending (dc + 1) attempt maxRetries
    (deltaActions ev hb (dc + 1) ++ rec2.1, rec2.2)
  | .done rid w :: _ => (processWait rid w, .terminal)
  | .errorEv errA msgA rendered :: _ =>
    let errorMsg := orStr errA (orStr msgA rendered)
    if strContains (asciiLower errorMsg) "terminated" ∧ attempt < maxRetries then
      ([.put (.ev (.status "retry" "Connection terminated, preparing to retry..." none))],
       .retry errorMsg)
    else ([.put (.ev (.error errorMsg)), .put .endMarker], .terminal)

/-- The backoff prologue of an attempt (lines 643-651): on attempts after
the first, announce `Retrying in {delay}s...` and sleep for
`retry_delay * 2^(attempt-2)` seconds. -/
def backoffActions (attempt maxRetries retryDelay : Nat) : List Action :=
  if attempt > 1 then
    [.put (.ev (.status "retry"
      ("Retrying in " ++ toString (retryDelay * 2 ^ (attempt - 2)) ++ "s... (attempt " ++
        toString attempt ++ "/" ++ toString maxRetries ++ ")") none)),
     .sleep (retryDelay * 2 ^ (attempt - 2))]
  else []

/-- One iteration of the attempt loop (lines 642-825): backoff announcement
and sleep when not the first attempt, `connecting`, then either the stream
call raises or the stream is iterated after `researching`. -/
def runAttempt (b : AttemptBehavior) (attempt maxRetries retryDelay : Nat) :
    List Action × AttemptOutcome :=
  let pre := backoffActions attempt maxRetries retryDelay
  let conn : List Action := [.put (.ev (.status "connecting" "Connecting to API..." none))]
  match b with
  | .streamFails e =>
    let he := handleExc e attempt maxRetries
    (pre ++ conn ++ he.1, he.2)
  | .streamOk events ending =>
    let res : List Action := [.put (.ev (.status "researching" "Research in progress..." none))]
    let pe := processEvents events ending 0 attempt maxRetries
    (pre ++ conn ++ res ++ pe.1, pe.2)

/-- The `while attempt < self.max_retries` loop (line 638), plus the
retry-budget exhaustion error after it (line 828).  Structural recursion on
`fuel`, maintained by every caller as `maxRetries - attempt`, under which
`fuel = 0` is exactly the loop guard `attempt < max_retries` failing. -/
def runLoop (env : Nat → AttemptBehavior) (maxRetries retryDelay : Nat) :
    Nat → Nat → Option String → List Action
  | 0, _, lastError =>
    [.put (.ev (.error ("Failed after " ++ toString maxRetries ++ " attempts: " ++
      (match lastError with | some s => s | none => "None")))),
     .put .endMarker]
  | fuel + 1, attempt, lastError =>
    let a := attempt + 1
    let ra := runAttempt (env a) a maxRetries retryDelay
    match ra.2 with
    | .terminal => ra.1
    | .retry le => ra.1 ++ runLoop env maxRetries retryDelay fuel a (some le)

/-- The arxiv function-tool descriptor of `_get_tools` (lines 90-105). -/
def arxivToolDict (url : String) : PyVal :=
  pdict [("type", pstr "function"),
         ("name", pstr "arxiv_search"),
         ("description", pstr ("Search ArXiv for academic papers and research articles. " ++
           "Use this for finding peer-reviewed scientific publications, preprints, " ++
           "and academic research.")),
         ("url", pstr (url ++ "/search")),
         ("method", pstr "POST"),
         ("timeout", pint 30),
         ("parameters", pdict
           [("type", pstr "object"),
            ("properties", pdict
              [("query", pdict [("type", pstr "string"),
                 ("description", pstr "Search query for academic papers")]),
               ("max_results", pdict [("type", pstr "integer"), ("default", pint 10)])]),
            ("required", plist [pstr "query"])])]

/-- `_get_tools` (line 79): platform-tool descriptors for the selected ids
(all three by default), plus the arxiv function tool when enabled and a
service URL is configured (truthy). -/
def get_tools (toolIds : Option (List String)) (includeArxiv : Bool)
    (arxivUrl : Option String) : List PyVal :=
  let ids := toolIds.getD ["web_search", "webpage_understanding", "exa_search"]
  let platformTools := ids.map (fun i => pdict [("type", pstr "platform"), ("id", pstr i)])
  match arxivUrl with
  | some url => if includeArxiv && url ≠ "" then platformTools ++ [arxivToolDict url]
      else platformTools
  | none => platformTools

/-- `[t.get('id') or t.get('name') for t in tools]` (line 620). -/
def toolNamesOf (tools : List PyVal) : List PyVal :=
  tools.map (fun t =>
    match t with
    | pdict kvs => pyOrV ((dget kvs "id").getD pnone) ((dget kvs "name").getD pnone)
    | _ => pnone)

/-- `_run_sync_stream` (line 606): the full worker body.  The instruction
text built from the topic only feeds the upstream request and does not
influence the action trace, so the topic parameter is elided; the SDK
behaviour is the environment `env` (attempt number to behaviour). -/
def run_sync_stream (env : Nat → AttemptBehavior) (maxRetries retryDelay : Nat)
    (engine : String) (toolIds : Option (List String)) (includeArxiv : Bool)
    (arxivUrl : Option String) : List Action :=
  let tools := get_tools toolIds includeArxiv arxivUrl
  Action.put (.ev (.status "init" "Initializing research agent..."
    (some (engine, toolNamesOf tools)))) ::
  runLoop env maxRetries retryDelay maxRetries 0 none

/-! ## `stream_async` validation and relay (lines 836-956), catalogs
(lines 43-58), and the inbound request model (`AnalyzeRequest`,
`routes/research.py` lines 36-42). -/

/-- `AVAILABLE_ENGINES` (line 43). -/
def AVAILABLE_ENGINES : List PyVal :=
  [pdict [("id", pstr "tim-small-preview"), ("name", pstr "TIM Small Preview"),
          ("description", pstr "Fast, lightweight engine")],
   pdict [("id", pstr "tim-gpt"), ("name", pstr "TIM GPT"),
          ("description", pstr "GPT-powered engine")],
   pdict [("id", pstr "tim-large"), ("name", pstr "TIM Large"),
          ("description", pstr "Most capable engine")]]

/-- `VALID_ENGINE_IDS` (line 49), as a list in catalog order (the source
holds a set; only membership is meaningful). -/
def VALID_ENGINE_IDS : List String :=
  ["tim-small-preview", "tim-gpt", "tim-large"]

/-- `AVAILABLE_TOOLS` (line 52). -/
def AVAILABLE_TOOLS : List PyVal :=
  [pdict [("id", pstr "web_search"), ("name", pstr "Web Search"),
          ("description", pstr "Search the web for information")],
   pdict [("id", pstr "webpage_understanding"), ("name", pstr "Webpage Understanding"),
          ("description", pstr "Read and understand web pages")],
   pdict [("id", pstr "exa_search"), ("name", pstr "Exa Search"),
          ("description", pstr "Semantic search engine")]]

/-- `VALID_TOOL_IDS` (line 58), as a list in catalog order. -/
def VALID_TOOL_IDS : List String :=
  ["web_search", "webpage_understanding", "exa_search"]

/-- Comma-space join (`', '.join(...)`). -/
def joinComma : List String → String
  | [] => ""
  | [s] => s
  | s :: t :: rest => s ++ ", " ++ joinComma (t :: rest)

/-- The outcome of the validation prefix of `stream_async` (lines 851-873):
either the generator yields the given events and returns without starting a
worker, or it proceeds to start the worker with the resolved engine and
(possibly filtered) tool ids. -/
inductive ValidationOutcome where
  | reject (events : List StreamEvent)
  | proceed (engineToUse : String) (toolIds : Option (List String))

/-- `engine_to_use = engine or self.engine` (line 851): a missing or empty
engine string falls back to the configured default. -/
def resolveEngine (engine : Option String) (defaultEngine : String) : String :=
  match engine with
  | some e => if e = "" then defaultEngine else e
  | none => defaultEngine

/-- The validation prefix of `stream_async` (lines 851-873): resolve the
engine (`engine or self.engine`, so an empty string also falls back to the
default), reject an unknown engine, reject a blank topic, and silently
filter invalid tool ids from a truthy tool list. -/
def stream_async_validate (topic : String) (engine : Option String)
    (toolIds : Option (List String)) (defaultEngine : String) : ValidationOutcome :=
  let engineToUse := resolveEngine engine defaultEngine
  if ¬ (engineToUse ∈ VALID_ENGINE_IDS) then
    .reject [.error ("Invalid engine " ++ squoteS ++ engineToUse ++ squoteS ++
      ". Valid engines: " ++ joinComma VALID_ENGINE_IDS)]
  else if topic = "" ∨ pyStrip topic = "" then
    .reject [.error "Research topic cannot be empty"]
  else
    let toolIds' :=
      match toolIds with
      | some ts =>
        if ¬ ts.isEmpty then
          if (ts.filter (fun t => ¬ (t ∈ VALID_TOOL_IDS))).isEmpty then some ts
          else some (ts.filter (fun t => t ∈ VALID_TOOL_IDS))
        else some ts
      | none => none
    .proceed engineToUse toolIds'

/-- The queue contents produced by a worker action trace. -/
def queueItems (acts : List Action) : List QItem :=
  acts.filterMap (fun a =>
    match a with
    | .put i => some i
    | .sleep _ => none)

/-- The relay loop of `stream_async` (lines 897-941): yield queue items in
FIFO order until the end sentinel (polling timing affects only latency, not
order or content, and is elided). -/
def relayItems : List QItem → List StreamEvent
  | [] => []
  | .endMarker :: _ => []
  | .ev e :: rest => e :: relayItems rest

/-- `stream_async` (line 836) as a whole: validation, then the worker run
(abstracted as the queue it fills) relayed to the consumer.  The boolean
records whether a worker was started (`run_in_executor` reached). -/
def stream_async (topic : String) (engine : Option String)
    (toolIds : Option (List String)) (defaultEngine : String)
    (run : String → Option (List String) → List QItem) :
    List StreamEvent × Bool :=
  match stream_async_validate topic engine toolIds defaultEngine with
  | .reject evs => (evs, false)
  | .proceed e t => (relayItems (run e t), true)

/-- The pydantic validation of `AnalyzeRequest.topic`
(`Field(..., min_length=3, max_length=2000)`). -/
def analyzeTopicAccepted (topic : String) : Bool :=
  3 ≤ topic.length && topic.length ≤ 2000

/-- The two-503s-then-success scenario environment: attempts 1 and 2 raise
`SubconsciousError` with status 503, attempt 3 streams a single `done` event
whose poll returns a succeeded run with the given result payload. -/
def envTwo503 (c1 m1 c2 m2 rid : String) (rawA rawR : PyVal) :
    Nat → AttemptBehavior := fun k =>
  if k = 1 then .streamFails (.platform 503 c1 m1)
  else if k = 2 then .streamFails (.platform 503 c2 m2)
  else .streamOk [.done rid (.returns "succeeded" pnone (some (rawA, rawR)))] none

/-! ## Trace observations -/

/-- Whether a stream event is terminal (`done` or `error`). -/
def isTerminal : StreamEvent → Bool
  | .done _ _ _ => true
  | .error _ => true
  | _ => false

/-- Whether a stream event is a status event with phase `retry`. -/
def isRetryStatus : StreamEvent → Bool
  | .status p _ _ => p = "retry"
  | _ => false

/-- Whether a stream event is an `error` event. -/
def isErrorEvent : StreamEvent → Bool
  | .error _ => true
  | _ => false

/-- The stream events pushed by a worker trace (sleeps and the end sentinel
dropped). -/
def pushedEvents (acts : List Action) : List StreamEvent :=
  (queueItems acts).filterMap (fun i =>
    match i with
    | .ev e => some e
    | .endMarker => none)

/-- The backoff sleeps performed by a worker trace, in order. -/
def sleepsOf (acts : List Action) : List Nat :=
  acts.filterMap (fun a =>
    match a with
    | .sleep s => some s
    | .put _ => none)

/-- All items of the list are events, none terminal. -/
def NonTerminalItems (items : List QItem) : Prop :=
  ∀ i ∈ items, ∃ s, i = QItem.ev s ∧ isTerminal s = false

/-- The list is a run of non-terminal events followed by exactly one
terminal event and exactly one end sentinel. -/
def TerminalChunk (items : List QItem) : Prop :=
  ∃ pre t, items = pre ++ [QItem.ev t, QItem.endMarker] ∧
    isTerminal t = true ∧ NonTerminalItems pre

/-- Non-terminal runs concatenate. -/
theorem nonTerminal_append {a b : List QItem}
    (ha : NonTerminalItems a) (hb : NonTerminalItems b) :
    NonTerminalItems (a ++ b) := by
  intro i hi
  rcases List.mem_append.mp hi with h | h
  · exact ha i h
  · exact hb i h

/-- Prepending a non-terminal run preserves the terminal-chunk shape. -/
theorem terminalChunk_prepend {a b : List QItem}
    (ha : NonTerminalItems a) (hb : TerminalChunk b) :
    TerminalChunk (a ++ b) := by
  obtain ⟨pre, t, heq, ht, hpre⟩ := hb
  exact ⟨a ++ pre, t, by simp [heq], ht, nonTerminal_append ha hpre⟩

/-- Outcome-indexed shape of an attempt fragment: terminal outcomes carry a
full terminal chunk, retry outcomes only non-terminal events. -/
def AttemptChunkOK (acts : List Action) (out : AttemptOutcome) : Prop :=
  match out with
  | .terminal => TerminalChunk (queueItems acts)
  | .retry _ => NonTerminalItems (queueItems acts)

/-- A singleton status item is a non-terminal run. -/
theorem nonTerminal_status (phase msg : String) (det : Option (String × List PyVal)) :
    NonTerminalItems [QItem.ev (.status phase msg det)] := by
  intro i hi
  simp at hi
  exact ⟨_, hi, by simp [isTerminal]⟩

/-- The empty list is a non-terminal run. -/
theorem nonTerminal_nil : NonTerminalItems [] := by
  intro i hi
  simp at hi

/-- A lone terminal event plus the sentinel is a terminal chunk. -/
theorem terminalChunk_single (t : StreamEvent) (ht : isTerminal t = true) :
    TerminalChunk [QItem.ev t, QItem.endMarker] :=
  ⟨[], t, rfl, ht, nonTerminal_nil⟩

/-- A status, a terminal event and the sentinel form a terminal chunk. -/
theorem terminalChunk_status_then (phase msg : String)
    (det : Option (String × List PyVal)) (t : StreamEvent) (ht : isTerminal t = true) :
    TerminalChunk [QItem.ev (.status phase msg det), QItem.ev t, QItem.endMarker] :=
  ⟨[QItem.ev (.status phase msg det)], t, rfl, ht, nonTerminal_status phase msg det⟩

/-- The exception handlers emit either a lone retry status or a terminal
error plus the sentinel. -/
theorem handleExc_ok (e : ExcKind) (a m : Nat) :
    AttemptChunkOK (handleExc e a m).1 (handleExc e a m).2 := by
  cases e with
  | platform status code msg =>
    by_cases h : (status = 503 ∨ status = 502 ∨ status = 429) ∧ a < m
    · simp only [handleExc, if_pos h, AttemptChunkOK]
      have : queueItems [Action.put (QItem.ev (.status "retry"
          ("Service unavailable (" ++ code ++ "), will retry...") none))] =
          [QItem.ev (.status "retry" ("Service unavailable (" ++ code ++ "), will retry...") none)] := by
        simp [queueItems]
      rw [this]
      exact nonTerminal_status _ _ _
    · simp only [handleExc, if_neg h, AttemptChunkOK]
      have : queueItems [Action.put (QItem.ev (.error msg)), Action.put QItem.endMarker] =
          [QItem.ev (.error msg), QItem.endMarker] := by simp [queueItems]
      rw [this]
      exact terminalChunk_single _ (by simp [isTerminal])
  | other name msg =>
    by_cases h : (["timeout", "connection", "terminated"].any
        (fun mk => strContains (asciiLower msg) mk)) ∧ a < m
    · simp only [handleExc, if_pos h, AttemptChunkOK]
      have : queueItems [Action.put (QItem.ev (.status "retry"
          "Connection issue, will retry..." none))] =
          [QItem.ev (.status "retry" "Connection issue, will retry..." none)] := by
        simp [queueItems]
      rw [this]
      exact nonTerminal_status _ _ _
    · simp only [handleExc, if_neg h, AttemptChunkOK]
      have : queueItems [Action.put (QItem.ev (.error (name ++ ": " ++ msg))),
          Action.put QItem.endMarker] =
          [QItem.ev (.error (name ++ ": " ++ msg)), QItem.endMarker] := by simp [queueItems]
      rw [this]
      exact terminalChunk_single _ (by simp [isTerminal])

/-- The done-event handler always produces a full terminal chunk. -/
theorem processWait_chunk (rid : String) (w : WaitBehavior) :
    TerminalChunk (queueItems (processWait rid w)) := by
  cases w with
  | raises msg =>
    by_cases h : strContains (asciiLower msg) "timeout" || strContains (asciiLower msg) "max_attempts"
    · have : queueItems (processWait rid (.raises msg)) =
          [QItem.ev (.status "finalizing" "Fetching results..." none),
           QItem.ev (.error "Request timed out while waiting for results. Please try again."),
           QItem.endMarker] := by
        simp [processWait, h, queueItems]
      rw [this]
      exact terminalChunk_status_then _ _ _ _ (by simp [isTerminal])
    · have : queueItems (processWait rid (.raises msg)) =
          [QItem.ev (.status "finalizing" "Fetching results..." none),
           QItem.ev (.error ("Failed to fetch result: " ++ msg)), QItem.endMarker] := by
        simp [processWait, h, queueItems]
      rw [this]
      exact terminalChunk_status_then _ _ _ _ (by simp [isTerminal])
  | returns status errAttr result =>
    by_cases hs : status = "failed" ∨ status = "canceled" ∨ status = "timed_out"
    · have : queueItems (processWait rid (.returns status errAttr result)) =
          [QItem.ev (.status "finalizing" "Fetching results..." none),
           QItem.ev (.error ("Run " ++ status ++
             (if pyTruthy errAttr then ": " ++ pyStr errAttr else ""))), QItem.endMarker] := by
        simp [processWait, hs, queueItems]
      rw [this]
      exact terminalChunk_status_then _ _ _ _ (by simp [isTerminal])
    · cases result with
      | some p =>
        cases hex : extract_answer p.1 p.2 with
        | ok ar =>
          have : queueItems (processWait rid (.returns status errAttr (some p))) =
              [QItem.ev (.status "finalizing" "Fetching results..." none),
               QItem.ev (.done rid ar.1 ar.2), QItem.endMarker] := by
            simp [processWait, hs, hex, queueItems]
          rw [this]
          exact terminalChunk_status_then _ _ _ _ (by simp [isTerminal])
        | error emsg =>
          by_cases h : strContains (asciiLower emsg) "timeout" ||
              strContains (asciiLower emsg) "max_attempts"
          · have : queueItems (processWait rid (.returns status errAttr (some p))) =
                [QItem.ev (.status "finalizing" "Fetching results..." none),
                 QItem.ev (.error "Request timed out while waiting for results. Please try again."),
                 QItem.endMarker] := by
              simp [processWait, hs, hex, h, queueItems]
            rw [this]
            exact terminalChunk_status_then _ _ _ _ (by simp [isTerminal])
          · have : queueItems (processWait rid (.returns status errAttr (some p))) =
                [QItem.ev (.status "finalizing" "Fetching results..." none),
                 QItem.ev (.error ("Failed to fetch result: " ++ emsg)), QItem.endMarker] := by
              simp [processWait, hs, hex, h, queueItems]
            rw [this]
            exact terminalChunk_status_then _ _ _ _ (by simp [isTerminal])
      | none =>
        have : queueItems (processWait rid (.returns status errAttr none)) =
            [QItem.ev (.status "finalizing" "Fetching results..." none),
             QItem.ev (.error "No result returned from API"), QItem.endMarker] := by
          simp [processWait, hs, queueItems]
        rw [this]
        exact terminalChunk_status_then _ _ _ _ (by simp [isTerminal])

/-- Delta activity pushes are never terminal. -/
theorem deltaActions_nonTerminal (ev : PyVal) (hb : Bool) (dc' : Nat) :
    NonTerminalItems (queueItems (deltaActions ev hb dc')) := by
  simp only [deltaActions]
  split
  · intro i hi
    simp [queueItems] at hi
    exact ⟨_, hi, by simp [isTerminal]⟩
  · intro i hi
    simp [queueItems] at hi

/-- Queue contents distribute over action concatenation. -/
theorem queueItems_append (a b : List Action) :
    queueItems (a ++ b) = queueItems a ++ queueItems b := by
  simp [queueItems]

/-- The delta loop produces an outcome-correct fragment for every event
sequence and every ending. -/
theorem processEvents_ok (events : List RawEvent) :
    ∀ ending dc a m, AttemptChunkOK (processEvents events ending dc a m).1
      (processEvents events ending dc a m).2 := by
  induction events with
  | nil =>
    intro ending dc a m
    cases ending with
    | none =>
      simp only [processEvents, AttemptChunkOK]
      have : queueItems [Action.put (QItem.ev (.error
          ("Stream ended unexpectedly (" ++ toString dc ++ " deltas received)"))),
          Action.put QItem.endMarker] =
          [QItem.ev (.error ("Stream ended unexpectedly (" ++ toString dc ++ " deltas received)")),
           QItem.endMarker] := by simp [queueItems]
      rw [this]
      exact terminalChunk_single _ (by simp [isTerminal])
    | some e => simpa only [processEvents] using handleExc_ok e a m
  | cons ev rest ih =>
    intro ending dc a m
    cases ev with
    | delta evv hb =>
      have ihr := ih ending (dc + 1) a m
      simp only [processEvents]
      cases hout : (processEvents rest ending (dc + 1) a m).2 with
      | terminal =>
        rw [hout] at ihr
        simp only [AttemptChunkOK, hout, queueItems_append]
        exact terminalChunk_prepend (deltaActions_nonTerminal evv hb (dc + 1)) ihr
      | retry le =>
        rw [hout] at ihr
        simp only [AttemptChunkOK, hout, queueItems_append]
        exact nonTerminal_append (deltaActions_nonTerminal evv hb (dc + 1)) ihr
    | done rid w =>
      simpa only [processEvents, AttemptChunkOK] using processWait_chunk rid w
    | errorEv errA msgA rendered =>
      simp only [processEvents]
      by_cases h : strContains (asciiLower (orStr errA (orStr msgA rendered))) "terminated" ∧ a < m
      · simp only [if_pos h, AttemptChunkOK]
        have : queueItems [Action.put (QItem.ev (.status "retry"
            "Connection terminated, preparing to retry..." none))] =
            [QItem.ev (.status "retry" "Connection terminated, preparing to retry..." none)] := by
          simp [queueItems]
        rw [this]
        exact nonTerminal_status _ _ _
      · simp only [if_neg h, AttemptChunkOK]
        have : queueItems [Action.put (QItem.ev (.error (orStr errA (orStr msgA rendered)))),
            Action.put QItem.endMarker] =
            [QItem.ev (.error (orStr errA (orStr msgA rendered))), QItem.endMarker] := by
          simp [queueItems]
        rw [this]
        exact terminalChunk_single _ (by simp [isTerminal])

/-- The backoff prologue pushes only a status event. -/
theorem backoffActions_nonTerminal (a m d : Nat) :
    NonTerminalItems (queueItems (backoffActions a m d)) := by
  simp only [backoffActions]
  split
  · have : queueItems [Action.put (QItem.ev (.status "retry"
        ("Retrying in " ++ toString (d * 2 ^ (a - 2)) ++ "s... (attempt " ++
          toString a ++ "/" ++ toString m ++ ")") none)),
        Action.sleep (d * 2 ^ (a - 2))] =
        [QItem.ev (.status "retry" ("Retrying in " ++ toString (d * 2 ^ (a - 2)) ++
          "s... (attempt " ++ toString a ++ "/" ++ toString m ++ ")") none)] := by
      simp [queueItems]
    rw [this]
    exact nonTerminal_status _ _ _
  · have : queueItems ([] : List Action) = [] := by simp [queueItems]
    rw [this]
    exact nonTerminal_nil

/-- A singleton status push, as queue items. -/
theorem queueItems_status (phase msg : String) (det : Option (String × List PyVal)) :
    queueItems [Action.put (QItem.ev (.status phase msg det))] =
      [QItem.ev (.status phase msg det)] := by
  simp [queueItems]

/-- One attempt produces an outcome-correct fragment. -/
theorem runAttempt_ok (b : AttemptBehavior) (a m d : Nat) :
    AttemptChunkOK (runAttempt b a m d).1 (runAttempt b a m d).2 := by
  have hconn : NonTerminalItems (queueItems
      [Action.put (QItem.ev (.status "connecting" "Connecting to API..." none))]) := by
    rw [queueItems_status]
    exact nonTerminal_status _ _ _
  have hres : NonTerminalItems (queueItems
      [Action.put (QItem.ev (.status "researching" "Research in progress..." none))]) := by
    rw [queueItems_status]
    exact nonTerminal_status _ _ _
  cases b with
  | streamFails e =>
    have he := handleExc_ok e a m
    have h1 : (runAttempt (.streamFails e) a m d).1 = backoffActions a m d ++
        [Action.put (QItem.ev (.status "connecting" "Connecting to API..." none))] ++
        (handleExc e a m).1 := rfl
    have h2 : (runAttempt (.streamFails e) a m d).2 = (handleExc e a m).2 := rfl
    rw [h1, h2]
    cases hout : (handleExc e a m).2 with
    | terminal =>
      rw [hout] at he
      simp only [AttemptChunkOK] at he ⊢
      rw [queueItems_append, queueItems_append]
      exact terminalChunk_prepend (nonTerminal_append (backoffActions_nonTerminal a m d) hconn) he
    | retry le =>
      rw [hout] at he
      simp only [AttemptChunkOK] at he ⊢
      rw [queueItems_append, queueItems_append]
      exact nonTerminal_append (nonTerminal_append (backoffActions_nonTerminal a m d) hconn) he
  | streamOk events ending =>
    have hp := processEvents_ok events ending 0 a m
    have h1 : (runAttempt (.streamOk events ending) a m d).1 = backoffActions a m d ++
        [Action.put (QItem.ev (.status "connecting" "Connecting to API..." none))] ++
        [Action.put (QItem.ev (.status "researching" "Research in progress..." none))] ++
        (processEvents events ending 0 a m).1 := rfl
    have h2 : (runAttempt (.streamOk events ending) a m d).2 =
        (processEvents events ending 0 a m).2 := rfl
    rw [h1, h2]
    cases hout : (processEvents events ending 0 a m).2 with
    | terminal =>
      rw [hout] at hp
      simp only [AttemptChunkOK] at hp ⊢
      rw [queueItems_append, queueItems_append, queueItems_append]
      exact terminalChunk_prepend
        (nonTerminal_append (nonTerminal_append (backoffActions_nonTerminal a m d) hconn) hres) hp
    | retry le =>
      rw [hout] at hp
      simp only [AttemptChunkOK] at hp ⊢
      rw [queueItems_append, queueItems_append, queueItems_append]
      exact nonTerminal_append
        (nonTerminal_append (nonTerminal_append (backoffActions_nonTerminal a m d) hconn) hres) hp

/-- Every loop run ends in exactly one terminal event plus the sentinel. -/
theorem runLoop_chunk (env : Nat → AttemptBehavior) (m d : Nat) :
    ∀ fuel attempt le, TerminalChunk (queueItems (runLoop env m d fuel attempt le)) := by
  intro fuel
  induction fuel with
  | zero =>
    intro attempt le
    have : queueItems (runLoop env m d 0 attempt le) =
        [QItem.ev (.error ("Failed after " ++ toString m ++ " attempts: " ++
          (match le with | some s => s | none => "None"))), QItem.endMarker] := by
      simp [runLoop, queueItems]
    rw [this]
    exact terminalChunk_single _ (by simp [isTerminal])
  | succ fuel ih =>
    intro attempt le
    have ha := runAttempt_ok (env (attempt + 1)) (attempt + 1) m d
    simp only [runLoop]
    cases hout : (runAttempt (env (attempt + 1)) (attempt + 1) m d).2 with
    | terminal =>
      rw [hout] at ha
      simpa only [AttemptChunkOK] using ha
    | retry le2 =>
      rw [hout] at ha
      simp only [AttemptChunkOK] at ha
      simp only [queueItems_append]
      exact terminalChunk_prepend ha (ih (attempt + 1) (some le2))

/-- C1: every run of the worker stream driver, for every SDK behaviour
(success on any attempt, fatal stream error, run failed/canceled/timed out
after done, polling timeout, stream exhaustion, retry-budget exhaustion,
unexpected exception), pushes a sequence consisting of non-terminal events,
then exactly one terminal event (`done` or `error`), then exactly one
end-of-stream sentinel, with nothing after it. -/
theorem run_sync_stream_terminal_invariant
    (env : Nat → AttemptBehavior) (m d : Nat) (engine : String)
    (toolIds : Option (List String)) (incA : Bool) (aUrl : Option String) :
    ∃ pre t, queueItems (run_sync_stream env m d engine toolIds incA aUrl) =
      pre ++ [QItem.ev t, QItem.endMarker] ∧ isTerminal t = true ∧
      ∀ i ∈ pre, ∃ s, i = QItem.ev s ∧ isTerminal s = false := by
  obtain ⟨pre, t, heq, ht, hpre⟩ := runLoop_chunk env m d m 0 none
  refine ⟨QItem.ev (.status "init" "Initializing research agent..."
      (some (engine, toolNamesOf (get_tools toolIds incA aUrl)))) :: pre, t, ?_, ht, ?_⟩
  · have hq : queueItems (run_sync_stream env m d engine toolIds incA aUrl) =
        QItem.ev (.status "init" "Initializing research agent..."
          (some (engine, toolNamesOf (get_tools toolIds incA aUrl)))) ::
        queueItems (runLoop env m d m 0 none) := by
      simp [run_sync_stream, queueItems]
    rw [hq, heq]
    rfl
  · intro i hi
    rcases List.mem_cons.mp hi with hi | hi
    · exact ⟨_, hi, by simp [isTerminal]⟩
    · exact hpre i hi

/-- A quiet environment used to witness the driver invariant: every attempt
opens a stream whose iterator ends immediately. -/
def envQuiet : Nat → AttemptBehavior := fun _ => .streamOk [] none

/-- Witness for C1: the invariant applied to a concrete run. -/
theorem run_sync_stream_terminal_invariant_witness :
    ∃ pre t, queueItems (run_sync_stream envQuiet 5 10 "tim-gpt" none false none) =
      pre ++ [QItem.ev t, QItem.endMarker] ∧ isTerminal t = true ∧
      ∀ i ∈ pre, ∃ s, i = QItem.ev s ∧ isTerminal s = false :=
  run_sync_stream_terminal_invariant envQuiet 5 10 "tim-gpt" none false none

/-- C3: on every attempt `k ≥ 2`, whatever the SDK behaviour, the attempt
starts with a `status{retry}` event reporting the backoff delay and a sleep
of exactly `retry_delay * 2^(k-2)` seconds. -/
theorem backoff_delay_attempt (b : AttemptBehavior) (k m d : Nat) (hk : 2 ≤ k) :
    ∃ rest, (runAttempt b k m d).1 =
      Action.put (QItem.ev (.status "retry"
        ("Retrying in " ++ toString (d * 2 ^ (k - 2)) ++ "s... (attempt " ++
          toString k ++ "/" ++ toString m ++ ")") none)) ::
      Action.sleep (d * 2 ^ (k - 2)) :: rest := by
  have hgt : k > 1 := hk
  have hback : backoffActions k m d = [Action.put (QItem.ev (.status "retry"
      ("Retrying in " ++ toString (d * 2 ^ (k - 2)) ++ "s... (attempt " ++
        toString k ++ "/" ++ toString m ++ ")") none)),
      Action.sleep (d * 2 ^ (k - 2))] := by
    simp [backoffActions, hgt]
  cases b with
  | streamFails e =>
    refine ⟨[Action.put (QItem.ev (.status "connecting" "Connecting to API..." none))] ++
      (handleExc e k m).1, ?_⟩
    have h1 : (runAttempt (.streamFails e) k m d).1 = backoffActions k m d ++
        [Action.put (QItem.ev (.status "connecting" "Connecting to API..." none))] ++
        (handleExc e k m).1 := rfl
    rw [h1, hback]
    simp
  | streamOk events ending =>
    refine ⟨[Action.put (QItem.ev (.status "connecting" "Connecting to API..." none))] ++
      [Action.put (QItem.ev (.status "researching" "Research in progress..." none))] ++
      (processEvents events ending 0 k m).1, ?_⟩
    have h1 : (runAttempt (.streamOk events ending) k m d).1 = backoffActions k m d ++
        [Action.put (QItem.ev (.status "connecting" "Connecting to API..." none))] ++
        [Action.put (QItem.ev (.status "researching" "Research in progress..." none))] ++
        (processEvents events ending 0 k m).1 := rfl
    rw [h1, hback]
    simp

/-- Witness for C3: with the shipped base delay of 10 seconds, attempts 2,
3 and 4 sleep 10, 20 and 40 seconds, and the attempt-2 retry status renders
the delay as `10`. -/
theorem backoff_delay_attempt_witness :
    (10 * 2 ^ (2 - 2) = 10 ∧ 10 * 2 ^ (3 - 2) = 20 ∧ 10 * 2 ^ (4 - 2) = 40) ∧
    (toString (10 * 2 ^ (2 - 2) : Nat) = "10") ∧
    (∃ rest, (runAttempt (.streamOk [] none) 2 5 10).1 =
      Action.put (QItem.ev (.status "retry"
        ("Retrying in " ++ toString (10 * 2 ^ (2 - 2) : Nat) ++ "s... (attempt " ++
          toString (2 : Nat) ++ "/" ++ toString (5 : Nat) ++ ")") none)) ::
      Action.sleep (10 * 2 ^ (2 - 2)) :: rest) :=
  ⟨⟨by decide, by decide, by decide⟩, by decide,
    backoff_delay_attempt (.streamOk [] none) 2 5 10 (by decide)⟩

/-- Counterexample for C5: on a delta payload that is not JSON the extractor
returns the raw text with content type `"delta"`, not `"progress"` as the
claim states. -/
theorem extract_delta_content_not_progress :
    extract_delta_content (pobj [("content", pstr "plainly not json")]) =
      (pstr "plainly not json", "delta") ∧ ("delta" : String) ≠ "progress" :=
  ⟨by rfl, by decide⟩

/-- C5 (amended): a textual delta payload that fails JSON parsing, or parses
to an object with none of the classification keys, is passed through
unchanged with content type `"delta"` (the caller downgrades trivial content
to `"progress"` when emitting the activity event); with no payload attribute
at all the extractor returns `(None, "delta")`; the extractor is total. -/
theorem extract_delta_content_passthrough :
    (∀ attrs s, resolvePayload (pobj attrs) = pstr s → jsonParse s = none →
      extract_delta_content (pobj attrs) = (pstr s, "delta")) ∧
    (∀ attrs s kvs, resolvePayload (pobj attrs) = pstr s →
      jsonParse s = some (pdict kvs) →
      dget kvs "tool" = none → dget kvs "tool_name" = none → dget kvs "tooluse" = none →
      dget kvs "thought" = none → dget kvs "title" = none → dget kvs "conclusion" = none →
      dget kvs "message" = none →
      extract_delta_content (pobj attrs) = (pstr s, "delta")) ∧
    (∀ attrs, resolvePayload (pobj attrs) = pnone →
      extract_delta_content (pobj attrs) = (pnone, "delta")) := by
  refine ⟨?_, ?_, ?_⟩
  · intro attrs s hres hparse
    by_cases hs : s = ""
    · subst hs
      simp [extract_delta_content, hres, pyTruthy]
    · simp [extract_delta_content, hres, pyTruthy, hs, hparse]
  · intro attrs s kvs hres hparse h1 h2 h3 h4 h5 h6 h7
    have hs : s ≠ "" := by
      intro he
      subst he
      have : jsonParse "" = none := by rfl
      rw [this] at hparse
      exact Option.noConfusion hparse
    simp [extract_delta_content, hres, pyTruthy, hs, hparse, h1, h2, h3, h4, h5, h6, h7]
  · intro attrs hres
    simp [extract_delta_content, hres]

/-- Witness for C5: the passthrough clause applied to a concrete non-JSON
payload delivered through the `data` attribute. -/
theorem extract_delta_content_passthrough_witness :
    extract_delta_content (pobj [("data", pstr "still not json")]) =
      (pstr "still not json", "delta") :=
  extract_delta_content_passthrough.1 [("data", pstr "still not json")]
    "still not json" (by rfl) (by rfl)

/-- Counterexample for C9: the topic `"ab"` is a non-empty string of at most
2000 characters, yet input validation rejects it (`min_length=3`). -/
theorem analyze_request_rejects_short_topic :
    analyzeTopicAccepted "ab" = false ∧ "ab" ≠ "" ∧ "ab".length ≤ 2000 := by
  refine ⟨by rfl, by decide, by decide⟩

/-- C9 (amended): input validation accepts exactly the topics of 3 to 2000
characters and rejects the empty topic; an accepted topic that is not blank
after stripping proceeds past the stream-side topic check and a worker
stream is produced. -/
theorem analyze_request_accepts_3_to_2000 :
    (∀ t : String, 3 ≤ t.length → t.length ≤ 2000 → analyzeTopicAccepted t = true) ∧
    (∀ t : String, analyzeTopicAccepted t = true → 3 ≤ t.length ∧ t.length ≤ 2000) ∧
    analyzeTopicAccepted "" = false ∧
    (∀ t run, analyzeTopicAccepted t = true → pyStrip t ≠ "" →
      (stream_async t none none "tim-gpt" run).2 = true) := by
  refine ⟨?_, ?_, by rfl, ?_⟩
  · intro t h1 h2
    simp [analyzeTopicAccepted, h1, h2]
  · intro t h
    simp [analyzeTopicAccepted] at h
    exact h
  · intro t run hacc hblank
    have hne : ¬ (t = "" ∨ pyStrip t = "") := by
      rintro (he | he)
      · subst he
        simp [analyzeTopicAccepted] at hacc
      · exact hblank he
    have hmem : resolveEngine none "tim-gpt" ∈ VALID_ENGINE_IDS := by decide
    simp [stream_async, stream_async_validate, hne, hmem]

/-- Witness for C9: a three-character topic is accepted and produces a
stream. -/
theorem analyze_request_accepts_3_to_2000_witness :
    analyzeTopicAccepted "abc" = true ∧
    (stream_async "abc" none none "tim-gpt" (fun _ _ => [])).2 = true :=
  ⟨analyze_request_accepts_3_to_2000.1 "abc" (by decide) (by decide),
   analyze_request_accepts_3_to_2000.2.2.2 "abc" (fun _ _ => [])
     (analyze_request_accepts_3_to_2000.1 "abc" (by decide) (by decide)) (by decide)⟩

/-- A needle occurs in any list of the shape `a ++ (needle ++ c)`. -/
theorem containsSub_append_middle (a needle c : List Char) :
    containsSubL needle (a ++ (needle ++ c)) = true := by
  induction a with
  | nil =>
    simp only [List.nil_append]
    cases needle with
    | nil =>
      cases c with
      | nil => rfl
      | cons c0 cs => simp [containsSubL, startsWithL, List.isPrefixOf]
    | cons n0 ns =>
      have h1 : startsWithL (n0 :: ns) (n0 :: (ns ++ c)) = true := by
        simp only [startsWithL, List.isPrefixOf_iff_prefix]
        exact ⟨c, by simp⟩
      simp only [List.cons_append, containsSubL, List.append_eq]
      rw [h1]
      simp
  | cons a0 a' ih =>
    simp only [List.cons_append, containsSubL, List.append_eq]
    rw [ih]
    simp

/-- A list with no invalid entries is unchanged by filtering to the valid
ones. -/
theorem filter_valid_of_no_invalid (ts : List String)
    (h : (ts.filter (fun t => ¬ (t ∈ VALID_TOOL_IDS))).isEmpty = true) :
    ts.filter (fun t => t ∈ VALID_TOOL_IDS) = ts := by
  rw [List.filter_eq_self]
  intro a ha
  by_contra hmem
  have : a ∈ ts.filter (fun t => ¬ (t ∈ VALID_TOOL_IDS)) := by
    rw [List.mem_filter]
    exact ⟨ha, by simpa using hmem⟩
  rw [List.isEmpty_iff] at h
  rw [h] at this
  exact List.not_mem_nil a this

/-- C8: a request whose resolved engine id is outside the fixed engine set
yields exactly one error event naming that id and starts no worker; a
request with a tool-id list proceeds with exactly the valid ids (invalid
ones silently removed) and no validation error. -/
theorem stream_async_engine_and_tools :
    (∀ topic engine toolIds defEngine run,
      ¬ (resolveEngine engine defEngine ∈ VALID_ENGINE_IDS) →
      stream_async topic engine toolIds defEngine run =
        ([StreamEvent.error ("Invalid engine " ++ squoteS ++ resolveEngine engine defEngine ++
          squoteS ++ ". Valid engines: " ++ joinComma VALID_ENGINE_IDS)], false) ∧
      strContains ("Invalid engine " ++ squoteS ++ resolveEngine engine defEngine ++
          squoteS ++ ". Valid engines: " ++ joinComma VALID_ENGINE_IDS)
        (resolveEngine engine defEngine) = true) ∧
    (∀ topic engine (ts : List String) defEngine run,
      resolveEngine engine defEngine ∈ VALID_ENGINE_IDS →
      ¬ (topic = "" ∨ pyStrip topic = "") →
      stream_async topic engine (some ts) defEngine run =
        (relayItems (run (resolveEngine engine defEngine)
          (some (ts.filter (fun t => t ∈ VALID_TOOL_IDS)))), true)) := by
  constructor
  · intro topic engine toolIds defEngine run hmem
    constructor
    · simp [stream_async, stream_async_validate, hmem]
    · show containsSubL (resolveEngine engine defEngine).data _ = true
      have hdata : ("Invalid engine " ++ squoteS ++ resolveEngine engine defEngine ++
          squoteS ++ ". Valid engines: " ++ joinComma VALID_ENGINE_IDS).data =
          ("Invalid engine " ++ squoteS).data ++ ((resolveEngine engine defEngine).data ++
            (squoteS ++ ". Valid engines: " ++ joinComma VALID_ENGINE_IDS).data) := by
        simp
      rw [hdata]
      exact containsSub_append_middle _ _ _
  · intro topic engine ts defEngine run hmem hblank
    by_cases hts : ts.isEmpty
    · have hnil : ts = [] := by
        cases ts with
        | nil => rfl
        | cons a b => simp at hts
      subst hnil
      simp [stream_async, stream_async_validate, hmem, hblank]
    · by_cases hinv : (ts.filter (fun t => ¬ (t ∈ VALID_TOOL_IDS))).isEmpty
      · have := filter_valid_of_no_invalid ts hinv
        simp [stream_async, stream_async_validate, hmem, hblank, hts, hinv, this]
      · have hnall : ¬ (∀ a ∈ ts, a ∈ VALID_TOOL_IDS) := by
          intro hall
          apply hinv
          rw [List.isEmpty_iff, List.filter_eq_nil]
          intro a ha
          simp [hall a ha]
        simp [stream_async, stream_async_validate, hmem, hblank, hts, hinv, hnall]

/-- Counterexample for C6: with two consecutive 503s then success
(max_retries 5, base delay 10), the pushed event sequence contains four
status events with phase `retry` — a "Service unavailable" notice after
each 503 in addition to the two backoff announcements — not exactly two. -/
theorem two503_retry_count_counterexample :
    ((pushedEvents (run_sync_stream
        (envTwo503 "engine_starting" "Service temporarily unavailable"
          "engine_starting" "Service temporarily unavailable" "run-x"
          (pstr "A concrete answer for the scenario.") pnone)
        5 10 "tim-gpt" none false none)).filter isRetryStatus).length = 4 ∧
    ¬ (((pushedEvents (run_sync_stream
        (envTwo503 "engine_starting" "Service temporarily unavailable"
          "engine_starting" "Service temporarily unavailable" "run-x"
          (pstr "A concrete answer for the scenario.") pnone)
        5 10 "tim-gpt" none false none)).filter isRetryStatus).length = 2) := by
  constructor
  · rfl
  · intro h
    rw [show ((pushedEvents (run_sync_stream
        (envTwo503 "engine_starting" "Service temporarily unavailable"
          "engine_starting" "Service temporarily unavailable" "run-x"
          (pstr "A concrete answer for the scenario.") pnone)
        5 10 "tim-gpt" none false none)).filter isRetryStatus).length = 4 from rfl] at h
    exact absurd h (by decide)

/-- C6 (amended): two consecutive 503s then success (max_retries 5, base
delay 10) push exactly four `retry`-phase status events — a service notice
after each 503 plus backoff announcements reporting 10s and 20s — sleep
exactly 10 then 20 seconds, push no `error` event, and end with the `done`
event and the sentinel. -/
theorem two503_retry_events (c1 m1 c2 m2 rid : String) (rawA rawR : PyVal)
    (ans : String) (rs : List PyVal)
    (hex : extract_answer rawA rawR = .ok (ans, rs)) :
    (pushedEvents (run_sync_stream (envTwo503 c1 m1 c2 m2 rid rawA rawR)
        5 10 "tim-gpt" none false none)).filter isRetryStatus =
      [.status "retry" ("Service unavailable (" ++ c1 ++ "), will retry...") none,
       .status "retry" "Retrying in 10s... (attempt 2/5)" none,
       .status "retry" ("Service unavailable (" ++ c2 ++ "), will retry...") none,
       .status "retry" "Retrying in 20s... (attempt 3/5)" none] ∧
    (pushedEvents (run_sync_stream (envTwo503 c1 m1 c2 m2 rid rawA rawR)
        5 10 "tim-gpt" none false none)).filter isErrorEvent = [] ∧
    sleepsOf (run_sync_stream (envTwo503 c1 m1 c2 m2 rid rawA rawR)
        5 10 "tim-gpt" none false none) = [10, 20] ∧
    ∃ pre, queueItems (run_sync_stream (envTwo503 c1 m1 c2 m2 rid rawA rawR)
        5 10 "tim-gpt" none false none) =
      pre ++ [QItem.ev (.done rid ans rs), QItem.endMarker] := by
  have hmsg2 : ("Retrying in " ++ toString ((10 : Nat) * 2 ^ (2 - 2)) ++ "s... (attempt " ++
      toString (2 : Nat) ++ "/" ++ toString (5 : Nat) ++ ")") =
      "Retrying in 10s... (attempt 2/5)" := by decide
  have hmsg3 : ("Retrying in " ++ toString ((10 : Nat) * 2 ^ (3 - 2)) ++ "s... (attempt " ++
      toString (3 : Nat) ++ "/" ++ toString (5 : Nat) ++ ")") =
      "Retrying in 20s... (attempt 3/5)" := by decide
  have hd2 : (10 : Nat) * 2 ^ (2 - 2) = 10 := by decide
  have hd3 : (10 : Nat) * 2 ^ (3 - 2) = 20 := by decide
  have hpw : processWait rid (.returns "succeeded" pnone (some (rawA, rawR))) =
      [Action.put (QItem.ev (.status "finalizing" "Fetching results..." none)),
       Action.put (QItem.ev (.done rid ans rs)), Action.put QItem.endMarker] := by
    simp [processWait, hex]
  have hpe3 : processEvents [.done rid (.returns "succeeded" pnone (some (rawA, rawR)))]
      none 0 3 5 =
      ([Action.put (QItem.ev (.status "finalizing" "Fetching results..." none)),
        Action.put (QItem.ev (.done rid ans rs)), Action.put QItem.endMarker], .terminal) := by
    simp only [processEvents]
    rw [hpw]
  have ha1 : runAttempt (.streamFails (.platform 503 c1 m1)) 1 5 10 =
      ([Action.put (QItem.ev (.status "connecting" "Connecting to API..." none)),
        Action.put (QItem.ev (.status "retry"
          ("Service unavailable (" ++ c1 ++ "), will retry...") none))], .retry m1) := by rfl
  have ha2 : runAttempt (.streamFails (.platform 503 c2 m2)) 2 5 10 =
      ([Action.put (QItem.ev (.status "retry" "Retrying in 10s... (attempt 2/5)" none)),
        Action.sleep 10,
        Action.put (QItem.ev (.status "connecting" "Connecting to API..." none)),
        Action.put (QItem.ev (.status "retry"
          ("Service unavailable (" ++ c2 ++ "), will retry...") none))], .retry m2) := by
    rw [show runAttempt (.streamFails (.platform 503 c2 m2)) 2 5 10 =
      ([Action.put (QItem.ev (.status "retry"
          ("Retrying in " ++ toString ((10 : Nat) * 2 ^ (2 - 2)) ++ "s... (attempt " ++
            toString (2 : Nat) ++ "/" ++ toString (5 : Nat) ++ ")") none)),
        Action.sleep ((10 : Nat) * 2 ^ (2 - 2)),
        Action.put (QItem.ev (.status "connecting" "Connecting to API..." none)),
        Action.put (QItem.ev (.status "retry"
          ("Service unavailable (" ++ c2 ++ "), will retry...") none))], .retry m2) from rfl,
      hmsg2, hd2]
  have ha3 : runAttempt (.streamOk
      [.done rid (.returns "succeeded" pnone (some (rawA, rawR)))] none) 3 5 10 =
      ([Action.put (QItem.ev (.status "retry" "Retrying in 20s... (attempt 3/5)" none)),
        Action.sleep 20,
        Action.put (QItem.ev (.status "connecting" "Connecting to API..." none)),
        Action.put (QItem.ev (.status "researching" "Research in progress..." none)),
        Action.put (QItem.ev (.status "finalizing" "Fetching results..." none)),
        Action.put (QItem.ev (.done rid ans rs)), Action.put QItem.endMarker], .terminal) := by
    rw [show runAttempt (.streamOk
        [.done rid (.returns "succeeded" pnone (some (rawA, rawR)))] none) 3 5 10 =
      (backoffActions 3 5 10 ++
        [Action.put (QItem.ev (.status "connecting" "Connecting to API..." none))] ++
        [Action.put (QItem.ev (.status "researching" "Research in progress..." none))] ++
        (processEvents [.done rid (.returns "succeeded" pnone (some (rawA, rawR)))] none 0 3 5).1,
       (processEvents [.done rid (.returns "succeeded" pnone (some (rawA, rawR)))] none 0 3 5).2)
      from rfl, hpe3]
    rw [show backoffActions 3 5 10 =
      [Action.put (QItem.ev (.status "retry"
        ("Retrying in " ++ toString ((10 : Nat) * 2 ^ (3 - 2)) ++ "s... (attempt " ++
          toString (3 : Nat) ++ "/" ++ toString (5 : Nat) ++ ")") none)),
       Action.sleep ((10 : Nat) * 2 ^ (3 - 2))] from rfl, hmsg3, hd3]
    rfl
  have henv1 : envTwo503 c1 m1 c2 m2 rid rawA rawR 1 = .streamFails (.platform 503 c1 m1) := rfl
  have henv2 : envTwo503 c1 m1 c2 m2 rid rawA rawR 2 = .streamFails (.platform 503 c2 m2) := rfl
  have henv3 : envTwo503 c1 m1 c2 m2 rid rawA rawR 3 = .streamOk
      [.done rid (.returns "succeeded" pnone (some (rawA, rawR)))] none := rfl
  have htr : run_sync_stream (envTwo503 c1 m1 c2 m2 rid rawA rawR)
      5 10 "tim-gpt" none false none =
      [Action.put (QItem.ev (.status "init" "Initializing research agent..."
        (some ("tim-gpt", [pstr "web_search", pstr "webpage_understanding", pstr "exa_search"])))),
       Action.put (QItem.ev (.status "connecting" "Connecting to API..." none)),
       Action.put (QItem.ev (.status "retry" ("Service unavailable (" ++ c1 ++ "), will retry...") none)),
       Action.put (QItem.ev (.status "retry" "Retrying in 10s... (attempt 2/5)" none)),
       Action.sleep 10,
       Action.put (QItem.ev (.status "connecting" "Connecting to API..." none)),
       Action.put (QItem.ev (.status "retry" ("Service unavailable (" ++ c2 ++ "), will retry...") none)),
       Action.put (QItem.ev (.status "retry" "Retrying in 20s... (attempt 3/5)" none)),
       Action.sleep 20,
       Action.put (QItem.ev (.status "connecting" "Connecting to API..." none)),
       Action.put (QItem.ev (.status "researching" "Research in progress..." none)),
       Action.put (QItem.ev (.status "finalizing" "Fetching results..." none)),
       Action.put (QItem.ev (.done rid ans rs)),
       Action.put QItem.endMarker] := by
    simp only [run_sync_stream, runLoop, henv1, henv2, henv3, ha1, ha2, ha3]
    rfl
  refine ⟨?_, ?_, ?_, ?_⟩
  · rw [htr]
    simp [pushedEvents, queueItems, isRetryStatus]
  · rw [htr]
    simp [pushedEvents, queueItems, isErrorEvent]
  · rw [htr]
    simp [sleepsOf]
  · refine ⟨(queueItems (run_sync_stream (envTwo503 c1 m1 c2 m2 rid rawA rawR)
      5 10 "tim-gpt" none false none)).take 10, ?_⟩
    rw [htr]
    simp [queueItems]

/-- Witness for C6: the amended statement applied to a concrete result
payload. -/
theorem two503_retry_events_witness :
    (pushedEvents (run_sync_stream
      (envTwo503 "c1" "m1" "c2" "m2" "run-y" (pstr "A plain concrete answer.") pnone)
      5 10 "tim-gpt" none false none)).filter isRetryStatus =
    [.status "retry" ("Service unavailable (" ++ "c1" ++ "), will retry...") none,
     .status "retry" "Retrying in 10s... (attempt 2/5)" none,
     .status "retry" ("Service unavailable (" ++ "c2" ++ "), will retry...") none,
     .status "retry" "Retrying in 20s... (attempt 3/5)" none] :=
  (two503_retry_events "c1" "m1" "c2" "m2" "run-y" (pstr "A plain concrete answer.") pnone
    "A plain concrete answer." [] (by rfl)).1

/-- Witness for C8: the concrete invalid engine id `gpt-5` is rejected with
a single error event naming it and no worker; a request carrying one valid
and one invalid tool id proceeds with just the valid one. -/
theorem stream_async_engine_and_tools_witness :
    stream_async "some topic" (some "gpt-5") none "tim-gpt" (fun _ _ => []) =
      ([StreamEvent.error ("Invalid engine " ++ squoteS ++ "gpt-5" ++ squoteS ++
        ". Valid engines: " ++ joinComma VALID_ENGINE_IDS)], false) ∧
    stream_async "some topic" (some "tim-large") (some ["web_search", "bad_tool"]) "tim-gpt"
        (fun _ tids => [QItem.ev (.status "echo" (joinComma (tids.getD [])) none), QItem.endMarker]) =
      ([StreamEvent.status "echo" "web_search" none], true) := by
  constructor
  · exact ((stream_async_engine_and_tools.1 "some topic" (some "gpt-5") none "tim-gpt"
      (fun _ _ => []) (by decide)).1)
  · have := stream_async_engine_and_tools.2 "some topic" (some "tim-large")
      ["web_search", "bad_tool"] "tim-gpt"
      (fun _ tids => [QItem.ev (.status "echo" (joinComma (tids.getD [])) none), QItem.endMarker])
      (by decide) (by decide)
    rw [this]
    rfl

/-- Entry-wise well-formedness distributes over append. -/
theorem wfEntries_append (a b : List (String × PyVal)) :
    wfEntries (a ++ b) = (wfEntries a && wfEntries b) := by
  induction a with
  | nil => simp [wfEntries]
  | cons kv rest ih =>
    cases kv with
    | mk k v => simp [wfEntries, ih, Bool.and_assoc]

/-- A scalar key paired with a string value is a well-formed entry. -/
theorem wfEntry_scalar (k : String)
    (hk : k = "title" ∨ k = "thought" ∨ k = "conclusion" ∨ k = "content")
    (s : String) : wfEntry k (pstr s) = true := by
  rcases hk with h | h | h | h <;> subst h <;> rfl

/-- The `tooluse` key admits any value. -/
theorem wfEntry_tooluse (v : PyVal) : wfEntry "tooluse" v = true := by
  cases v <;> rfl

/-- The `subtasks` key with a well-formed node list is well formed. -/
theorem wfEntry_subtasks (xs : List PyVal) (h : wfNodeList xs = true) :
    wfEntry "subtasks" (plist xs) = true := by
  rw [show wfEntry "subtasks" (plist xs) = wfNodeList xs from rfl, h]

/-- A dict-task scalar entry is well formed. -/
theorem wf_scalarEntryDict (kvs : List (String × PyVal)) (k : String)
    (hk : k = "title" ∨ k = "thought" ∨ k = "conclusion" ∨ k = "content") :
    wfEntries (scalarEntryDict kvs k) = true := by
  unfold scalarEntryDict
  cases dget kvs k with
  | none => simp [wfEntries]
  | some v =>
    by_cases hv : isNone v
    · simp [hv, wfEntries]
    · simp [hv, wfEntries, wfEntry_scalar k hk]

/-- An object-task scalar entry is well formed. -/
theorem wf_scalarEntryObj (t : PyVal) (k : String)
    (hk : k = "title" ∨ k = "thought" ∨ k = "conclusion" ∨ k = "content") :
    wfEntries (scalarEntryObj t k) = true := by
  unfold scalarEntryObj
  by_cases ha : t.pyHasAttr k
  · by_cases hv : isNone (t.pyGetAttr k pnone)
    · simp [ha, hv, wfEntries]
    · simp [ha, hv, wfEntries, wfEntry_scalar k hk]
  · simp [ha, wfEntries]

/-- The scalar fields of a dict task are well formed. -/
theorem wf_scalarFieldsOfDict (kvs : List (String × PyVal)) :
    wfEntries (scalarFieldsOfDict kvs) = true := by
  unfold scalarFieldsOfDict
  simp [wfEntries_append,
    wf_scalarEntryDict kvs "title" (by simp),
    wf_scalarEntryDict kvs "thought" (by simp),
    wf_scalarEntryDict kvs "conclusion" (by simp),
    wf_scalarEntryDict kvs "content" (by simp)]

/-- The scalar fields of an object task are well formed. -/
theorem wf_scalarFieldsOfObj (t : PyVal) :
    wfEntries (scalarFieldsOfObj t) = true := by
  unfold scalarFieldsOfObj
  simp [wfEntries_append,
    wf_scalarEntryObj t "title" (by simp),
    wf_scalarEntryObj t "thought" (by simp),
    wf_scalarEntryObj t "conclusion" (by simp),
    wf_scalarEntryObj t "content" (by simp)]

/-- The pre-`subtasks` fields of a dict task are well formed. -/
theorem wf_dictBaseFields (kvs : List (String × PyVal)) :
    wfEntries (dictBaseFields kvs) = true := by
  unfold dictBaseFields
  cases dget kvs "tooluse" with
  | none => exact wf_scalarFieldsOfDict kvs
  | some tv =>
    by_cases htr : pyTruthy tv
    · simp [htr, wfEntries_append, wf_scalarFieldsOfDict kvs, wfEntries,
        wfEntry_tooluse]
    · simp [htr, wf_scalarFieldsOfDict kvs]

/-- The pre-`subtasks` fields of an object task are well formed. -/
theorem wf_objBaseFields (t : PyVal) :
    wfEntries (objBaseFields t) = true := by
  unfold objBaseFields
  by_cases hc : t.pyHasAttr "tooluse" ∧ pyTruthy (t.pyGetAttr "tooluse" pnone)
  · simp only [hc, if_pos]
    cases htl : t.pyGetAttr "tooluse" pnone with
    | plist ts =>
      simp [wfEntries_append, wf_scalarFieldsOfObj t, wfEntries, wfEntry_tooluse]
    | pnone => simp [wfEntries_append, wf_scalarFieldsOfObj t, wfEntries, wfEntry_tooluse]
    | pbool b => simp [wfEntries_append, wf_scalarFieldsOfObj t, wfEntries, wfEntry_tooluse]
    | pint n => simp [wfEntries_append, wf_scalarFieldsOfObj t, wfEntries, wfEntry_tooluse]
    | pfloat q => simp [wfEntries_append, wf_scalarFieldsOfObj t, wfEntries, wfEntry_tooluse]
    | pstr s => simp [wfEntries_append, wf_scalarFieldsOfObj t, wfEntries, wfEntry_tooluse]
    | pdict kvs => simp [wfEntries_append, wf_scalarFieldsOfObj t, wfEntries, wfEntry_tooluse]
    | pobj attrs => simp [wfEntries_append, wf_scalarFieldsOfObj t, wfEntries, wfEntry_tooluse]
  · simp [hc, wf_scalarFieldsOfObj t]

/-- Unfolding of `serialize_task` on a dict with a truthy, serializable
`subtasks` value. -/
theorem serialize_task_dict_some_true_ok {kvs : List (String × PyVal)}
    {sv : PyVal} {sts : List PyVal}
    (hget : dget kvs "subtasks" = some sv) (htr : pyTruthy sv = true)
    (hok : serialize_subtasks_val sv = .ok sts) :
    serialize_task (pdict kvs) =
      .ok (pdict (dictBaseFields kvs ++ [("subtasks", plist sts)])) := by
  simp only [serialize_task]
  split
  · rename_i sv' hg'
    rw [hget] at hg'
    injection hg' with hsv
    subst hsv
    rw [if_pos htr, hok]
  · rename_i hg'
    rw [hget] at hg'
    exact Option.noConfusion hg'

/-- Unfolding of `serialize_task` on a dict whose truthy `subtasks` value
fails to serialize. -/
theorem serialize_task_dict_some_true_err {kvs : List (String × PyVal)}
    {sv : PyVal} {e : String}
    (hget : dget kvs "subtasks" = some sv) (htr : pyTruthy sv = true)
    (herr : serialize_subtasks_val sv = .error e) :
    serialize_task (pdict kvs) = .error e := by
  simp only [serialize_task]
  split
  · rename_i sv' hg'
    rw [hget] at hg'
    injection hg' with hsv
    subst hsv
    rw [if_pos htr, herr]
  · rename_i hg'
    rw [hget] at hg'
    exact Option.noConfusion hg'

/-- Unfolding of `serialize_task` on a dict with a falsy `subtasks` value. -/
theorem serialize_task_dict_some_false {kvs : List (String × PyVal)} {sv : PyVal}
    (hget : dget kvs "subtasks" = some sv) (htr : ¬ pyTruthy sv = true) :
    serialize_task (pdict kvs) = .ok (pdict (dictBaseFields kvs)) := by
  simp only [serialize_task]
  split
  · rename_i sv' hg'
    rw [hget] at hg'
    injection hg' with hsv
    subst hsv
    rw [if_neg htr]
  · rfl

/-- Unfolding of `serialize_task` on a dict without `subtasks`. -/
theorem serialize_task_dict_none {kvs : List (String × PyVal)}
    (hget : dget kvs "subtasks" = none) :
    serialize_task (pdict kvs) = .ok (pdict (dictBaseFields kvs)) := by
  simp only [serialize_task]
  split
  · rename_i sv' hg'
    rw [hget] at hg'
    exact Option.noConfusion hg'
  · rfl

/-- A base-plus-subtasks node is well formed. -/
theorem wfNode_base_subtasks (base : List (String × PyVal)) (sts : List PyVal)
    (hbase : wfEntries base = true) (hsts : wfNodeList sts = true) :
    wfNode (pdict (base ++ [("subtasks", plist sts)])) = true := by
  simp [wfNode, wfEntries_append, hbase, wfEntries, wfEntry_subtasks sts hsts]

/-- A list of empty nodes (serialized 1-character strings or dict keys) is
well formed. -/
theorem wfNodeList_empty_nodes {α : Type} (xs : List α) :
    wfNodeList (xs.map (fun _ => pdict [])) = true := by
  induction xs with
  | nil => rfl
  | cons x rest ih =>
    simp only [List.map_cons, wfNodeList, ih]
    rfl

/-- Every value the task serializer returns is a well-formed node (joint
statement over the four mutually recursive serializer functions). -/
theorem serialize_task_wf_main : ∀ task : PyVal,
    ∀ v, serialize_task task = .ok v → wfNode v = true := by
  refine serialize_task.induct
    (fun sv => ∀ l, serialize_subtasks_val sv = .ok l → wfNodeList l = true)
    (fun ts => ∀ l, serialize_task_list ts = .ok l → wfNodeList l = true)
    (fun t => ∀ v, serialize_task t = .ok v → wfNode v = true)
    (fun t => ∀ v, serialize_task_obj t = .ok v → wfNode v = true)
    ?_ ?_ ?_ ?_ ?_ ?_ ?_ ?_ ?_ ?_ ?_ ?_ ?_ ?_ ?_ ?_ ?_ ?_ ?_ ?_ ?_ ?_ ?_ ?_
  · intro xs ih l h
    simp only [serialize_subtasks_val] at h
    exact ih l h
  · intro s l h
    simp only [serialize_subtasks_val] at h
    cases h
    exact wfNodeList_empty_nodes _
  · intro kvs l h
    simp only [serialize_subtasks_val] at h
    cases h
    exact wfNodeList_empty_nodes _
  · intro sv h1 h2 h3 l h
    cases sv with
    | plist xs => exact absurd rfl (h1 xs)
    | pstr s => exact absurd rfl (h2 s)
    | pdict kvs => exact absurd rfl (h3 kvs)
    | pnone => simp [serialize_subtasks_val] at h
    | pbool b => simp [serialize_subtasks_val] at h
    | pint n => simp [serialize_subtasks_val] at h
    | pfloat q => simp [serialize_subtasks_val] at h
    | pobj attrs => simp [serialize_subtasks_val] at h
  · intro l h
    simp only [serialize_task_list] at h
    cases h
    rfl
  · intro t ts v hok sts hsts iht ihts l h
    simp only [serialize_task_list, hok, hsts] at h
    cases h
    simp [wfNodeList, iht v hok, ihts sts hsts]
  · intro t ts v hok e herr iht ihts l h
    simp only [serialize_task_list, hok, herr] at h
    exact Except.noConfusion h
  · intro t ts e herr iht l h
    simp only [serialize_task_list, herr] at h
    exact Except.noConfusion h
  · intro kvs sv hget htr sts hok ih v h
    rw [serialize_task_dict_some_true_ok hget htr hok] at h
    injection h with hv
    subst hv
    exact wfNode_base_subtasks _ _ (wf_dictBaseFields kvs) (ih sts hok)
  · intro kvs sv hget htr e herr ih v h
    rw [serialize_task_dict_some_true_err hget htr herr] at h
    exact Except.noConfusion h
  · intro kvs sv hget htr v h
    rw [serialize_task_dict_some_false hget htr] at h
    injection h with hv
    subst hv
    simp [wfNode, wf_dictBaseFields kvs]
  · intro kvs hget v h
    rw [serialize_task_dict_none hget] at h
    injection h with hv
    subst hv
    simp [wfNode, wf_dictBaseFields kvs]
  · intro ih v h
    simp only [serialize_task] at h
    exact ih v h
  · intro b ih v h
    simp only [serialize_task] at h
    exact ih v h
  · intro n ih v h
    simp only [serialize_task] at h
    exact ih v h
  · intro q ih v h
    simp only [serialize_task] at h
    exact ih v h
  · intro s ih v h
    simp only [serialize_task] at h
    exact ih v h
  · intro xs ih v h
    simp only [serialize_task] at h
    exact ih v h
  · intro attrs ih v h
    simp only [serialize_task] at h
    exact ih v h
  · intro t hc sts hok ih v h
    simp only [serialize_task_obj] at h
    rw [dif_pos hc] at h
    simp only [hok] at h
    cases h
    exact wfNode_base_subtasks _ _ (wf_objBaseFields t) (ih sts hok)
  · intro t hc e herr ih v h
    simp only [serialize_task_obj] at h
    rw [dif_pos hc] at h
    simp only [herr] at h
    exact Except.noConfusion h
  · intro t hc1 hc2 sts hok ih v h
    simp only [serialize_task_obj] at h
    rw [dif_neg hc1, dif_pos hc2] at h
    simp only [hok] at h
    cases h
    exact wfNode_base_subtasks _ _ (wf_objBaseFields t) (ih sts hok)
  · intro t hc1 hc2 e herr ih v h
    simp only [serialize_task_obj] at h
    rw [dif_neg hc1, dif_pos hc2] at h
    simp only [herr] at h
    exact Except.noConfusion h
  · intro t hc1 hc2 v h
    simp only [serialize_task_obj] at h
    rw [dif_neg hc1, dif_neg hc2] at h
    cases h
    simp [wfNode, wf_objBaseFields t]

/-- Every ok-result of the task-list serializer is a well-formed node list. -/
theorem serialize_task_list_wf : ∀ ts l, serialize_task_list ts = .ok l → wfNodeList l = true := by
  intro ts
  induction ts with
  | nil =>
    intro l h
    simp only [serialize_task_list] at h
    cases h
    rfl
  | cons t rest ih =>
    intro l h
    simp only [serialize_task_list] at h
    cases hok : serialize_task t with
    | error e =>
      rw [hok] at h
      exact Except.noConfusion h
    | ok v =>
      rw [hok] at h
      cases hts : serialize_task_list rest with
      | error e =>
        rw [hts] at h
        exact Except.noConfusion h
      | ok vs =>
        rw [hts] at h
        cases h
        simp [wfNodeList, serialize_task_wf_main t v hok, ih vs hts]

/-- A single-`content` node is well formed. -/
theorem wfNode_content (s : String) : wfNode (pdict [("content", pstr s)]) = true := rfl

/-- Every ok-result of the reasoning serializer is a well-formed node list. -/
theorem serialize_reasoning_wf (r : PyVal) (l : List PyVal)
    (h : serialize_reasoning r = .ok l) : wfNodeList l = true := by
  by_cases htr : pyTruthy r = true
  · unfold serialize_reasoning at h
    rw [if_neg (not_not_intro htr)] at h
    cases r with
    | plist xs => exact serialize_task_list_wf xs l h
    | pdict kvs =>
      have h2 : (match serialize_task (pdict kvs) with
          | Except.ok v => Except.ok [v]
          | Except.error e => Except.error e) = Except.ok l := h
      cases hok : serialize_task (pdict kvs) with
      | error e =>
        rw [hok] at h2
        exact Except.noConfusion h2
      | ok v =>
        rw [hok] at h2
        cases h2
        simp [wfNodeList, serialize_task_wf_main _ v hok]
    | pobj attrs =>
      have h2 : (match serialize_task (pobj attrs) with
          | Except.ok v => Except.ok [v]
          | Except.error e => Except.error e) = Except.ok l := h
      cases hok : serialize_task (pobj attrs) with
      | error e =>
        rw [hok] at h2
        exact Except.noConfusion h2
      | ok v =>
        rw [hok] at h2
        cases h2
        simp [wfNodeList, serialize_task_wf_main _ v hok]
    | pnone => simp [pyTruthy] at htr
    | pbool b =>
      cases h
      simp [wfNodeList, wfNode_content]
    | pint n =>
      cases h
      simp [wfNodeList, wfNode_content]
    | pfloat q =>
      cases h
      simp [wfNodeList, wfNode_content]
    | pstr s =>
      cases h
      simp [wfNodeList, wfNode_content]
  · unfold serialize_reasoning at h
    rw [if_pos htr] at h
    cases h
    rfl

/-- C10: every node of the list returned by `_serialize_reasoning` — and
recursively every node of its `subtasks` — holds only the keys `title`,
`thought`, `conclusion`, `content`, `tooluse` and `subtasks`, with string
values under the four scalar keys and a list of such nodes under
`subtasks`. -/
theorem serialize_reasoning_nodes_wf (r : PyVal) (l : List PyVal)
    (h : serialize_reasoning r = .ok l) : wfNodeList l = true :=
  serialize_reasoning_wf r l h

/-- In a well-formed node the `title` value is a string. -/
theorem wfEntry_title_str {v : PyVal} (h : wfEntry "title" v = true) :
    ∃ s, v = pstr s := by
  cases v with
  | pstr s => exact ⟨s, rfl⟩
  | pnone => simp [wfEntry] at h
  | pbool b => simp [wfEntry] at h
  | pint n => simp [wfEntry] at h
  | pfloat q => simp [wfEntry] at h
  | plist xs => simp [wfEntry] at h
  | pdict kvs => simp [wfEntry] at h
  | pobj attrs => simp [wfEntry] at h

/-- In a well-formed node the `conclusion` value is a string. -/
theorem wfEntry_conclusion_str {v : PyVal} (h : wfEntry "conclusion" v = true) :
    ∃ s, v = pstr s := by
  cases v with
  | pstr s => exact ⟨s, rfl⟩
  | pnone => simp [wfEntry] at h
  | pbool b => simp [wfEntry] at h
  | pint n => simp [wfEntry] at h
  | pfloat q => simp [wfEntry] at h
  | plist xs => simp [wfEntry] at h
  | pdict kvs => simp [wfEntry] at h
  | pobj attrs => simp [wfEntry] at h

/-- In a well-formed node the `subtasks` value is a well-formed node list. -/
theorem wfEntry_subtasks_plist {v : PyVal} (h : wfEntry "subtasks" v = true) :
    ∃ xs, v = plist xs ∧ wfNodeList xs = true := by
  cases v with
  | plist xs =>
    refine ⟨xs, rfl, ?_⟩
    simpa [wfEntry] using h
  | pstr s => simp [wfEntry, isScalarKey] at h
  | pnone => simp [wfEntry] at h
  | pbool b => simp [wfEntry] at h
  | pint n => simp [wfEntry] at h
  | pfloat q => simp [wfEntry] at h
  | pdict kvs => simp [wfEntry] at h
  | pobj attrs => simp [wfEntry] at h

/-- A lookup in a well-formed entry list returns a well-formed entry. -/
theorem dget_wfEntries : ∀ (kvs : List (String × PyVal)) (k : String) (v : PyVal),
    wfEntries kvs = true → dget kvs k = some v → wfEntry k v = true := by
  intro kvs
  induction kvs with
  | nil =>
    intro k v _ h
    simp [dget] at h
  | cons kv rest ih =>
    intro k v hw h
    obtain ⟨k1, v1⟩ := kv
    simp only [wfEntries, Bool.and_eq_true] at hw
    simp only [dget, List.find?] at h
    by_cases hk : k1 = k
    · subst hk
      simp at h
      subst h
      exact hw.1
    · simp [hk] at h
      exact ih k v hw.2 (by simpa [dget] using h)

/-- In a well-formed node, `title` and `conclusion` default to strings. -/
theorem wf_dget_scalar {kvs : List (String × PyVal)} (hw : wfEntries kvs = true)
    (k : String) (hk : k = "title" ∨ k = "conclusion") :
    ∃ s, (dget kvs k).getD (pstr "") = pstr s := by
  cases hv : dget kvs k with
  | none => exact ⟨"", rfl⟩
  | some v =>
    have hwe := dget_wfEntries kvs k v hw hv
    rcases hk with h | h
    · subst h
      obtain ⟨s, hs⟩ := wfEntry_title_str hwe
      exact ⟨s, by simp [hs]⟩
    · subst h
      obtain ⟨s, hs⟩ := wfEntry_conclusion_str hwe
      exact ⟨s, by simp [hs]⟩

/-- The conclusion kept by one node of the collector walk. -/
def collectHere (c : String) : List String :=
  if pyTruthy (pstr c) then (if (pyStrip c).length > 20 then [c] else []) else []

/-- A collected conclusion strips to more than 20 characters. -/
theorem mem_collectHere {x c : String} (hx : x ∈ collectHere c) :
    (pyStrip x).length > 20 := by
  unfold collectHere at hx
  by_cases h1 : pyTruthy (pstr c) = true
  · rw [if_pos h1] at hx
    by_cases h2 : (pyStrip c).length > 20
    · rw [if_pos h2] at hx
      rw [List.mem_singleton.mp hx]
      exact h2
    · rw [if_neg h2] at hx
      cases hx
  · rw [if_neg h1] at hx
    cases hx

/-- Unfolding of the collector on a dict node without `subtasks`. -/
theorem collect_cons_none {kvs : List (String × PyVal)} {rest : List PyVal}
    {c : String} {csr : List String}
    (hc : (dget kvs "conclusion").getD (pstr "") = pstr c)
    (hsub : dget kvs "subtasks" = none)
    (hcsr : collect_all_conclusions rest = .ok csr) :
    collect_all_conclusions (pdict kvs :: rest) = .ok (collectHere c ++ csr) := by
  have hch : (if pyTruthy (pstr c) = true then
      (if (pyStrip c).length > 20 then (Except.ok [c] : Except String (List String))
        else .ok []) else .ok []) = .ok (collectHere c) := by
    unfold collectHere
    by_cases h1 : pyTruthy (pstr c) = true
    · by_cases h2 : (pyStrip c).length > 20 <;> simp [h1, h2]
    · simp [h1]
  simp only [collect_all_conclusions]
  rw [hc]
  split
  · rename_i e heq
    have heq2 : (if pyTruthy (pstr c) = true then
        (if (pyStrip c).length > 20 then (Except.ok [c] : Except String (List String))
          else .ok []) else .ok []) = .error e := heq
    rw [hch] at heq2
    exact Except.noConfusion heq2
  · rename_i hs heq
    have heq2 : (if pyTruthy (pstr c) = true then
        (if (pyStrip c).length > 20 then (Except.ok [c] : Except String (List String))
          else .ok []) else .ok []) = .ok hs := heq
    rw [hch] at heq2
    injection heq2 with heq3
    subst heq3
    split
    · rename_i e heq4
      split at heq4
      all_goals
        first
        | exact Except.noConfusion heq4
        | (rename_i hg
           rw [hsub] at hg
           exact Option.noConfusion hg)
    · rename_i ss heq4
      split at heq4
      all_goals
        first
        | (rename_i hg
           rw [hsub] at hg
           exact Option.noConfusion hg)
        | (injection heq4 with h5
           subst h5
           rw [hcsr]
           simp)

/-- Unfolding of the collector on a dict node whose `subtasks` is a list. -/
theorem collect_cons_plist {kvs : List (String × PyVal)} {rest : List PyVal}
    {c : String} {xs : List PyVal} {css csr : List String}
    (hc : (dget kvs "conclusion").getD (pstr "") = pstr c)
    (hsub : dget kvs "subtasks" = some (plist xs))
    (hxs : (if pyTruthy (plist xs) = true then collect_all_conclusions xs
            else .ok []) = .ok css)
    (hcsr : collect_all_conclusions rest = .ok csr) :
    collect_all_conclusions (pdict kvs :: rest) =
      .ok (collectHere c ++ css ++ csr) := by
  have hch : (if pyTruthy (pstr c) = true then
      (if (pyStrip c).length > 20 then (Except.ok [c] : Except String (List String))
        else .ok []) else .ok []) = .ok (collectHere c) := by
    unfold collectHere
    by_cases h1 : pyTruthy (pstr c) = true
    · by_cases h2 : (pyStrip c).length > 20 <;> simp [h1, h2]
    · simp [h1]
  simp only [collect_all_conclusions]
  rw [hc]
  split
  · rename_i e heq
    have heq2 : (if pyTruthy (pstr c) = true then
        (if (pyStrip c).length > 20 then (Except.ok [c] : Except String (List String))
          else .ok []) else .ok []) = .error e := heq
    rw [hch] at heq2
    exact Except.noConfusion heq2
  · rename_i hs heq
    have heq2 : (if pyTruthy (pstr c) = true then
        (if (pyStrip c).length > 20 then (Except.ok [c] : Except String (List String))
          else .ok []) else .ok []) = .ok hs := heq
    rw [hch] at heq2
    injection heq2 with heq3
    subst heq3
    split
    · rename_i e heq4
      split at heq4
      all_goals
        first
        | (rename_i hg
           rw [hsub] at hg
           exact Option.noConfusion hg)
        | (rename_i hg
           rw [hsub] at hg
           injection hg with hg2
           exact PyVal.noConfusion hg2)
        | (rename_i hg
           rw [hsub] at hg
           injection hg with hg2
           cases hg2
           rw [hxs] at heq4
           exact Except.noConfusion heq4)
        | (rename_i hg
           rw [hsub] at hg
           injection hg with hg2
           cases hg2
           exfalso
           solve_by_elim)
    · rename_i ss heq4
      split at heq4
      all_goals
        first
        | (rename_i hg
           rw [hsub] at hg
           exact Option.noConfusion hg)
        | (rename_i hg
           rw [hsub] at hg
           injection hg with hg2
           exact PyVal.noConfusion hg2)
        | (rename_i hg
           rw [hsub] at hg
           injection hg with hg2
           cases hg2
           rw [hxs] at heq4
           injection heq4 with h5
           subst h5
           rw [hcsr])
        | (rename_i hg
           rw [hsub] at hg
           injection hg with hg2
           cases hg2
           exfalso
           solve_by_elim)

/-- On a well-formed node the scorer cannot fail, and a returned best
conclusion is a non-empty string. -/
theorem score_task_wf {kvs : List (String × PyVal)} (hw : wfEntries kvs = true)
    (depth : Nat) :
    ∃ co n, score_task kvs depth = .ok (co, n) ∧
      ∀ v, co = some v → ∃ s, v = pstr s ∧ s ≠ "" := by
  obtain ⟨t, ht⟩ := wf_dget_scalar hw "title" (Or.inl rfl)
  obtain ⟨c, hc⟩ := wf_dget_scalar hw "conclusion" (Or.inr rfl)
  unfold score_task
  rw [ht, hc]
  by_cases htr : pyTruthy (pstr c) = true
  · simp only [htr, not_true, if_neg, pyLen, ite_false]
    refine ⟨_, _, rfl, ?_⟩
    intro v hv
    injection hv with hv
    refine ⟨c, hv.symm, ?_⟩
    simpa [pyTruthy] using htr
  · simp only [htr, if_pos, Bool.not_eq_true] at htr ⊢
    refine ⟨none, 0, ?_, by simp⟩
    simp [htr]

/-- Unfolding of the best-conclusion fold on a dict node without
`subtasks`. -/
theorem find_best_cons_none {kvs : List (String × PyVal)} {rest : List PyVal}
    {depth : Nat} {best best1 : Option PyVal × Nat} {co : Option PyVal} {sc : Nat}
    (hs : score_task kvs depth = .ok (co, sc))
    (hb1 : (if sc > best.2 then (co, sc) else best) = best1)
    (hsub : dget kvs "subtasks" = none) :
    find_best_in_tree (pdict kvs :: rest) depth best =
      find_best_in_tree rest depth best1 := by
  simp only [find_best_in_tree]
  split
  · rename_i e h5
    rw [hs] at h5
    exact Except.noConfusion h5
  · rename_i co2 sc2 h5
    rw [hs] at h5
    injection h5 with h6
    injection h6 with h7 h8
    subst h7
    subst h8
    rw [hb1]
    split
    · rename_i e heq
      split at heq
      all_goals
        first
        | exact Except.noConfusion heq
        | (rename_i hg
           rw [hsub] at hg
           exact Option.noConfusion hg)
    · rename_i b2 heq
      split at heq
      all_goals
        first
        | (rename_i hg
           rw [hsub] at hg
           exact Option.noConfusion hg)
        | (injection heq with h9
           subst h9
           rfl)

/-- Unfolding of the best-conclusion fold on a dict node with a truthy
list of `subtasks`. -/
theorem find_best_cons_plist_truthy {kvs : List (String × PyVal)}
    {rest : List PyVal} {depth : Nat} {best best1 sbc : Option PyVal × Nat}
    {co : Option PyVal} {sc : Nat} {xs : List PyVal}
    (hs : score_task kvs depth = .ok (co, sc))
    (hb1 : (if sc > best.2 then (co, sc) else best) = best1)
    (hsub : dget kvs "subtasks" = some (plist xs))
    (htr : pyTruthy (plist xs) = true)
    (hrec : find_best_in_tree xs (depth + 1) (none, 0) = .ok sbc) :
    find_best_in_tree (pdict kvs :: rest) depth best =
      find_best_in_tree rest depth (if sbc.2 > best1.2 then sbc else best1) := by
  simp only [find_best_in_tree]
  split
  · rename_i e h5
    rw [hs] at h5
    exact Except.noConfusion h5
  · rename_i co2 sc2 h5
    rw [hs] at h5
    injection h5 with h6
    injection h6 with h7 h8
    subst h7
    subst h8
    rw [hb1]
    split
    · rename_i e heq
      split at heq
      all_goals
        first
        | (rename_i hg
           rw [hsub] at hg
           exact Option.noConfusion hg)
        | (rename_i hg
           rw [hsub] at hg
           injection hg with hg2
           exact PyVal.noConfusion hg2)
        | (rename_i hg
           rw [hsub] at hg
           injection hg with hg2
           cases hg2
           rw [htr] at heq
           simp only [if_true, ite_true] at heq
           rw [hrec] at heq
           have heq2 : (Except.ok
               (if sbc.2 > best1.2 then sbc else best1) :
               Except String (Option PyVal × Nat)) = .error e := heq
           exact Except.noConfusion heq2)
        | (rename_i hg
           rw [hsub] at hg
           injection hg with hg2
           cases hg2
           exfalso
           solve_by_elim)
    · rename_i b2 heq
      split at heq
      all_goals
        first
        | (rename_i hg
           rw [hsub] at hg
           exact Option.noConfusion hg)
        | (rename_i hg
           rw [hsub] at hg
           injection hg with hg2
           exact PyVal.noConfusion hg2)
        | (rename_i hg
           rw [hsub] at hg
           injection hg with hg2
           cases hg2
           rw [htr] at heq
           simp only [if_true, ite_true] at heq
           rw [hrec] at heq
           have heq2 : (Except.ok
               (if sbc.2 > best1.2 then sbc else best1) :
               Except String (Option PyVal × Nat)) = .ok b2 := heq
           injection heq2 with h9
           subst h9
           rfl)
        | (rename_i hg
           rw [hsub] at hg
           injection hg with hg2
           cases hg2
           exfalso
           solve_by_elim)

/-- Unfolding of the best-conclusion fold on a dict node with a falsy
`subtasks` list. -/
theorem find_best_cons_plist_falsy {kvs : List (String × PyVal)}
    {rest : List PyVal} {depth : Nat} {best best1 : Option PyVal × Nat}
    {co : Option PyVal} {sc : Nat} {xs : List PyVal}
    (hs : score_task kvs depth = .ok (co, sc))
    (hb1 : (if sc > best.2 then (co, sc) else best) = best1)
    (hsub : dget kvs "subtasks" = some (plist xs))
    (htr : pyTruthy (plist xs) = false) :
    find_best_in_tree (pdict kvs :: rest) depth best =
      find_best_in_tree rest depth best1 := by
  simp only [find_best_in_tree]
  split
  · rename_i e h5
    rw [hs] at h5
    exact Except.noConfusion h5
  · rename_i co2 sc2 h5
    rw [hs] at h5
    injection h5 with h6
    injection h6 with h7 h8
    subst h7
    subst h8
    rw [hb1]
    split
    · rename_i e heq
      split at heq
      all_goals
        first
        | (rename_i hg
           rw [hsub] at hg
           exact Option.noConfusion hg)
        | (rename_i hg
           rw [hsub] at hg
           injection hg with hg2
           exact PyVal.noConfusion hg2)
        | (rename_i hg
           rw [hsub] at hg
           injection hg with hg2
           cases hg2
           rw [htr] at heq
           simp only [Bool.false_eq_true, if_false, ite_false] at heq
           exact Except.noConfusion heq)
        | (rename_i hg
           rw [hsub] at hg
           injection hg with hg2
           cases hg2
           exfalso
           solve_by_elim)
    · rename_i b2 heq
      split at heq
      all_goals
        first
        | (rename_i hg
           rw [hsub] at hg
           exact Option.noConfusion hg)
        | (rename_i hg
           rw [hsub] at hg
           injection hg with hg2
           exact PyVal.noConfusion hg2)
        | (rename_i hg
           rw [hsub] at hg
           injection hg with hg2
           cases hg2
           rw [htr] at heq
           simp only [Bool.false_eq_true, if_false, ite_false] at heq
           injection heq with h9
           subst h9
           rfl)
        | (rename_i hg
           rw [hsub] at hg
           injection hg with hg2
           cases hg2
           exfalso
           solve_by_elim)

/-- On a well-formed tree the conclusion collector cannot fail, and every
collected conclusion strips to more than 20 characters. -/
theorem collect_wf : ∀ (n : Nat) (tasks : List PyVal), sizeOf tasks ≤ n →
    wfNodeList tasks = true →
    ∃ cs, collect_all_conclusions tasks = .ok cs ∧
      ∀ c ∈ cs, (pyStrip c).length > 20 := by
  intro n
  induction n with
  | zero =>
    intro tasks hle _
    cases tasks with
    | nil => simp at hle
    | cons t ts => simp at hle
  | succ n ih =>
    intro tasks hle hw
    cases tasks with
    | nil => exact ⟨[], by simp [collect_all_conclusions], by simp⟩
    | cons task rest =>
      simp only [wfNodeList, Bool.and_eq_true] at hw
      have hszr : sizeOf rest ≤ n := by
        simp only [List.cons.sizeOf_spec] at hle
        omega
      obtain ⟨csr, hcsr, hpr⟩ := ih rest hszr hw.2
      cases task with
      | pdict kvs =>
        have hwk : wfEntries kvs = true := hw.1
        obtain ⟨c, hc⟩ := wf_dget_scalar hwk "conclusion" (Or.inr rfl)
        cases hsub : dget kvs "subtasks" with
        | none =>
          refine ⟨collectHere c ++ csr, collect_cons_none hc hsub hcsr, ?_⟩
          intro x hx
          rcases List.mem_append.mp hx with hx | hx
          · exact mem_collectHere hx
          · exact hpr x hx
        | some sv =>
          obtain ⟨xs, hsv, hwxs⟩ :=
            wfEntry_subtasks_plist (dget_wfEntries kvs "subtasks" sv hwk hsub)
          subst hsv
          have hszxs : sizeOf xs ≤ n := by
            have hlt := sizeOf_dget hsub
            simp only [List.cons.sizeOf_spec, PyVal.pdict.sizeOf_spec] at hle
            simp only [PyVal.plist.sizeOf_spec] at hlt
            omega
          obtain ⟨css, hcss, hps⟩ := ih xs hszxs hwxs
          by_cases htr : pyTruthy (plist xs) = true
          · refine ⟨collectHere c ++ css ++ csr,
              collect_cons_plist hc hsub (by rw [if_pos htr, hcss]) hcsr, ?_⟩
            intro x hx
            rcases List.mem_append.mp hx with hx | hx
            · rcases List.mem_append.mp hx with hx | hx
              · exact mem_collectHere hx
              · exact hps x hx
            · exact hpr x hx
          · refine ⟨collectHere c ++ [] ++ csr,
              collect_cons_plist hc hsub (by rw [if_neg htr]) hcsr, ?_⟩
            intro x hx
            rcases List.mem_append.mp hx with hx | hx
            · rcases List.mem_append.mp hx with hx | hx
              · exact mem_collectHere hx
              · cases hx
            · exact hpr x hx
      | pnone => simp [wfNode] at hw
      | pbool b => simp [wfNode] at hw
      | pint m => simp [wfNode] at hw
      | pfloat q => simp [wfNode] at hw
      | pstr s => simp [wfNode] at hw
      | plist xs => simp [wfNode] at hw
      | pobj attrs => simp [wfNode] at hw

/-- The kept best pair holds a non-empty string conclusion (or nothing). -/
def bestStr (b : Option PyVal × Nat) : Prop :=
  ∀ v, b.1 = some v → ∃ s, v = pstr s ∧ s ≠ ""

/-- On a well-formed tree the best-conclusion fold cannot fail and
preserves `bestStr`. -/
theorem find_best_wf : ∀ (n : Nat) (tasks : List PyVal) (depth : Nat)
    (best : Option PyVal × Nat), sizeOf tasks ≤ n → wfNodeList tasks = true →
    bestStr best →
    ∃ res, find_best_in_tree tasks depth best = .ok res ∧ bestStr res := by
  intro n
  induction n with
  | zero =>
    intro tasks _ _ hle _ _
    cases tasks with
    | nil => simp at hle
    | cons t ts => simp at hle
  | succ n ih =>
    intro tasks depth best hle hw hb
    cases tasks with
    | nil => exact ⟨best, by simp [find_best_in_tree], hb⟩
    | cons task rest =>
      simp only [wfNodeList, Bool.and_eq_true] at hw
      have hszr : sizeOf rest ≤ n := by
        simp only [List.cons.sizeOf_spec] at hle
        omega
      cases task with
      | pdict kvs =>
        have hwk : wfEntries kvs = true := hw.1
        obtain ⟨co, sc, hs, hcop⟩ := score_task_wf hwk depth
        have hb1 : bestStr (if sc > best.2 then (co, sc) else best) := by
          by_cases h : sc > best.2
          · rw [if_pos h]
            intro v hv
            exact hcop v hv
          · rw [if_neg h]
            exact hb
        cases hsub : dget kvs "subtasks" with
        | none =>
          obtain ⟨res, hres, hbr⟩ := ih rest depth _ hszr hw.2 hb1
          exact ⟨res, by rw [find_best_cons_none hs rfl hsub]; exact hres, hbr⟩
        | some sv =>
          obtain ⟨xs, hsv, hwxs⟩ :=
            wfEntry_subtasks_plist (dget_wfEntries kvs "subtasks" sv hwk hsub)
          subst hsv
          by_cases htr : pyTruthy (plist xs) = true
          · have hszxs : sizeOf xs ≤ n := by
              have hlt := sizeOf_dget hsub
              simp only [List.cons.sizeOf_spec, PyVal.pdict.sizeOf_spec] at hle
              simp only [PyVal.plist.sizeOf_spec] at hlt
              omega
            obtain ⟨sbc, hsbc, hbsbc⟩ := ih xs (depth + 1) (none, 0) hszxs hwxs
              (by intro v hv; cases hv)
            have hb2 : bestStr (if sbc.2 > (if sc > best.2 then (co, sc) else best).2
                then sbc else (if sc > best.2 then (co, sc) else best)) := by
              by_cases h : sbc.2 > (if sc > best.2 then (co, sc) else best).2
              · rw [if_pos h]
                exact hbsbc
              · rw [if_neg h]
                exact hb1
            obtain ⟨res, hres, hbr⟩ := ih rest depth _ hszr hw.2 hb2
            exact ⟨res,
              by rw [find_best_cons_plist_truthy hs rfl hsub htr hsbc]; exact hres,
              hbr⟩
          · have htr2 : pyTruthy (plist xs) = false := by
              cases h : pyTruthy (plist xs)
              · rfl
              · exact absurd h htr
            obtain ⟨res, hres, hbr⟩ := ih rest depth _ hszr hw.2 hb1
            exact ⟨res,
              by rw [find_best_cons_plist_falsy hs rfl hsub htr2]; exact hres,
              hbr⟩
      | pnone => simp [wfNode] at hw
      | pbool b => simp [wfNode] at hw
      | pint m => simp [wfNode] at hw
      | pfloat q => simp [wfNode] at hw
      | pstr s => simp [wfNode] at hw
      | plist xs => simp [wfNode] at hw
      | pobj attrs => simp [wfNode] at hw

/-- A string whose strip exceeds 20 characters is non-empty. -/
theorem pyStrip_ne_of_gt {c : String} (h : (pyStrip c).length > 20) : c ≠ "" := by
  intro hc
  subst hc
  exact absurd h (by decide)

/-- A blank-line join headed by a non-empty string is non-empty. -/
theorem joinBlank_ne_empty {c : String} {rest : List String} (hc : c ≠ "") :
    joinBlank (c :: rest) ≠ "" := by
  cases rest with
  | nil => simpa [joinBlank] using hc
  | cons t r =>
    simp only [joinBlank]
    intro h
    have hlen := congrArg String.length h
    simp only [String.length_append] at hlen
    rw [show ("\n\n" : String).length = 2 from rfl] at hlen
    rw [show ("" : String).length = 0 from rfl] at hlen
    omega

/-- The head of the length-descending sort of a non-empty list is one of
its elements. -/
theorem sort_headD_mem {xs : List String} (h : xs ≠ []) :
    (pySortByLenDesc xs).headD "" ∈ xs := by
  unfold pySortByLenDesc
  cases hm : xs.mergeSort (fun a b => decide (b.length ≤ a.length)) with
  | nil =>
    exfalso
    have hp := List.mergeSort_perm xs (fun a b => decide (b.length ≤ a.length))
    rw [hm] at hp
    have hl := hp.length_eq
    cases xs with
    | nil => exact h rfl
    | cons a t => simp at hl
  | cons a t =>
    have ha : a ∈ xs.mergeSort (fun a b => decide (b.length ≤ a.length)) := by
      rw [hm]
      exact List.mem_cons_self a t
    have hmem := (List.mergeSort_perm xs
      (fun a b => decide (b.length ≤ a.length))).mem_iff.mp ha
    simpa using hmem

/-- The substantial-or-joined tail of the synthesizer yields a non-empty
string. -/
theorem synth_tail_ok {cs : List String} (hne : cs ≠ [])
    (hpc : ∀ c ∈ cs, (pyStrip c).length > 20) :
    ∃ s, (if ¬ (cs.filter (fun c => c.length > 100)).isEmpty = true then
            (Except.ok
              (pstr ((pySortByLenDesc (cs.filter (fun c => c.length > 100))).headD "")) :
              Except String PyVal)
          else Except.ok (pstr (joinBlank (cs.take 5)))) = .ok (pstr s) ∧ s ≠ "" := by
  by_cases hf : (cs.filter (fun c => c.length > 100)).isEmpty = true
  · rw [if_neg (not_not_intro hf)]
    cases cs with
    | nil => exact absurd rfl hne
    | cons c cr =>
      refine ⟨joinBlank ((c :: cr).take 5), rfl, ?_⟩
      have hc := pyStrip_ne_of_gt (hpc c (List.mem_cons_self c cr))
      rw [List.take_succ_cons]
      exact joinBlank_ne_empty hc
  · rw [if_pos hf]
    have hfne : cs.filter (fun c => c.length > 100) ≠ [] := by
      intro h0
      exact hf (by simp [h0])
    have hmem := sort_headD_mem hfne
    have hlen : ((pySortByLenDesc
        (cs.filter (fun c => c.length > 100))).headD "").length > 100 := by
      have hmf := List.mem_filter.mp hmem
      simpa using hmf.2
    refine ⟨_, rfl, ?_⟩
    intro h0
    rw [h0] at hlen
    simp at hlen

/-- On a well-formed node list the synthesizer returns a non-empty
string. -/
theorem synthesize_wf {l : List PyVal} (hw : wfNodeList l = true) :
    ∃ s, synthesize_answer_from_reasoning l = .ok (pstr s) ∧ s ≠ "" := by
  obtain ⟨cs, hcs, hpc⟩ := collect_wf (sizeOf l) l le_rfl hw
  by_cases hemp0 : cs.isEmpty = true
  · unfold synthesize_answer_from_reasoning
    rw [hcs]
    simp only [hemp0, if_true, ite_true]
    exact ⟨"No analysis results available.", rfl, by decide⟩
  · have hemp : cs.isEmpty = false := by
      cases h0 : cs.isEmpty
      · rfl
      · exact absurd h0 hemp0
    have hne : cs ≠ [] := by
      intro h0
      subst h0
      exact hemp0 rfl
    obtain ⟨⟨bo, bn⟩, hfb, hbs⟩ := find_best_wf (sizeOf l) l 0 (none, 0) le_rfl hw
      (fun v hv => Option.noConfusion hv)
    unfold synthesize_answer_from_reasoning
    rw [hcs]
    simp only [hemp, hfb, Bool.false_eq_true, if_false, ite_false, not_false_iff,
      if_true, ite_true]
    cases bo with
    | none => exact synth_tail_ok hne hpc
    | some bc =>
      obtain ⟨s0, rfl, hs0⟩ := hbs bc rfl
      have htr : pyTruthy (pstr s0) = true := by simp [pyTruthy, hs0]
      by_cases hlen : s0.length > 200
      · simp only [htr, if_true, ite_true, pyLen, hlen]
        exact ⟨s0, rfl, hs0⟩
      · simp only [htr, if_true, ite_true, pyLen, hlen, if_false, ite_false]
        exact synth_tail_ok hne hpc

/-- The JSON phase maps a string input to `None` or a string. -/
theorem answerAfterJson_str_shape (s : String) :
    answerAfterJson (pstr s) = pnone ∨ ∃ v, answerAfterJson (pstr s) = pstr v := by
  have hred : answerAfterJson (pstr s) =
      (if pyStartsWith (pyStrip s) lbraceS = true then
         match jsonParse s with
         | some (pdict parsed) =>
           (match firstAnswerField parsed with
            | some v => pstr v
            | none => pnone)
         | some _ => pstr s
         | none =>
           if s.length > 500 then
             match salvage_truncated_json s with
             | some sal => pstr sal
             | none => pstr s
           else pstr s
       else pstr s) := rfl
  rw [hred]
  by_cases h1 : pyStartsWith (pyStrip s) lbraceS = true
  · rw [if_pos h1]
    cases hj : jsonParse s with
    | none =>
      by_cases h2 : s.length > 500
      · rw [if_pos h2]
        cases hs : salvage_truncated_json s with
        | none => exact Or.inr ⟨s, rfl⟩
        | some sal => exact Or.inr ⟨sal, rfl⟩
      · rw [if_neg h2]
        exact Or.inr ⟨s, rfl⟩
    | some v =>
      cases v with
      | pdict parsed =>
        show (match firstAnswerField parsed with
              | some v => pstr v
              | none => pnone) = pnone ∨
          ∃ v, (match firstAnswerField parsed with
                | some v => pstr v
                | none => pnone) = pstr v
        cases hff : firstAnswerField parsed with
        | some v2 => exact Or.inr ⟨v2, rfl⟩
        | none => exact Or.inl rfl
      | pnone => exact Or.inr ⟨s, rfl⟩
      | pbool b => exact Or.inr ⟨s, rfl⟩
      | pint n => exact Or.inr ⟨s, rfl⟩
      | pfloat q => exact Or.inr ⟨s, rfl⟩
      | pstr s2 => exact Or.inr ⟨s, rfl⟩
      | plist xs => exact Or.inr ⟨s, rfl⟩
      | pobj attrs => exact Or.inr ⟨s, rfl⟩
  · rw [if_neg h1]
    exact Or.inr ⟨s, rfl⟩

/-- The answer stage of the reconstructor: whenever serialization of the
effective reasoning succeeds and the JSON phase left `None`, a string or an
SDK object, the result is a non-empty answer string with the serialized
reasoning. -/
theorem extract_answer_core (a r : PyVal) (processed : List PyVal)
    (h : serialize_reasoning (effectiveReasoning a r) = .ok processed)
    (ha1 : answerAfterJson a = pnone ∨ (∃ s, answerAfterJson a = pstr s) ∨
      (∃ attrs, answerAfterJson a = pobj attrs)) :
    ∃ s, extract_answer a r = .ok (s, processed) ∧ s ≠ "" := by
  have hwp : wfNodeList processed = true := serialize_reasoning_wf _ _ h
  rcases ha1 with ha1 | ⟨s, ha1⟩ | ⟨attrs, ha1⟩
  · unfold extract_answer
    simp only []
    rw [h, ha1]
    simp only [isNone, Bool.true_or, Bool.false_or, Bool.false_eq_true, if_false,
      ite_false, not_false_iff, true_and, if_true, ite_true]
    by_cases hpe : processed.isEmpty = true
    · simp only [hpe, not_true, if_false, ite_false]
      exact ⟨"Research completed but no results available.", rfl, by decide⟩
    · obtain ⟨sy, hsy, hsyne⟩ := synthesize_wf hwp
      simp only [hpe, not_false_iff, if_true, ite_true]
      rw [hsy]
      exact ⟨sy, rfl, hsyne⟩
  · unfold extract_answer
    simp only []
    rw [h, ha1]
    simp only [isNone, Bool.false_or]
    by_cases hstrip : pyStrip s = ""
    · have hsw : pyStartsWith (pyStrip s) lbraceS = false := by rw [hstrip]; rfl
      simp only [hstrip, hsw, decide_True, Bool.false_and, Bool.false_eq_true,
        if_false, ite_false, not_false_iff, true_and, if_true, ite_true]
      by_cases hpe : processed.isEmpty = true
      · simp only [hpe, not_true, if_false, ite_false]
        exact ⟨"Research completed but no results available.", rfl, by decide⟩
      · obtain ⟨sy, hsy, hsyne⟩ := synthesize_wf hwp
        simp only [hpe, not_false_iff, if_true, ite_true]
        rw [hsy]
        exact ⟨sy, rfl, hsyne⟩
    · have hsne : s ≠ "" := fun h0 => hstrip (by rw [h0]; rfl)
      simp only [hstrip, decide_False, Bool.false_eq_true, false_and, if_false,
        ite_false]
      by_cases hblob : (pyStartsWith (pyStrip s) lbraceS &&
          decide (s.length > 1000)) = true
      · simp only [hblob, if_true, ite_true]
        by_cases hpe : processed.isEmpty = true
        · simp only [hpe, not_true, if_false, ite_false]
          exact ⟨s, rfl, hsne⟩
        · obtain ⟨sy, hsy, hsyne⟩ := synthesize_wf hwp
          simp only [hpe, not_false_iff, if_true, ite_true]
          rw [hsy]
          simp only [pyLen]
          by_cases hlen : sy.length > 100
          · simp only [hlen, if_true, ite_true]
            exact ⟨sy, rfl, hsyne⟩
          · simp only [hlen, if_false, ite_false]
            exact ⟨s, rfl, hsne⟩
      · simp only [hblob, if_false, ite_false]
        exact ⟨s, rfl, hsne⟩
  · unfold extract_answer
    simp only []
    rw [h, ha1]
    simp only [isNone, Bool.false_or, Bool.false_eq_true, if_false, ite_false,
      false_and]
    exact ⟨"<object>", rfl, by decide⟩

/-- A string is the `conclusion` field of some node of the tree, reachable
through `subtasks` lists (the walkของ the collector and scorer). -/
inductive ConclIn : List PyVal → String → Prop where
  | here {kvs : List (String × PyVal)} {rest : List PyVal} {c : String} :
      dget kvs "conclusion" = some (pstr c) → ConclIn (pdict kvs :: rest) c
  | sub {kvs : List (String × PyVal)} {rest xs : List PyVal} {c : String} :
      dget kvs "subtasks" = some (plist xs) → ConclIn xs c →
      ConclIn (pdict kvs :: rest) c
  | later {t : PyVal} {rest : List PyVal} {c : String} :
      ConclIn rest c → ConclIn (t :: rest) c

/-- A `(conclusion, score)` pair the scorer assigns to some node of the
tree, at the depth the walk reaches it (`subtasks` of truthy lists only,
as walked by `find_best_in_tree`). -/
inductive ScoreIn : List PyVal → Nat → Option PyVal → Nat → Prop where
  | here {kvs : List (String × PyVal)} {rest : List PyVal} {depth : Nat}
      {co : Option PyVal} {sc : Nat} :
      score_task kvs depth = .ok (co, sc) → ScoreIn (pdict kvs :: rest) depth co sc
  | sub {kvs : List (String × PyVal)} {rest xs : List PyVal} {depth : Nat}
      {co : Option PyVal} {sc : Nat} :
      dget kvs "subtasks" = some (plist xs) → pyTruthy (plist xs) = true →
      ScoreIn xs (depth + 1) co sc → ScoreIn (pdict kvs :: rest) depth co sc
  | later {t : PyVal} {rest : List PyVal} {depth : Nat} {co : Option PyVal}
      {sc : Nat} : ScoreIn rest depth co sc → ScoreIn (t :: rest) depth co sc

/-- A scored `some` conclusion is the node's truthy `conclusion` field. -/
theorem score_task_some_inv {kvs : List (String × PyVal)} {depth : Nat}
    {v : PyVal} {sc : Nat} (h : score_task kvs depth = .ok (some v, sc)) :
    pyTruthy v = true ∧ dget kvs "conclusion" = some v := by
  unfold score_task at h
  cases ht : (dget kvs "title").getD (pstr "") with
  | pstr t =>
    rw [ht] at h
    simp only [] at h
    by_cases htr : pyTruthy ((dget kvs "conclusion").getD (pstr "")) = true
    · rw [if_neg (not_not_intro htr)] at h
      cases hl : pyLen ((dget kvs "conclusion").getD (pstr "")) with
      | error e =>
        rw [hl] at h
        exact Except.noConfusion h
      | ok len =>
        rw [hl] at h
        injection h with h2
        injection h2 with h3 h4
        injection h3 with h5
        subst h5
        refine ⟨htr, ?_⟩
        cases hd : dget kvs "conclusion" with
        | none =>
          rw [hd] at htr
          exact absurd htr (by decide)
        | some w => rfl
    · rw [if_pos htr] at h
      injection h with h2
      injection h2 with h3 h4
      exact Option.noConfusion h3
  | pnone =>
    rw [ht] at h
    exact Except.noConfusion h
  | pbool b =>
    rw [ht] at h
    exact Except.noConfusion h
  | pint n =>
    rw [ht] at h
    exact Except.noConfusion h
  | pfloat q =>
    rw [ht] at h
    exact Except.noConfusion h
  | plist xs =>
    rw [ht] at h
    exact Except.noConfusion h
  | pdict kvs2 =>
    rw [ht] at h
    exact Except.noConfusion h
  | pobj attrs =>
    rw [ht] at h
    exact Except.noConfusion h

/-- A scored string conclusion is a `conclusion` field of the tree
(generalized over the option for the induction). -/
theorem ScoreIn_ConclIn_aux {l : List PyVal} {depth : Nat} {co : Option PyVal}
    {sc : Nat} (h : ScoreIn l depth co sc) :
    ∀ s, co = some (pstr s) → ConclIn l s := by
  induction h with
  | here hs =>
    intro s hco
    subst hco
    exact ConclIn.here (score_task_some_inv hs).2
  | sub hd htr _ ih =>
    intro s hco
    exact ConclIn.sub hd (ih s hco)
  | later _ ih =>
    intro s hco
    exact ConclIn.later (ih s hco)

/-- A scored string conclusion is a `conclusion` field of the tree. -/
theorem ScoreIn_some_ConclIn {l : List PyVal} {depth : Nat} {s : String}
    {sc : Nat} (h : ScoreIn l depth (some (pstr s)) sc) : ConclIn l s :=
  ScoreIn_ConclIn_aux h s rfl

/-- Membership in a node's kept conclusion forces the conclusion value. -/
theorem mem_collectHere_eq {x c : String} (hx : x ∈ collectHere c) :
    x = c ∧ pyTruthy (pstr c) = true := by
  unfold collectHere at hx
  by_cases h1 : pyTruthy (pstr c) = true
  · rw [if_pos h1] at hx
    by_cases h2 : (pyStrip c).length > 20
    · rw [if_pos h2] at hx
      exact ⟨List.mem_singleton.mp hx, h1⟩
    · rw [if_neg h2] at hx
      cases hx
  · rw [if_neg h1] at hx
    cases hx

/-- The head of the length-descending sort bounds every element's length. -/
theorem sort_headD_max {xs : List String} {x : String} (hx : x ∈ xs) :
    x.length ≤ ((pySortByLenDesc xs).headD "").length := by
  unfold pySortByLenDesc
  have hp := List.mergeSort_perm xs (fun a b => decide (b.length ≤ a.length))
  have hs : List.Pairwise
      (fun a b : String => (fun a b : String => decide (b.length ≤ a.length)) a b = true)
      (xs.mergeSort (fun a b => decide (b.length ≤ a.length))) :=
    List.sorted_mergeSort
      (by
        intro a b c h1 h2
        simp only [decide_eq_true_eq] at h1 h2 ⊢
        omega)
      (by
        intro a b
        simp only [Bool.or_eq_true, decide_eq_true_eq]
        omega)
      xs
  cases hm : xs.mergeSort (fun a b => decide (b.length ≤ a.length)) with
  | nil =>
    rw [hm] at hp
    rw [(List.nil_perm).mp hp] at hx
    cases hx
  | cons a t =>
    rw [hm] at hp hs
    have hx2 : x ∈ a :: t := hp.mem_iff.mpr hx
    rcases List.mem_cons.mp hx2 with rfl | hxt
    · simp
    · have hr := List.rel_of_pairwise_cons hs hxt
      simp only [decide_eq_true_eq] at hr
      simpa using hr

/-- A member of a node's kept conclusion is that node's `conclusion`
field. -/
theorem collectHere_ConclIn {kvs : List (String × PyVal)} {rest : List PyVal}
    {c x : String} (hc0 : (dget kvs "conclusion").getD (pstr "") = pstr c)
    (hx : x ∈ collectHere c) : ConclIn (pdict kvs :: rest) x := by
  obtain ⟨rfl, htr⟩ := mem_collectHere_eq hx
  have hne : x ≠ "" := by simpa [pyTruthy] using htr
  cases hdq : dget kvs "conclusion" with
  | none =>
    rw [hdq] at hc0
    exfalso
    apply hne
    injection hc0 with h2
    exact h2.symm
  | some w =>
    rw [hdq] at hc0
    have hw2 : w = pstr x := hc0
    rw [hw2] at hdq
    exact ConclIn.here hdq

/-- Every collected conclusion is a `conclusion` field of the tree. -/
theorem collect_mem : ∀ (n : Nat) (tasks : List PyVal), sizeOf tasks ≤ n →
    wfNodeList tasks = true → ∀ cs, collect_all_conclusions tasks = .ok cs →
    ∀ c ∈ cs, ConclIn tasks c := by
  intro n
  induction n with
  | zero =>
    intro tasks hle _
    cases tasks with
    | nil => simp at hle
    | cons t ts => simp at hle
  | succ n ih =>
    intro tasks hle hw cs hcs c hc
    cases tasks with
    | nil =>
      simp only [collect_all_conclusions] at hcs
      cases hcs
      cases hc
    | cons task rest =>
      simp only [wfNodeList, Bool.and_eq_true] at hw
      have hszr : sizeOf rest ≤ n := by
        simp only [List.cons.sizeOf_spec] at hle
        omega
      cases task with
      | pdict kvs =>
        have hwk : wfEntries kvs = true := hw.1
        obtain ⟨c0, hc0⟩ := wf_dget_scalar hwk "conclusion" (Or.inr rfl)
        obtain ⟨csr, hcsr, _⟩ := collect_wf n rest hszr hw.2
        cases hsub : dget kvs "subtasks" with
        | none =>
          rw [collect_cons_none hc0 hsub hcsr] at hcs
          injection hcs with hcs2
          subst hcs2
          rcases List.mem_append.mp hc with hx | hx
          · exact collectHere_ConclIn hc0 hx
          · exact ConclIn.later (ih rest hszr hw.2 csr hcsr c hx)
        | some sv =>
          obtain ⟨xs, hsv, hwxs⟩ :=
            wfEntry_subtasks_plist (dget_wfEntries kvs "subtasks" sv hwk hsub)
          subst hsv
          have hszxs : sizeOf xs ≤ n := by
            have hlt := sizeOf_dget hsub
            simp only [List.cons.sizeOf_spec, PyVal.pdict.sizeOf_spec] at hle
            simp only [PyVal.plist.sizeOf_spec] at hlt
            omega
          obtain ⟨css, hcss, _⟩ := collect_wf n xs hszxs hwxs
          by_cases htr : pyTruthy (plist xs) = true
          · rw [collect_cons_plist hc0 hsub (by rw [if_pos htr, hcss]) hcsr] at hcs
            injection hcs with hcs2
            subst hcs2
            rcases List.mem_append.mp hc with hx | hx
            · rcases List.mem_append.mp hx with hx | hx
              · exact collectHere_ConclIn hc0 hx
              · exact ConclIn.sub hsub (ih xs hszxs hwxs css hcss c hx)
            · exact ConclIn.later (ih rest hszr hw.2 csr hcsr c hx)
          · rw [collect_cons_plist hc0 hsub (by rw [if_neg htr]) hcsr] at hcs
            injection hcs with hcs2
            subst hcs2
            rcases List.mem_append.mp hc with hx | hx
            · rcases List.mem_append.mp hx with hx | hx
              · exact collectHere_ConclIn hc0 hx
              · cases hx
            · exact ConclIn.later (ih rest hszr hw.2 csr hcsr c hx)
      | pnone => simp [wfNode] at hw
      | pbool b => simp [wfNode] at hw
      | pint m => simp [wfNode] at hw
      | pfloat q => simp [wfNode] at hw
      | pstr s => simp [wfNode] at hw
      | plist xs => simp [wfNode] at hw
      | pobj attrs => simp [wfNode] at hw

/-- On a well-formed tree, `find_best_in_tree` returns a pair whose score
bounds the running best and every score of the tree, and which is either
the running best or a scored pair of the tree. -/
theorem find_best_max : ∀ (n : Nat) (tasks : List PyVal) (depth : Nat)
    (best res : Option PyVal × Nat), sizeOf tasks ≤ n → wfNodeList tasks = true →
    find_best_in_tree tasks depth best = .ok res →
    best.2 ≤ res.2 ∧ (∀ co sc, ScoreIn tasks depth co sc → sc ≤ res.2) ∧
      (res = best ∨ ScoreIn tasks depth res.1 res.2) := by
  intro n
  induction n with
  | zero =>
    intro tasks depth best res hle _ _
    cases tasks with
    | nil => simp at hle
    | cons t ts => simp at hle
  | succ n ih =>
    intro tasks depth best res hle hw hfb
    cases tasks with
    | nil =>
      simp only [find_best_in_tree] at hfb
      injection hfb with h2
      subst h2
      refine ⟨le_refl _, ?_, Or.inl rfl⟩
      intro co sc hsc
      cases hsc
    | cons task rest =>
      simp only [wfNodeList, Bool.and_eq_true] at hw
      have hszr : sizeOf rest ≤ n := by
        simp only [List.cons.sizeOf_spec] at hle
        omega
      cases task with
      | pdict kvs =>
        have hwk : wfEntries kvs = true := hw.1
        obtain ⟨co, sc, hs, _⟩ := score_task_wf hwk depth
        obtain ⟨b1, hb1e⟩ : ∃ b1, (if sc > best.2 then (co, sc) else best) = b1 :=
          ⟨_, rfl⟩
        have h_best_b1 : best.2 ≤ b1.2 := by
          rw [← hb1e]
          by_cases hgt : sc > best.2 <;> simp [hgt] <;> omega
        have h_sc_b1 : sc ≤ b1.2 := by
          rw [← hb1e]
          by_cases hgt : sc > best.2 <;> simp [hgt] <;> omega
        have h_b1_cases : b1 = best ∨ b1 = (co, sc) := by
          rw [← hb1e]
          by_cases hgt : sc > best.2 <;> simp [hgt]
        cases hsub : dget kvs "subtasks" with
        | none =>
          rw [find_best_cons_none hs hb1e hsub] at hfb
          obtain ⟨h1, h2, h3⟩ := ih rest depth b1 res hszr hw.2 hfb
          refine ⟨le_trans h_best_b1 h1, ?_, ?_⟩
          · intro co2 sc2 hsc2
            cases hsc2 with
            | here hs2 =>
              rw [hs] at hs2
              injection hs2 with h4
              injection h4 with h5 h6
              subst h6
              exact le_trans h_sc_b1 h1
            | sub hd htr2 hsx =>
              rw [hsub] at hd
              exact Option.noConfusion hd
            | later hsr => exact h2 co2 sc2 hsr
          · rcases h3 with h3 | h3
            · subst h3
              rcases h_b1_cases with h4 | h4
              · exact Or.inl h4
              · rw [h4]
                exact Or.inr (ScoreIn.here hs)
            · exact Or.inr (ScoreIn.later h3)
        | some sv =>
          obtain ⟨xs, hsv, hwxs⟩ :=
            wfEntry_subtasks_plist (dget_wfEntries kvs "subtasks" sv hwk hsub)
          subst hsv
          by_cases htr : pyTruthy (plist xs) = true
          · have hszxs : sizeOf xs ≤ n := by
              have hlt := sizeOf_dget hsub
              simp only [List.cons.sizeOf_spec, PyVal.pdict.sizeOf_spec] at hle
              simp only [PyVal.plist.sizeOf_spec] at hlt
              omega
            obtain ⟨sbc, hsbc, _⟩ := find_best_wf n xs (depth + 1) (none, 0)
              hszxs hwxs (fun v hv => Option.noConfusion hv)
            obtain ⟨g1, g2, g3⟩ := ih xs (depth + 1) (none, 0) sbc hszxs hwxs hsbc
            rw [find_best_cons_plist_truthy hs hb1e hsub htr hsbc] at hfb
            obtain ⟨b2, hb2e⟩ : ∃ b2, (if sbc.2 > b1.2 then sbc else b1) = b2 :=
              ⟨_, rfl⟩
            rw [hb2e] at hfb
            obtain ⟨h1, h2, h3⟩ := ih rest depth b2 res hszr hw.2 hfb
            have h_b1_b2 : b1.2 ≤ b2.2 := by
              rw [← hb2e]
              by_cases hgt : sbc.2 > b1.2 <;> simp [hgt] <;> omega
            have h_sbc_b2 : sbc.2 ≤ b2.2 := by
              rw [← hb2e]
              by_cases hgt : sbc.2 > b1.2 <;> simp [hgt] <;> omega
            have h_b2_cases : b2 = b1 ∨ b2 = sbc := by
              rw [← hb2e]
              by_cases hgt : sbc.2 > b1.2 <;> simp [hgt]
            refine ⟨le_trans h_best_b1 (le_trans h_b1_b2 h1), ?_, ?_⟩
            · intro co2 sc2 hsc2
              cases hsc2 with
              | here hs2 =>
                rw [hs] at hs2
                injection hs2 with h4
                injection h4 with h5 h6
                subst h6
                exact le_trans h_sc_b1 (le_trans h_b1_b2 h1)
              | sub hd htr2 hsx =>
                rw [hsub] at hd
                injection hd with hd2
                injection hd2 with hd3
                subst hd3
                exact le_trans (g2 co2 sc2 hsx) (le_trans h_sbc_b2 h1)
              | later hsr => exact h2 co2 sc2 hsr
            · rcases h3 with h3 | h3
              · subst h3
                rcases h_b2_cases with h4 | h4
                · rcases h_b1_cases with h5 | h5
                  · exact Or.inl (h4.trans h5)
                  · rw [h4, h5]
                    exact Or.inr (ScoreIn.here hs)
                · rcases g3 with g4 | g4
                  · have hgt : ¬ sbc.2 > b1.2 := by
                      rw [g4]
                      omega
                    have h6 : res = b1 := by rw [← hb2e, if_neg hgt]
                    rcases h_b1_cases with h5 | h5
                    · exact Or.inl (h6.trans h5)
                    · rw [h6, h5]
                      exact Or.inr (ScoreIn.here hs)
                  · rw [h4]
                    exact Or.inr (ScoreIn.sub hsub htr g4)
              · exact Or.inr (ScoreIn.later h3)
          · have htr2 : pyTruthy (plist xs) = false := by
              cases h0 : pyTruthy (plist xs)
              · rfl
              · exact absurd h0 htr
            rw [find_best_cons_plist_falsy hs hb1e hsub htr2] at hfb
            obtain ⟨h1, h2, h3⟩ := ih rest depth b1 res hszr hw.2 hfb
            refine ⟨le_trans h_best_b1 h1, ?_, ?_⟩
            · intro co2 sc2 hsc2
              cases hsc2 with
              | here hs2 =>
                rw [hs] at hs2
                injection hs2 with h4
                injection h4 with h5 h6
                subst h6
                exact le_trans h_sc_b1 h1
              | sub hd htr3 hsx =>
                rw [hsub] at hd
                injection hd with hd2
                injection hd2 with hd3
                subst hd3
                exact absurd htr3 htr
              | later hsr => exact h2 co2 sc2 hsr
            · rcases h3 with h3 | h3
              · subst h3
                rcases h_b1_cases with h4 | h4
                · exact Or.inl h4
                · rw [h4]
                  exact Or.inr (ScoreIn.here hs)
              · exact Or.inr (ScoreIn.later h3)
      | pnone => simp [wfNode] at hw
      | pbool b => simp [wfNode] at hw
      | pint m => simp [wfNode] at hw
      | pfloat q => simp [wfNode] at hw
      | pstr s => simp [wfNode] at hw
      | plist xs => simp [wfNode] at hw
      | pobj attrs => simp [wfNode] at hw

/-- The substantial-or-joined tail of the synthesizer: either the longest
collected conclusion over 100 characters, or the blank-line join of the
first five. -/
theorem synth_tail_char {cs : List String} (hne : cs ≠ [])
    (hpc : ∀ c ∈ cs, (pyStrip c).length > 20) :
    ∃ s, (if ¬ (cs.filter (fun c => c.length > 100)).isEmpty = true then
            (Except.ok
              (pstr ((pySortByLenDesc (cs.filter (fun c => c.length > 100))).headD "")) :
              Except String PyVal)
          else Except.ok (pstr (joinBlank (cs.take 5)))) = .ok (pstr s) ∧
      ((s ∈ cs ∧ s.length > 100 ∧ ∀ c ∈ cs, c.length ≤ s.length) ∨
       s = joinBlank (cs.take 5)) := by
  by_cases hf : (cs.filter (fun c => c.length > 100)).isEmpty = true
  · rw [if_neg (not_not_intro hf)]
    exact ⟨_, rfl, Or.inr rfl⟩
  · rw [if_pos hf]
    have hfne : cs.filter (fun c => c.length > 100) ≠ [] := fun h0 =>
      hf (by simp [h0])
    have hmem := sort_headD_mem hfne
    have hmf := List.mem_filter.mp hmem
    refine ⟨_, rfl, Or.inl ⟨hmf.1, by simpa using hmf.2, ?_⟩⟩
    intro c hc
    by_cases hc100 : c.length > 100
    · exact sort_headD_max (List.mem_filter.mpr ⟨hc, by simpa⟩)
    · have hh : ((pySortByLenDesc
          (cs.filter (fun c => c.length > 100))).headD "").length > 100 := by
        simpa using hmf.2
      omega

/-- C4: on well-formed serializer output, the synthesizer works from the
conclusions of the tree: the collector keeps only conclusions stripping to
more than 20 characters, each a `conclusion` field of the tree, and the
answer is the top-scoring conclusion when over 200 characters (its score
maximal among all scored nodes, scaling with the marker and depth-0 factors
of `score_task`), else the longest collected conclusion over 100
characters, else the join of the first five collected conclusions, else a
fixed fallback string. -/
theorem synthesize_answer_characterization (l : List PyVal)
    (hw : wfNodeList l = true) :
    ∃ cs, collect_all_conclusions l = .ok cs ∧
      (∀ c ∈ cs, (pyStrip c).length > 20 ∧ ConclIn l c) ∧
      ∃ s, synthesize_answer_from_reasoning l = .ok (pstr s) ∧
        ((∃ sc, ScoreIn l 0 (some (pstr s)) sc ∧
            (∀ co sc2, ScoreIn l 0 co sc2 → sc2 ≤ sc) ∧
            ConclIn l s ∧ s.length > 200) ∨
         (s ∈ cs ∧ s.length > 100 ∧ ∀ c ∈ cs, c.length ≤ s.length) ∨
         (cs ≠ [] ∧ s = joinBlank (cs.take 5)) ∨
         (cs = [] ∧ s = "No analysis results available.") ∨
         s = "Research completed but no summary available.") := by
  obtain ⟨cs, hcs, hpc⟩ := collect_wf (sizeOf l) l le_rfl hw
  have hmem := collect_mem (sizeOf l) l le_rfl hw cs hcs
  refine ⟨cs, hcs, fun c hc => ⟨hpc c hc, hmem c hc⟩, ?_⟩
  by_cases hemp0 : cs.isEmpty = true
  · unfold synthesize_answer_from_reasoning
    rw [hcs]
    simp only [hemp0, if_true, ite_true]
    exact ⟨"No analysis results available.", rfl,
      Or.inr (Or.inr (Or.inr (Or.inl ⟨List.isEmpty_iff.mp hemp0, rfl⟩)))⟩
  · have hemp : cs.isEmpty = false := by
      cases h0 : cs.isEmpty
      · rfl
      · exact absurd h0 hemp0
    have hne : cs ≠ [] := by
      intro h0
      subst h0
      exact hemp0 rfl
    obtain ⟨⟨bo, bn⟩, hfb, hbs⟩ := find_best_wf (sizeOf l) l 0 (none, 0) le_rfl hw
      (fun v hv => Option.noConfusion hv)
    obtain ⟨_, hmax, hach⟩ := find_best_max (sizeOf l) l 0 (none, 0) (bo, bn)
      le_rfl hw hfb
    unfold synthesize_answer_from_reasoning
    rw [hcs]
    simp only [hemp, hfb, Bool.false_eq_true, if_false, ite_false, not_false_iff,
      if_true, ite_true]
    cases bo with
    | none =>
      obtain ⟨s, hs_eq, hdisj⟩ := synth_tail_char hne hpc
      refine ⟨s, hs_eq, ?_⟩
      rcases hdisj with h | h
      · exact Or.inr (Or.inl h)
      · exact Or.inr (Or.inr (Or.inl ⟨hne, h⟩))
    | some bc =>
      obtain ⟨s0, rfl, hs0⟩ := hbs bc rfl
      have htr : pyTruthy (pstr s0) = true := by simp [pyTruthy, hs0]
      by_cases hlen : s0.length > 200
      · simp only [htr, if_true, ite_true, pyLen, hlen]
        have hsc : ScoreIn l 0 (some (pstr s0)) bn := by
          rcases hach with h4 | h4
          · exfalso
            have h5 := congrArg Prod.fst h4
            simp at h5
          · exact h4
        exact ⟨s0, rfl, Or.inl ⟨bn, hsc,
          fun co sc2 hsc2 => hmax co sc2 hsc2, ScoreIn_some_ConclIn hsc, hlen⟩⟩
      · simp only [htr, if_true, ite_true, pyLen, hlen, if_false, ite_false]
        obtain ⟨s, hs_eq, hdisj⟩ := synth_tail_char hne hpc
        refine ⟨s, hs_eq, ?_⟩
        rcases hdisj with h | h
        · exact Or.inr (Or.inl h)
        · exact Or.inr (Or.inr (Or.inl ⟨hne, h⟩))

/-- Witness for the C4 characterization on a one-node tree whose conclusion
is joined (no conclusion over 100 characters). -/
theorem synthesize_answer_characterization_witness :
    ∃ cs, collect_all_conclusions
        [pdict [("conclusion",
          pstr "a conclusion well over twenty characters long")]] = .ok cs ∧
      (∀ c ∈ cs, (pyStrip c).length > 20 ∧
        ConclIn [pdict [("conclusion",
          pstr "a conclusion well over twenty characters long")]] c) ∧
      ∃ s, synthesize_answer_from_reasoning
          [pdict [("conclusion",
            pstr "a conclusion well over twenty characters long")]] =
          .ok (pstr s) ∧
        ((∃ sc, ScoreIn [pdict [("conclusion",
              pstr "a conclusion well over twenty characters long")]] 0
              (some (pstr s)) sc ∧
            (∀ co sc2, ScoreIn [pdict [("conclusion",
              pstr "a conclusion well over twenty characters long")]] 0
              co sc2 → sc2 ≤ sc) ∧
            ConclIn [pdict [("conclusion",
              pstr "a conclusion well over twenty characters long")]] s ∧
            s.length > 200) ∨
         (s ∈ cs ∧ s.length > 100 ∧ ∀ c ∈ cs, c.length ≤ s.length) ∨
         (cs ≠ [] ∧ s = joinBlank (cs.take 5)) ∨
         (cs = [] ∧ s = "No analysis results available.") ∨
         s = "Research completed but no summary available.") :=
  synthesize_answer_characterization
    [pdict [("conclusion", pstr "a conclusion well over twenty characters long")]]
    (by decide)

/-- C2 (counterexample): the reconstructor is not total — a list-shaped
reasoning input whose node holds a truthy non-iterable `subtasks` value
makes `_extract_answer` raise `TypeError` instead of returning a pair. -/
theorem extract_answer_raises_counterexample :
    extract_answer pnone (plist [pdict [("subtasks", pint 1)]]) =
      .error "TypeError: object is not iterable" := by
  have h0 : dget [("subtasks", pint 1)] "subtasks" = some (pint 1) := rfl
  have herr : serialize_subtasks_val (pint 1) =
      .error "TypeError: object is not iterable" := by
    simp [serialize_subtasks_val]
  have h1 : serialize_task (pdict [("subtasks", pint 1)]) =
      .error "TypeError: object is not iterable" :=
    serialize_task_dict_some_true_err h0 (by decide) herr
  have h2 : serialize_task_list [pdict [("subtasks", pint 1)]] =
      .error "TypeError: object is not iterable" := by
    simp only [serialize_task_list, h1]
  have h3 : serialize_reasoning (plist [pdict [("subtasks", pint 1)]]) =
      .error "TypeError: object is not iterable" := by
    simp [serialize_reasoning, pyTruthy, h2]
  unfold extract_answer
  simp only []
  rw [show effectiveReasoning pnone (plist [pdict [("subtasks", pint 1)]]) =
      plist [pdict [("subtasks", pint 1)]] from rfl]
  rw [h3]

/-- C2 (amended): for answer inputs of the documented shapes (string, SDK
object or null), whenever the reasoning serializer succeeds on the
effective reasoning value the reconstructor returns a pair whose first
component is a non-empty string; totality over all reasoning inputs is
refuted by the counterexample above. -/
theorem extract_answer_ok_of_serializable (a r : PyVal)
    (ha : a = pnone ∨ (∃ s, a = pstr s) ∨ (∃ attrs, a = pobj attrs))
    (processed : List PyVal)
    (h : serialize_reasoning (effectiveReasoning a r) = .ok processed) :
    ∃ s, extract_answer a r = .ok (s, processed) ∧ s ≠ "" := by
  rcases ha with rfl | ⟨s, rfl⟩ | ⟨attrs, rfl⟩
  · exact extract_answer_core pnone r processed h (Or.inl rfl)
  · rcases answerAfterJson_str_shape s with h1 | ⟨v, h1⟩
    · exact extract_answer_core (pstr s) r processed h (Or.inl h1)
    · exact extract_answer_core (pstr s) r processed h (Or.inr (Or.inl ⟨v, h1⟩))
  · exact extract_answer_core (pobj attrs) r processed h
      (Or.inr (Or.inr ⟨attrs, rfl⟩))

/-- Witness for the amended C2 theorem at a concrete input: a null answer
with a null reasoning serializes to `[]` and yields a non-empty fallback
answer. -/
theorem extract_answer_ok_of_serializable_witness :
    ∃ s, extract_answer pnone pnone = .ok (s, []) ∧ s ≠ "" :=
  extract_answer_ok_of_serializable pnone pnone (Or.inl rfl) [] rfl

/-- The salvage candidates of `_salvage_truncated_json`: the `conclusion`
extracts kept over 50 characters followed by the five answer-field extracts
kept over 100 characters, all unescaped. -/
def salvageParts (content : String) : List String :=
  let cs := content.data
  let conclusions := findallField (quoteField "conclusion") cs
  let parts1 := conclusions.foldl
    (fun acc c =>
      let u := unescapeJson c
      if u.length > 50 then acc ++ [u] else acc) []
  ["final_answer", "answer", "summary", "content", "response"].foldl
    (fun acc f =>
      (findallField (quoteField f) cs).foldl
        (fun acc2 m =>
          let u := unescapeJson m
          if u.length > 100 then acc2 ++ [u] else acc2) acc) parts1

/-- The salvage routine returns the longest of its candidate parts. -/
theorem salvage_truncated_json_eq (content : String) :
    salvage_truncated_json content =
      (if (salvageParts content).isEmpty then none
       else some ((pySortByLenDesc (salvageParts content)).headD "")) := rfl

/-- The conclusion fold keeps the unescaped extracts over 50 characters. -/
theorem salvage_fold50 : ∀ (l acc : List String),
    l.foldl (fun acc c =>
      let u := unescapeJson c
      if u.length > 50 then acc ++ [u] else acc) acc =
      acc ++ (l.map unescapeJson).filter (fun u => u.length > 50) := by
  intro l
  induction l with
  | nil =>
    intro acc
    simp
  | cons x xs ih =>
    intro acc
    simp only [List.foldl_cons, List.map_cons, List.filter_cons]
    by_cases hp : (unescapeJson x).length > 50
    · rw [ih]
      simp [hp]
    · rw [ih]
      simp [hp]

/-- The field fold keeps the unescaped extracts over 100 characters. -/
theorem salvage_fold100 : ∀ (l acc : List String),
    l.foldl (fun acc2 m =>
      let u := unescapeJson m
      if u.length > 100 then acc2 ++ [u] else acc2) acc =
      acc ++ (l.map unescapeJson).filter (fun u => u.length > 100) := by
  intro l
  induction l with
  | nil =>
    intro acc
    simp
  | cons x xs ih =>
    intro acc
    simp only [List.foldl_cons, List.map_cons, List.filter_cons]
    by_cases hp : (unescapeJson x).length > 100
    · rw [ih]
      simp [hp]
    · rw [ih]
      simp [hp]

/-- The candidate parts, spelled out per extracted field. -/
theorem salvageParts_eq (content : String) :
    salvageParts content =
      ((findallField (quoteField "conclusion") content.data).map unescapeJson).filter
          (fun u => u.length > 50) ++
        (((findallField (quoteField "final_answer") content.data).map
            unescapeJson).filter (fun u => u.length > 100) ++
        (((findallField (quoteField "answer") content.data).map
            unescapeJson).filter (fun u => u.length > 100) ++
        (((findallField (quoteField "summary") content.data).map
            unescapeJson).filter (fun u => u.length > 100) ++
        (((findallField (quoteField "content") content.data).map
            unescapeJson).filter (fun u => u.length > 100) ++
        ((findallField (quoteField "response") content.data).map
            unescapeJson).filter (fun u => u.length > 100))))) := by
  unfold salvageParts
  simp only [List.foldl_cons, List.foldl_nil]
  rw [salvage_fold50, salvage_fold100, salvage_fold100, salvage_fold100,
    salvage_fold100, salvage_fold100]
  simp [List.append_assoc]

/-- One-step unfolding of the JSON phase on a string input. -/
theorem answerAfterJson_str_red (s : String) :
    answerAfterJson (pstr s) =
      (if pyStartsWith (pyStrip s) lbraceS then
         match jsonParse s with
         | some (pdict parsed) =>
           (match firstAnswerField parsed with
            | some v => pstr v
            | none => pnone)
         | some _ => pstr s
         | none =>
           if s.length > 500 then
             match salvage_truncated_json s with
             | some sal => pstr sal
             | none => pstr s
           else pstr s
       else pstr s) := rfl

/-- With a brace-led string answer that fails to parse, the embedded
reasoning replacement does not fire. -/
theorem effectiveReasoning_str_unparsed (s : String) (r : PyVal)
    (hb : pyStartsWith (pyStrip s) lbraceS = true)
    (hj : jsonParse s = none) :
    effectiveReasoning (pstr s) r = r := by
  have hred : effectiveReasoning (pstr s) r =
      (if pyStartsWith (pyStrip s) lbraceS then
         match jsonParse s with
         | some (pdict parsed) =>
           (match dget parsed "reasoning" with
            | some (plist xs) => plist xs
            | _ => r)
         | _ => r
       else r) := rfl
  rw [hred, if_pos hb, hj]

/-- A stripped string that starts with a brace is non-empty. -/
theorem strip_ne_of_startsWith {s : String}
    (hb : pyStartsWith (pyStrip s) lbraceS = true) : pyStrip s ≠ "" := by
  intro h0
  rw [h0] at hb
  exact absurd hb (by decide)

/-- The reconstructor keeps a string answer with non-empty strip verbatim
when the reasoning serializes to the empty list. -/
theorem extract_answer_of_str {s t : String}
    (ha1 : answerAfterJson (pstr s) = pstr t)
    (hrs : serialize_reasoning (effectiveReasoning (pstr s) pnone) = .ok [])
    (hst : pyStrip t ≠ "") :
    extract_answer (pstr s) pnone = .ok (t, []) := by
  unfold extract_answer
  simp only []
  rw [hrs, ha1]
  simp only [isNone, Bool.false_or, hst, decide_False, Bool.false_eq_true,
    false_and, if_false, ite_false]
  by_cases hblob : (pyStartsWith (pyStrip t) lbraceS &&
      decide (t.length > 1000)) = true
  · simp only [hblob, if_true, ite_true, List.isEmpty_nil, not_true, if_false,
      ite_false]
    rfl
  · simp only [hblob, if_false, ite_false]
    rfl

/-- C7 (amended): for a brace-led string answer that fails JSON parsing —
taken with a null raw reasoning, so that no synthesis interferes — the
reconstructor keeps the raw text verbatim when it is at most 500 characters
or nothing is salvaged, and otherwise answers with the salvage result: the
single longest candidate among the `conclusion` extracts over 50 characters
and the answer-field extracts over 100 characters (unescaped), kept
verbatim as the answer whenever it does not strip to the empty string.  The
originally claimed uniform 100-character cut-off is refuted by the
counterexample below. -/
theorem salvage_answer_behavior (s : String)
    (hb : pyStartsWith (pyStrip s) lbraceS = true)
    (hj : jsonParse s = none) :
    (¬ s.length > 500 → extract_answer (pstr s) pnone = .ok (s, [])) ∧
    (s.length > 500 →
      (salvage_truncated_json s = none →
        extract_answer (pstr s) pnone = .ok (s, [])) ∧
      (∀ sal, salvage_truncated_json s = some sal →
        sal ∈ salvageParts s ∧ (∀ p ∈ salvageParts s, p.length ≤ sal.length) ∧
        (pyStrip sal ≠ "" → extract_answer (pstr s) pnone = .ok (sal, [])))) := by
  have hrs : serialize_reasoning (effectiveReasoning (pstr s) pnone) = .ok [] := by
    rw [effectiveReasoning_str_unparsed s pnone hb hj]
    rfl
  have h1 : answerAfterJson (pstr s) =
      (if s.length > 500 then
        match salvage_truncated_json s with
        | some sal => pstr sal
        | none => pstr s
       else pstr s) := by
    rw [answerAfterJson_str_red, if_pos hb, hj]
  refine ⟨?_, ?_⟩
  · intro hlen
    have hA : answerAfterJson (pstr s) = pstr s := by rw [h1, if_neg hlen]
    exact extract_answer_of_str hA hrs (strip_ne_of_startsWith hb)
  · intro hlen
    refine ⟨?_, ?_⟩
    · intro hsal
      have hA : answerAfterJson (pstr s) = pstr s := by
        rw [h1, if_pos hlen, hsal]
      exact extract_answer_of_str hA hrs (strip_ne_of_startsWith hb)
    · intro sal hsal
      have hA : answerAfterJson (pstr s) = pstr sal := by
        rw [h1, if_pos hlen, hsal]
      have hsome := hsal
      rw [salvage_truncated_json_eq] at hsome
      by_cases hpe : (salvageParts s).isEmpty = true
      · rw [if_pos hpe] at hsome
        exact Option.noConfusion hsome
      · rw [if_neg hpe] at hsome
        injection hsome with h2
        have hne : salvageParts s ≠ [] := fun h0 => hpe (by simp [h0])
        subst h2
        exact ⟨sort_headD_mem hne, fun p hp => sort_headD_max hp,
          fun hst => extract_answer_of_str hA hrs hst⟩

/-- A 60-character conclusion value: salvaged despite being shorter than
100 characters. -/
def ce7_concl : String := String.mk (List.replicate 60 'c')

/-- A truncated JSON document over 500 characters whose only salvageable
part is the 60-character conclusion. -/
def ce7_raw : String :=
  "\x7b\"conclusion\": \"" ++ ce7_concl ++ "\", \"data\": \"" ++
    String.mk (List.replicate 500 'f')

/-- Sorting a one-element list returns it unchanged. -/
theorem pySortByLenDesc_singleton (x : String) : pySortByLenDesc [x] = [x] :=
  List.perm_singleton.mp (List.mergeSort_perm [x] _)

/-- C7 (counterexample): a brace-led, unparsable answer over 500 characters
whose salvaged answer is only 60 characters long — under the original claim
the answer would have to be at least 100 characters or the verbatim raw
text, and it is neither. -/
theorem salvage_length_counterexample :
    pyStartsWith (pyStrip ce7_raw) lbraceS = true ∧
    jsonParse ce7_raw = none ∧ ce7_raw.length > 500 ∧
    extract_answer (pstr ce7_raw) pnone = .ok (ce7_concl, []) ∧
    ce7_concl.length < 100 ∧ ce7_concl ≠ ce7_raw := by
  have hb : pyStartsWith (pyStrip ce7_raw) lbraceS = true := rfl
  have hj : jsonParse ce7_raw = none := rfl
  have hparts : salvageParts ce7_raw = [ce7_concl] := rfl
  have hsal : salvage_truncated_json ce7_raw = some ce7_concl := by
    rw [salvage_truncated_json_eq, hparts, pySortByLenDesc_singleton]
    rfl
  have hA : answerAfterJson (pstr ce7_raw) = pstr ce7_concl := by
    rw [answerAfterJson_str_red, if_pos hb, hj,
      if_pos (by decide : ce7_raw.length > 500), hsal]
  have hrs : serialize_reasoning (effectiveReasoning (pstr ce7_raw) pnone) =
      .ok [] := by
    rw [effectiveReasoning_str_unparsed _ _ hb hj]
    rfl
  exact ⟨hb, hj, by decide, extract_answer_of_str hA hrs (by decide),
    by decide, by decide⟩

/-- Witness for the amended C7 theorem at the concrete truncated document:
its hypotheses are discharged by computation. -/
theorem salvage_answer_behavior_witness :
    (¬ ce7_raw.length > 500 →
      extract_answer (pstr ce7_raw) pnone = .ok (ce7_raw, [])) ∧
    (ce7_raw.length > 500 →
      (salvage_truncated_json ce7_raw = none →
        extract_answer (pstr ce7_raw) pnone = .ok (ce7_raw, [])) ∧
      (∀ sal, salvage_truncated_json ce7_raw = some sal →
        sal ∈ salvageParts ce7_raw ∧
        (∀ p ∈ salvageParts ce7_raw, p.length ≤ sal.length) ∧
        (pyStrip sal ≠ "" →
          extract_answer (pstr ce7_raw) pnone = .ok (sal, [])))) :=
  salvage_answer_behavior ce7_raw rfl rfl

/-- Witness for the C10 invariant on a concrete nested reasoning tree. -/
theorem serialize_reasoning_nodes_wf_witness :
    wfNodeList [pdict [("title", pstr "t")]] = true :=
  serialize_reasoning_nodes_wf (plist [pdict [("title", pstr "t")]])
    [pdict [("title", pstr "t")]]
    (by
      have h0 : dget [("title", pstr "t")] "subtasks" = none := rfl
      have h1 : serialize_task (pdict [("title", pstr "t")]) =
          .ok (pdict [("title", pstr "t")]) := by
        rw [serialize_task_dict_none h0]
        rfl
      simp [serialize_reasoning, serialize_task_list, h1, pyTruthy])

end ResearchAgent
